import Mathlib

/-!
# Bulletin board server (`src/main.cpp`): shallow embedding and verified properties

The C++ program is an HTTP server whose handlers read and update an in-memory store
(`BulletinBoardApp`).  The embedding below translates the store, the request and
response records and every API handler into pure Lean functions with explicit state
passing: a handler `void h(const HttpRequest&, HttpResponse&)` of the class becomes
`h : BulletinBoardApp → HttpRequest → HttpResponse → BulletinBoardApp × HttpResponse`.

Modelling conventions.

* `std::string` is `List Char`, one `Char` per byte.
* `std::unordered_map` is a list of key/value pairs with lookup by key, and
  `std::unordered_set<int>` is a list of members.  The iteration order of the C++
  containers is unspecified, so statements about iterated output are phrased up to
  the order of the list.
* `int` values are `Int`.  The two id counters only grow by one per successful
  request; the handlers describe the runs in which they stay inside the `int` range.
  Where the range of the advert counter matters (the ids along arbitrarily long runs),
  `handleCreateAdInt32` takes the increment in 32 bits and `StepInRange` is the step
  relation of the requests in which that increment does not overflow.
* An out-of-range `users_[i]` is undefined behaviour in C++; handlers that index
  `users_` return `Option`, with `none` standing for that case.
* The handlers run one after another (each request is handled to completion), which is
  the behaviour of the server under sequential requests.
* What the C++ standard library decides (`std::hash`, `std::stod`, the formatting of a
  `double`) is a parameter, `StdLib`; the random draws of `generateToken` and the clock
  are arguments of the handlers that use them.
* Routing and request parsing return `Except Fault`: an exception that no code catches
  (`std::stoi`, `std::stoul`) leaves the connection thread and ends the process, so it is an
  outcome of its own, `Except.error`.  The bytes a connection delivers are the list of the
  results of its `recv` calls; `serveStatic`, which only reads the file system, is a
  parameter of `routeRequest`.
* `sendResponse` is the text it builds; the loop that hands this text to `::send` is not
  part of the embedding.
-/

namespace BulletinBoard

/-- A `std::string`: its sequence of characters. -/
abbrev Str := List Char

/-! ## Helpers of the anonymous namespace -/

/-- The function `std::tolower` in the default "C" locale: only `A`..`Z` are mapped. -/
def tolower (ch : Char) : Char :=
  if 'A'.toNat ≤ ch.toNat ∧ ch.toNat ≤ 'Z'.toNat then Char.ofNat (ch.toNat + 32) else ch

/-- Lower-cases every character (`toLower`, main.cpp 28-34). -/
def toLower (value : Str) : Str := value.map tolower

/-- Membership in the character set `" \t\r\n"` used by `trim`. -/
def isTrimChar (c : Char) : Bool := c == ' ' || c == '\t' || c == '\r' || c == '\n'

/-- The call `value.find_first_not_of(" \t\r\n")`; `none` is `npos`. -/
def findFirstNotOf : Str → Option Nat
  | [] => none
  | c :: cs => if isTrimChar c then (findFirstNotOf cs).map (· + 1) else some 0

/-- The call `value.find_last_not_of(" \t\r\n")`; `none` is `npos`. -/
def findLastNotOf : Str → Option Nat
  | [] => none
  | c :: cs =>
    match findLastNotOf cs with
    | some i => some (i + 1)
    | none => if isTrimChar c then none else some 0

/-- The call `value.substr(pos, n)` for `pos ≤ value.size()`. -/
def substr (value : Str) (pos n : Nat) : Str := (value.drop pos).take n

/-- Strips leading and trailing blanks (`trim`, main.cpp 36-45). -/
def trim (value : Str) : Str :=
  match findFirstNotOf value with
  | none => []
  | some b =>
    match findLastNotOf value with
    | some e => substr value b (e - b + 1)
    | none => value.drop b

/-- Four lower-case hexadecimal digits, zero padded (`std::hex << std::setw(4) << std::setfill('0')`). -/
def hex4 (n : Nat) : Str :=
  let d := Nat.toDigits 16 n
  List.replicate (4 - d.length) '0' ++ d

/-- The text `jsonEscape` writes for one character (the `switch` of main.cpp 105-134). -/
def jsonEscapeChar (ch : Char) : Str :=
  if ch = '"' then ['\\', '"']
  else if ch = '\\' then ['\\', '\\']
  else if ch = '\n' then ['\\', 'n']
  else if ch = '\r' then ['\\', 'r']
  else if ch = '\t' then ['\\', 't']
  else if ch.toNat < 0x20 then ['\\', 'u'] ++ hex4 ch.toNat
  else [ch]

/-- JSON string escaping (`jsonEscape`, main.cpp 100-137). -/
def jsonEscape : Str → Str
  | [] => []
  | ch :: rest => jsonEscapeChar ch ++ jsonEscape rest

/-- Decimal text of an `int` or `long long` (`oss << n`). -/
def decInt (n : Int) : Str := (toString n).toList

/-- Decimal text of a `size_t` (`oss << n`). -/
def decNat (n : Nat) : Str := (toString n).toList

/-! ## Containers -/

/-- A `std::unordered_map<K, V>`: its key/value pairs. -/
abbrev UMap (K V : Type) := List (K × V)

/-- The call `m.find(k)`: the value stored under `k`, if any. -/
def UMap.find {K V : Type} [DecidableEq K] : UMap K V → K → Option V
  | [], _ => none
  | (k', v) :: m, k => if k' = k then some v else UMap.find m k

/-- The call `m.count(k)`. -/
def UMap.count {K V : Type} [DecidableEq K] (m : UMap K V) (k : K) : Nat :=
  if (UMap.find m k).isSome then 1 else 0

/-- The assignment `m[k] = v`: overwrites the value under `k` or adds the pair. -/
def UMap.assign {K V : Type} [DecidableEq K] : UMap K V → K → V → UMap K V
  | [], k, v => [(k, v)]
  | (k', v') :: m, k, v => if k' = k then (k', v) :: m else (k', v') :: UMap.assign m k v

/-- The call `m.erase(k)`. -/
def UMap.erase {K V : Type} [DecidableEq K] : UMap K V → K → UMap K V
  | [], _ => []
  | (k', v) :: m, k => if k' = k then UMap.erase m k else (k', v) :: UMap.erase m k

/-- The map after evaluating `m[k]`: a value-initialised entry is added when `k` is absent. -/
def UMap.touch {K V : Type} [DecidableEq K] (m : UMap K V) (k : K) (dflt : V) : UMap K V :=
  if (UMap.find m k).isSome then m else m ++ [(k, dflt)]

/-- A `std::unordered_set<int>`: its members. -/
abbrev USet := List Int

/-- The call `s.count(x)`. -/
def USet.count (s : USet) (x : Int) : Nat := if x ∈ s then 1 else 0

/-- The call `s.insert(x)`: no effect when `x` is already a member. -/
def USet.insert (s : USet) (x : Int) : USet := if x ∈ s then s else s ++ [x]

/-! ## Data model (main.cpp 140-259) -/

/-- A C++ `double`, as its 64-bit pattern; `0.0` is the all-zero pattern. -/
structure Double where
  bits : Nat
deriving DecidableEq, Repr

/-- The parts of the C++ standard library whose result the program only passes on. -/
structure StdLib where
  /-- The value of `std::hash<std::string>`, a `size_t`. -/
  hash : Str → Nat
  /-- The value of `std::stod`; `none` when it throws. -/
  stod : Str → Option Double
  /-- The text of `std::fixed << std::setprecision(2) << d`. -/
  fixed2 : Double → Str

/-- The struct `HttpRequest`. -/
structure HttpRequest where
  method : Str := []
  rawTarget : Str := []
  path : Str := []
  headers : UMap Str Str := []
  query : UMap Str Str := []
  form : UMap Str Str := []
  body : Str := []
deriving DecidableEq, Repr

/-- The accessor `HttpRequest::getHeader`. -/
def HttpRequest.getHeader (request : HttpRequest) (key : Str) : Str :=
  match UMap.find request.headers key with
  | some v => v
  | none => []

/-- The accessor `HttpRequest::getParam`: form first, then query, else empty. -/
def HttpRequest.getParam (request : HttpRequest) (key : Str) : Str :=
  match UMap.find request.form key with
  | some v => v
  | none =>
    match UMap.find request.query key with
    | some v => v
    | none => []

/-- The struct `HttpResponse` with its default member initialisers. -/
structure HttpResponse where
  status : Int := 200
  contentType : Str := "application/json; charset=utf-8".toList
  body : Str := []
  headers : List (Str × Str) := []
deriving DecidableEq, Repr

/-- The struct `User`. -/
structure User where
  id : Int := 0
  name : Str := []
  email : Str := []
  passwordHash : Str := []
deriving DecidableEq, Repr

/-- The struct `Advertisement`. -/
structure Advertisement where
  id : Int := 0
  ownerId : Int := 0
  title : Str := []
  description : Str := []
  price : Double := ⟨0⟩
  createdAt : Int := 0
deriving DecidableEq, Repr

/-- The data members of class `BulletinBoardApp` (main.cpp 248-256). -/
structure BulletinBoardApp where
  users_ : List User := []
  adverts_ : List Advertisement := []
  emailToUserId_ : UMap Str Int := []
  sessions_ : UMap Str Int := []
  responses_ : UMap Int USet := []
  nextUserId_ : Int := 1
  nextAdvertId_ : Int := 1
deriving DecidableEq, Repr

/-- The element `users_[i]` for an `int` index expression; `none` when out of range. -/
def usersAt (users : List User) (i : Int) : Option User :=
  if 0 ≤ i then users[i.toNat]? else none

/-- The iterator `std::find_if(adverts_.begin(), adverts_.end(), ad.id == advertId)`. -/
def findAdvert (adverts : List Advertisement) (advertId : Int) : Option Advertisement :=
  adverts.find? (fun ad => decide (ad.id = advertId))

/-- The call `adverts_.erase(it)` for the iterator found by `findAdvert`. -/
def eraseAdvert (adverts : List Advertisement) (advertId : Int) : List Advertisement :=
  adverts.eraseP (fun ad => decide (ad.id = advertId))

/-- The iterator `std::find_if(users_.begin(), users_.end(), u.id == responderId)`. -/
def findUser (users : List User) (responderId : Int) : Option User :=
  users.find? (fun u => decide (u.id = responderId))

/-! ## Helpers of the class -/

/-- Lower-case hexadecimal text of a `size_t` (`oss << std::hex << hashed`). -/
def hexSizeT (n : Nat) : Str := Nat.toDigits 16 (n % 2 ^ 64)

/-- The method `hashPassword` (main.cpp 1155-1162). -/
def hashPassword (lib : StdLib) (password : Str) : Str := hexSizeT (lib.hash password)

/-- The method `generateToken` (main.cpp 1164-1174): 32 draws from `dist(0, 15)`, each
written as one hexadecimal digit. -/
def generateToken (draws : Nat → Fin 16) : Str :=
  (List.range 32).map (fun i => Nat.digitChar (draws i).val)

/-- The method `userToJson` (main.cpp 1145-1153). -/
def userToJson (user : User) : Str :=
  "\x7b".toList ++ "\"id\":".toList ++ decInt user.id ++ ",".toList
    ++ "\"name\":\"".toList ++ jsonEscape user.name ++ "\",".toList
    ++ "\"email\":\"".toList ++ jsonEscape user.email ++ "\"\x7d".toList

/-- The constructor `BulletinBoardApp::BulletinBoardApp` (main.cpp 261-309); the three
arguments are the values of `std::time(nullptr)` at the three demo adverts. -/
def BulletinBoardApp.init (lib : StdLib) (t1 t2 t3 : Int) : BulletinBoardApp :=
  let app0 : BulletinBoardApp := {}
  let demo : User :=
    { id := app0.nextUserId_, name := "Demo User".toList, email := "demo@example.com".toList,
      passwordHash := hashPassword lib "demo123".toList }
  let app1 : BulletinBoardApp :=
    { app0 with nextUserId_ := app0.nextUserId_ + 1, users_ := app0.users_ ++ [demo],
                emailToUserId_ := UMap.assign app0.emailToUserId_ demo.email demo.id }
  let alice : User :=
    { id := app1.nextUserId_, name := "Alice Smith".toList, email := "alice@example.com".toList,
      passwordHash := hashPassword lib "alice123".toList }
  let app2 : BulletinBoardApp :=
    { app1 with nextUserId_ := app1.nextUserId_ + 1, users_ := app1.users_ ++ [alice],
                emailToUserId_ := UMap.assign app1.emailToUserId_ alice.email alice.id }
  let sample : Advertisement :=
    { id := app2.nextAdvertId_, ownerId := demo.id, title := "Vintage Bicycle".toList,
      description := "Reliable city bike. Recently serviced.".toList,
      price := ⟨0x4062C00000000000⟩, createdAt := t1 }
  let app3 : BulletinBoardApp :=
    { app2 with nextAdvertId_ := app2.nextAdvertId_ + 1, adverts_ := app2.adverts_ ++ [sample] }
  let sample2 : Advertisement :=
    { id := app3.nextAdvertId_, ownerId := demo.id, title := "Gaming Laptop".toList,
      description := "15\" display, RTX graphics, 16GB RAM.".toList,
      price := ⟨0x408DB00000000000⟩, createdAt := t2 }
  let app4 : BulletinBoardApp :=
    { app3 with nextAdvertId_ := app3.nextAdvertId_ + 1, adverts_ := app3.adverts_ ++ [sample2] }
  let sample3 : Advertisement :=
    { id := app4.nextAdvertId_, ownerId := alice.id, title := "iPhone 14 Pro".toList,
      description := "Mint condition, 256GB, with original box and accessories.".toList,
      price := ⟨0x4087700000000000⟩, createdAt := t3 }
  { app4 with nextAdvertId_ := app4.nextAdvertId_ + 1, adverts_ := app4.adverts_ ++ [sample3] }

/-- The method `authenticate` (main.cpp 674-694). -/
def authenticate (app : BulletinBoardApp) (request : HttpRequest) : Option Int :=
  let authHeader := request.getHeader "authorization".toList
  if authHeader.length < 8 then none
  else
    let pfx : Str := "bearer ".toList
    let lowerAuth := toLower (substr authHeader 0 pfx.length)
    if lowerAuth ≠ pfx then none
    else
      let token := trim (authHeader.drop pfx.length)
      UMap.find app.sessions_ token

/-! ## API handlers -/

/-- The method `handleRegister` (main.cpp 696-725). -/
def handleRegister (lib : StdLib) (app : BulletinBoardApp) (request : HttpRequest)
    (response : HttpResponse) : BulletinBoardApp × HttpResponse :=
  let name := request.getParam "name".toList
  let email := request.getParam "email".toList
  let password := request.getParam "password".toList
  if name.isEmpty || email.isEmpty || password.isEmpty then
    (app, { response with status := 400,
                          body := "\x7b\"error\":\"All fields are required\"\x7d".toList })
  else if UMap.count app.emailToUserId_ email > 0 then
    (app, { response with status := 409,
                          body := "\x7b\"error\":\"Email already registered\"\x7d".toList })
  else
    let user : User :=
      { id := app.nextUserId_, name := name, email := email,
        passwordHash := hashPassword lib password }
    ({ app with nextUserId_ := app.nextUserId_ + 1,
                users_ := app.users_ ++ [user],
                emailToUserId_ := UMap.assign app.emailToUserId_ email user.id },
     { response with
         body := "\x7b\"success\":true,\"message\":\"Registration complete\"\x7d".toList })

/-- The method `handleLogin` (main.cpp 727-761); `draws` are the random draws of
`generateToken`. -/
def handleLogin (lib : StdLib) (app : BulletinBoardApp) (request : HttpRequest)
    (response : HttpResponse) (draws : Nat → Fin 16) :
    Option (BulletinBoardApp × HttpResponse) :=
  let email := request.getParam "email".toList
  let password := request.getParam "password".toList
  if email.isEmpty || password.isEmpty then
    some (app, { response with
                   status := 400,
                   body := "\x7b\"error\":\"Email and password are required\"\x7d".toList })
  else
    match UMap.find app.emailToUserId_ email with
    | none =>
      some (app, { response with status := 401,
                                 body := "\x7b\"error\":\"Invalid credentials\"\x7d".toList })
    | some userId =>
      match usersAt app.users_ (userId - 1) with
      | none => none
      | some user =>
        if user.passwordHash ≠ hashPassword lib password then
          some (app, { response with status := 401,
                                     body := "\x7b\"error\":\"Invalid credentials\"\x7d".toList })
        else
          let token := generateToken draws
          some ({ app with sessions_ := UMap.assign app.sessions_ token user.id },
                { response with
                    body := "\x7b\"token\":\"".toList ++ token ++ "\",\"user\":".toList
                              ++ userToJson user ++ ['\x7d'] })

/-- The method `handleLogout` (main.cpp 763-779). -/
def handleLogout (app : BulletinBoardApp) (request : HttpRequest) (response : HttpResponse) :
    BulletinBoardApp × HttpResponse :=
  let authHeader := request.getHeader "authorization".toList
  let app1 : BulletinBoardApp :=
    if authHeader.length ≥ 8 then
      let pfx : Str := "bearer ".toList
      let lowerAuth := toLower (substr authHeader 0 pfx.length)
      if lowerAuth = pfx then
        let token := trim (authHeader.drop pfx.length)
        { app with sessions_ := UMap.erase app.sessions_ token }
      else app
    else app
  (app1, { response with body := "\x7b\"success\":true\x7d".toList })

/-- The method `handleSession` (main.cpp 781-795). -/
def handleSession (app : BulletinBoardApp) (request : HttpRequest) (response : HttpResponse) :
    Option (BulletinBoardApp × HttpResponse) :=
  match authenticate app request with
  | none => some (app, { response with body := "\x7b\"authenticated\":false\x7d".toList })
  | some userId =>
    match usersAt app.users_ (userId - 1) with
    | none => none
    | some user =>
      some (app, { response with
                     body := "\x7b\"authenticated\":true,\"user\":".toList
                               ++ userToJson user ++ ['\x7d'] })

/-- The text one iteration of the loop of `buildAdsJson` writes after the separating comma
(main.cpp 1107-1139). -/
def adJson (lib : StdLib) (app : BulletinBoardApp) (currentUserId : Int)
    (ad : Advertisement) (owner : User) : Str :=
  let oss : Str := ['\x7b']
  let oss := oss ++ "\"id\":".toList ++ decInt ad.id ++ [',']
  let oss := oss ++ "\"title\":\"".toList ++ jsonEscape ad.title ++ "\",".toList
  let oss := oss ++ "\"description\":\"".toList ++ jsonEscape ad.description ++ "\",".toList
  let oss := oss ++ "\"price\":".toList ++ lib.fixed2 ad.price ++ [',']
  let oss := oss ++ "\"ownerName\":\"".toList ++ jsonEscape owner.name ++ "\",".toList
  let oss := oss ++ "\"createdAt\":".toList ++ decInt ad.createdAt ++ [',']
  let oss := oss ++ "\"mine\":".toList
               ++ (if ad.ownerId = currentUserId then "true".toList else "false".toList) ++ [',']
  let isOwner : Bool := decide (ad.ownerId = currentUserId)
  let responsesIt := UMap.find app.responses_ ad.id
  let responsesCount : Nat :=
    match responsesIt with
    | some userIds => userIds.length
    | none => 0
  let oss := if isOwner then oss ++ "\"responsesCount\":".toList ++ decNat responsesCount ++ [',']
             else oss
  let hasResponded : Bool :=
    match responsesIt with
    | some userIds => if currentUserId > 0 then decide (USet.count userIds currentUserId > 0) else false
    | none => false
  let oss := oss ++ "\"hasResponded\":".toList
               ++ (if hasResponded then "true".toList else "false".toList)
  oss ++ ['\x7d']

/-- The loop of `buildAdsJson` (main.cpp 1099-1140): `i` is the loop index, `oss` the text
written so far, the list is `adverts_` from position `i` on. -/
def buildAdsJsonLoop (lib : StdLib) (app : BulletinBoardApp) (currentUserId : Int) :
    List Advertisement → Nat → Str → Option Str
  | [], _, oss => some oss
  | ad :: rest, i, oss =>
    match usersAt app.users_ (ad.ownerId - 1) with
    | none => none
    | some owner =>
      let oss := if i > 0 then oss ++ [','] else oss
      buildAdsJsonLoop lib app currentUserId rest (i + 1)
        (oss ++ adJson lib app currentUserId ad owner)

/-- The method `buildAdsJson` (main.cpp 1094-1143). -/
def buildAdsJson (lib : StdLib) (app : BulletinBoardApp) (currentUserId : Int) : Option Str :=
  match buildAdsJsonLoop lib app currentUserId app.adverts_ 0 "\x7b\"ads\":[".toList with
  | none => none
  | some oss => some (oss ++ "]\x7d".toList)

/-- The method `handleAdsList` (main.cpp 797-801). -/
def handleAdsList (lib : StdLib) (app : BulletinBoardApp) (request : HttpRequest)
    (response : HttpResponse) : Option (BulletinBoardApp × HttpResponse) :=
  let userId := authenticate app request
  match buildAdsJson lib app (userId.getD 0) with
  | none => none
  | some body => some (app, { response with body := body })

/-- The method `handleCreateAd` (main.cpp 803-853); `now` is `std::time(nullptr)`. -/
def handleCreateAd (lib : StdLib) (app : BulletinBoardApp) (request : HttpRequest)
    (response : HttpResponse) (now : Int) : BulletinBoardApp × HttpResponse :=
  match authenticate app request with
  | none =>
    (app, { response with status := 401,
                          body := "\x7b\"error\":\"Authentication required\"\x7d".toList })
  | some userId =>
    let title := request.getParam "title".toList
    let description := request.getParam "description".toList
    let priceStr := request.getParam "price".toList
    if title.isEmpty || description.isEmpty then
      (app, { response with
                status := 400,
                body := "\x7b\"error\":\"Title and description are required\"\x7d".toList })
    else
      let parsed : Option Double := if priceStr.isEmpty then some ⟨0⟩ else lib.stod priceStr
      match parsed with
      | none =>
        (app, { response with status := 400,
                              body := "\x7b\"error\":\"Invalid price\"\x7d".toList })
      | some price =>
        let advert : Advertisement :=
          { id := app.nextAdvertId_, ownerId := userId, title := title,
            description := description, price := price, createdAt := now }
        ({ app with nextAdvertId_ := app.nextAdvertId_ + 1,
                    adverts_ := app.adverts_ ++ [advert] },
         { response with body := "\x7b\"success\":true\x7d".toList })

/-- The value a 32-bit `int` holds when the arithmetic result is `n`: `n` itself inside the
range of `int`; outside it the two's-complement value (C++ leaves signed overflow undefined,
this is what the usual implementations compute). -/
def wrapInt32 (n : Int) : Int := (n + 2 ^ 31) % 2 ^ 32 - 2 ^ 31

/-- The method `handleCreateAd` (main.cpp 803-853) with the counter `nextAdvertId_` held in a
32-bit `int`, as declared at main.cpp 256: the increment of `advert.id = nextAdvertId_++`
(main.cpp 841) is taken in 32 bits.  Below `INT_MAX` it is `handleCreateAd`. -/
def handleCreateAdInt32 (lib : StdLib) (app : BulletinBoardApp) (request : HttpRequest)
    (response : HttpResponse) (now : Int) : BulletinBoardApp × HttpResponse :=
  match authenticate app request with
  | none =>
    (app, { response with status := 401,
                          body := "\x7b\"error\":\"Authentication required\"\x7d".toList })
  | some userId =>
    let title := request.getParam "title".toList
    let description := request.getParam "description".toList
    let priceStr := request.getParam "price".toList
    if title.isEmpty || description.isEmpty then
      (app, { response with
                status := 400,
                body := "\x7b\"error\":\"Title and description are required\"\x7d".toList })
    else
      let parsed : Option Double := if priceStr.isEmpty then some ⟨0⟩ else lib.stod priceStr
      match parsed with
      | none =>
        (app, { response with status := 400,
                              body := "\x7b\"error\":\"Invalid price\"\x7d".toList })
      | some price =>
        let advert : Advertisement :=
          { id := app.nextAdvertId_, ownerId := userId, title := title,
            description := description, price := price, createdAt := now }
        ({ app with nextAdvertId_ := wrapInt32 (app.nextAdvertId_ + 1),
                    adverts_ := app.adverts_ ++ [advert] },
         { response with body := "\x7b\"success\":true\x7d".toList })

/-- The method `handleDeleteAd` (main.cpp 855-884). -/
def handleDeleteAd (app : BulletinBoardApp) (request : HttpRequest) (response : HttpResponse)
    (advertId : Int) : BulletinBoardApp × HttpResponse :=
  match authenticate app request with
  | none =>
    (app, { response with status := 401,
                          body := "\x7b\"error\":\"Authentication required\"\x7d".toList })
  | some userId =>
    match findAdvert app.adverts_ advertId with
    | none =>
      (app, { response with status := 404,
                            body := "\x7b\"error\":\"Advertisement not found\"\x7d".toList })
    | some it =>
      if it.ownerId ≠ userId then
        (app, { response with
                  status := 403,
                  body := "\x7b\"error\":\"You can only delete your own advertisements\"\x7d".toList })
      else
        ({ app with adverts_ := eraseAdvert app.adverts_ advertId,
                    responses_ := UMap.erase app.responses_ advertId },
         { response with body := "\x7b\"success\":true\x7d".toList })

/-- The method `handleRespondToAd` (main.cpp 886-929). -/
def handleRespondToAd (app : BulletinBoardApp) (request : HttpRequest) (response : HttpResponse)
    (advertId : Int) : BulletinBoardApp × HttpResponse :=
  match authenticate app request with
  | none =>
    (app, { response with status := 401,
                          body := "\x7b\"error\":\"Authentication required\"\x7d".toList })
  | some userId =>
    match findAdvert app.adverts_ advertId with
    | none =>
      (app, { response with status := 404,
                            body := "\x7b\"error\":\"Advertisement not found\"\x7d".toList })
    | some it =>
      if it.ownerId = userId then
        (app, { response with
                  status := 400,
                  body := "\x7b\"error\":\"You cannot respond to your own advertisement\"\x7d".toList })
      else
        let responses1 := UMap.touch app.responses_ advertId []
        let app1 : BulletinBoardApp := { app with responses_ := responses1 }
        let userIds := (UMap.find responses1 advertId).getD []
        if USet.count userIds userId > 0 then
          (app1, { response with
                     status := 409,
                     body := "\x7b\"error\":\"You have already responded to this advertisement\"\x7d".toList })
        else
          ({ app1 with responses_ := UMap.assign responses1 advertId (USet.insert userIds userId) },
           { response with body := "\x7b\"success\":true\x7d".toList })

/-- The text `handleMyResponses` writes for one advert after the separating comma
(main.cpp 970-982). -/
def myResponseJson (lib : StdLib) (ad : Advertisement) (owner : User) : Str :=
  let oss : Str := ['\x7b']
  let oss := oss ++ "\"id\":".toList ++ decInt ad.id ++ [',']
  let oss := oss ++ "\"title\":\"".toList ++ jsonEscape ad.title ++ "\",".toList
  let oss := oss ++ "\"description\":\"".toList ++ jsonEscape ad.description ++ "\",".toList
  let oss := oss ++ "\"price\":".toList ++ lib.fixed2 ad.price ++ [',']
  let oss := oss ++ "\"ownerName\":\"".toList ++ jsonEscape owner.name ++ "\",".toList
  let oss := oss ++ "\"createdAt\":".toList ++ decInt ad.createdAt ++ [',']
  let oss := oss ++ "\"hasResponded\":true".toList
  oss ++ ['\x7d']

/-- The loop of `handleMyResponses` over `responses_` (main.cpp 948-985): `first` and `oss`
are the loop variables. -/
def myResponsesLoop (lib : StdLib) (app : BulletinBoardApp) (userId : Int) :
    List (Int × USet) → Bool → Str → Option Str
  | [], _, oss => some oss
  | (adId, userIds) :: rest, first, oss =>
    if USet.count userIds userId > 0 then
      match findAdvert app.adverts_ adId with
      | none => myResponsesLoop lib app userId rest first oss
      | some ad =>
        match usersAt app.users_ (ad.ownerId - 1) with
        | none => none
        | some owner =>
          let oss := if !first then oss ++ [','] else oss
          myResponsesLoop lib app userId rest false (oss ++ myResponseJson lib ad owner)
    else myResponsesLoop lib app userId rest first oss

/-- The method `handleMyResponses` (main.cpp 931-989). -/
def handleMyResponses (lib : StdLib) (app : BulletinBoardApp) (request : HttpRequest)
    (response : HttpResponse) : Option (BulletinBoardApp × HttpResponse) :=
  match authenticate app request with
  | none =>
    some (app, { response with status := 401,
                               body := "\x7b\"error\":\"Authentication required\"\x7d".toList })
  | some userId =>
    match myResponsesLoop lib app userId app.responses_ true "\x7b\"ads\":[".toList with
    | none => none
    | some oss => some (app, { response with body := oss ++ "]\x7d".toList })

/-- The text `handleAdResponders` writes for one responder after the separating comma
(main.cpp 1047-1051). -/
def responderJson (user : User) : Str :=
  ['\x7b'] ++ "\"id\":".toList ++ decInt user.id ++ [',']
    ++ "\"name\":\"".toList ++ jsonEscape user.name ++ "\",".toList
    ++ "\"email\":\"".toList ++ jsonEscape user.email ++ ['"'] ++ ['\x7d']

/-- The loop of `handleAdResponders` over the response set (main.cpp 1031-1053): `first`
and `oss` are the loop variables. -/
def respondersLoop (app : BulletinBoardApp) : List Int → Bool → Str → Str
  | [], _, oss => oss
  | responderId :: rest, first, oss =>
    match findUser app.users_ responderId with
    | none => respondersLoop app rest first oss
    | some user =>
      let oss := if !first then oss ++ [','] else oss
      respondersLoop app rest false (oss ++ responderJson user)

/-- The method `handleAdResponders` (main.cpp 991-1058). -/
def handleAdResponders (app : BulletinBoardApp) (request : HttpRequest) (response : HttpResponse)
    (advertId : Int) : BulletinBoardApp × HttpResponse :=
  match authenticate app request with
  | none =>
    (app, { response with status := 401,
                          body := "\x7b\"error\":\"Authentication required\"\x7d".toList })
  | some userId =>
    match findAdvert app.adverts_ advertId with
    | none =>
      (app, { response with status := 404,
                            body := "\x7b\"error\":\"Advertisement not found\"\x7d".toList })
    | some adIt =>
      if adIt.ownerId ≠ userId then
        (app, { response with
                  status := 403,
                  body := "\x7b\"error\":\"Only the owner can view responders\"\x7d".toList })
      else
        let oss : Str := "\x7b\"responders\":[".toList
        let oss :=
          match UMap.find app.responses_ advertId with
          | some userIds => respondersLoop app userIds true oss
          | none => oss
        (app, { response with body := oss ++ "]\x7d".toList })

/-! ## Routing (main.cpp 479-577) -/

/-- What ends the handling of a request without a response.  An exception of `std::stoi` or
`std::stoul` is caught nowhere, so it leaves the connection thread and terminates the process;
an out-of-range `users_[i]` is undefined behaviour. -/
inductive Fault
  | stoiOutOfRange
  | stoulInvalidArgument
  | stoulOutOfRange
  | usersIndex
deriving DecidableEq, Repr

/-- Equality of outcomes is decidable, so that outcomes on concrete inputs can be evaluated. -/
instance instDecidableEqExcept {ε α : Type} [DecidableEq ε] [DecidableEq α] :
    DecidableEq (Except ε α) := fun a b =>
  match a, b with
  | .ok x, .ok y => if h : x = y then isTrue (by rw [h]) else isFalse (fun e => h (by cases e; rfl))
  | .error x, .error y =>
    if h : x = y then isTrue (by rw [h]) else isFalse (fun e => h (by cases e; rfl))
  | .ok _, .error _ => isFalse (fun e => by cases e)
  | .error _, .ok _ => isFalse (fun e => by cases e)

/-- The test `s.rfind(start, 0) == 0`: `s` begins with `start`. -/
def startsWith (s start : Str) : Bool := decide (s.take start.length = start)

/-- The call `s.find(c)`: position of the first `c`; `none` is `npos`. -/
def findChar : Str → Char → Option Nat
  | [], _ => none
  | x :: xs, c => if x = c then some 0 else (findChar xs c).map (· + 1)

/-- The function `::isdigit` in the "C" locale, on the characters `0`..`9`. -/
def isdigit (c : Char) : Bool := decide ('0'.toNat ≤ c.toNat ∧ c.toNat ≤ '9'.toNat)

/-- The number a string of decimal digits denotes. -/
def decimalValue (s : Str) : Nat := s.foldl (fun acc c => acc * 10 + (c.toNat - '0'.toNat)) 0

/-- The call `std::stoi(s)` for a non-empty string of decimal digits (the only arguments it gets
in this program): the number denoted, or `std::out_of_range` when it exceeds `INT_MAX`. -/
def stoi (s : Str) : Except Fault Int :=
  if decimalValue s ≤ 2147483647 then .ok (decimalValue s : Int) else .error .stoiOutOfRange

/-- The result of a handler that indexes `users_`, as an outcome of routing. -/
def definedOr (r : Option (BulletinBoardApp × HttpResponse)) :
    Except Fault (Bool × BulletinBoardApp × HttpResponse) :=
  match r with
  | some (app, response) => .ok (true, app, response)
  | none => .error .usersIndex

/-- The parts `idStr` and `action` of a path `/api/ads/<idStr>/<action>`, split at the first
`/` after the nine characters of `/api/ads/`; `none` when there is no such `/`. -/
def idAndAction (path : Str) : Option (Str × Str) :=
  let suffix := path.drop "/api/ads/".toList.length
  match findChar suffix '/' with
  | none => none
  | some slash => some (substr suffix 0 slash, suffix.drop (slash + 1))

/-- The `idStr` of the `DELETE` block (main.cpp 539-540): the path after `/api/ads/`, when it
is a non-empty string of digits. -/
def idOfDelete (path : Str) : Option Str :=
  let idStr := path.drop "/api/ads/".toList.length
  if idStr ≠ [] ∧ idStr.all isdigit = true then some idStr else none

/-- The `idStr` of the `POST` and `GET` blocks (main.cpp 548-554, 563-569): the part before the
first `/` of the suffix, when it is a non-empty string of digits and the part after that `/`
is `action`. -/
def idOfAction (path action : Str) : Option Str :=
  match idAndAction path with
  | some (idStr, act) =>
    if idStr ≠ [] ∧ idStr.all isdigit = true ∧ act = action then some idStr else none
  | none => none

/-- The method `handleApi` (main.cpp 500-577): the flag tells whether a handler was called.
The three blocks on `/api/ads/...` fall through to the next one when their inner test fails.
`draws` and `now` are the random draws and the clock value a handler may use. -/
def handleApi (lib : StdLib) (app : BulletinBoardApp) (request : HttpRequest)
    (response : HttpResponse) (draws : Nat → Fin 16) (now : Int) :
    Except Fault (Bool × BulletinBoardApp × HttpResponse) :=
  if request.method = "POST".toList ∧ request.path = "/api/register".toList then
    .ok (true, handleRegister lib app request response)
  else if request.method = "POST".toList ∧ request.path = "/api/login".toList then
    definedOr (handleLogin lib app request response draws)
  else if request.method = "POST".toList ∧ request.path = "/api/logout".toList then
    .ok (true, handleLogout app request response)
  else if request.method = "GET".toList ∧ request.path = "/api/session".toList then
    definedOr (handleSession app request response)
  else if request.method = "GET".toList ∧ request.path = "/api/ads".toList then
    definedOr (handleAdsList lib app request response)
  else if request.method = "GET".toList ∧ request.path = "/api/ads/my-responses".toList then
    definedOr (handleMyResponses lib app request response)
  else if request.method = "POST".toList ∧ request.path = "/api/ads".toList then
    .ok (true, handleCreateAd lib app request response now)
  else
    match (if request.method = "DELETE".toList ∧ startsWith request.path "/api/ads/".toList
           then idOfDelete request.path else none) with
    | some idStr =>
      match stoi idStr with
      | .error e => .error e
      | .ok advertId => .ok (true, handleDeleteAd app request response advertId)
    | none =>
      match (if request.method = "POST".toList ∧ startsWith request.path "/api/ads/".toList
             then idOfAction request.path "respond".toList else none) with
      | some idStr =>
        match stoi idStr with
        | .error e => .error e
        | .ok advertId => .ok (true, handleRespondToAd app request response advertId)
      | none =>
        match (if request.method = "GET".toList ∧ startsWith request.path "/api/ads/".toList
               then idOfAction request.path "responders".toList else none) with
        | some idStr =>
          match stoi idStr with
          | .error e => .error e
          | .ok advertId => .ok (true, handleAdResponders app request response advertId)
        | none => .ok (false, app, response)

/-- The method `routeRequest` (main.cpp 479-498).  The method `serveStatic` (main.cpp 579-618)
reads the file system and no data member of the store; it is taken as a function of the path
and the response, giving its return value and the response it leaves. -/
def routeRequest (lib : StdLib) (serveStatic : Str → HttpResponse → Bool × HttpResponse)
    (app : BulletinBoardApp) (request : HttpRequest) (response : HttpResponse)
    (draws : Nat → Fin 16) (now : Int) : Except Fault (BulletinBoardApp × HttpResponse) :=
  if startsWith request.path "/api/".toList then
    match handleApi lib app request response draws now with
    | .error e => .error e
    | .ok (true, app1, response1) => .ok (app1, response1)
    | .ok (false, app1, response1) =>
      .ok (app1, { response1 with
                     status := 404,
                     body := "\x7b\"error\":\"Endpoint not found\"\x7d".toList })
  else
    match serveStatic request.path response with
    | (true, response1) => .ok (app, response1)
    | (false, response1) =>
      .ok (app, { response1 with status := 404,
                                 contentType := "text/plain; charset=utf-8".toList,
                                 body := "Not Found".toList })

/-! ## Decoding of parameters (main.cpp 47-98) -/

/-- The function `std::isspace` in the "C" locale: space, `\t`, `\n`, `\v`, `\f`, `\r`. -/
def isspace (c : Char) : Bool :=
  c == ' ' || c == '\t' || c == '\n' || c == '\x0b' || c == '\x0c' || c == '\r'

/-- The value of a hexadecimal digit, `none` for any other character. -/
def hexValue (c : Char) : Option Nat :=
  if '0'.toNat ≤ c.toNat ∧ c.toNat ≤ '9'.toNat then some (c.toNat - '0'.toNat)
  else if 'a'.toNat ≤ c.toNat ∧ c.toNat ≤ 'f'.toNat then some (c.toNat - 'a'.toNat + 10)
  else if 'A'.toNat ≤ c.toNat ∧ c.toNat ≤ 'F'.toNat then some (c.toNat - 'A'.toNat + 10)
  else none

/-- The call `std::strtol(hex.c_str(), nullptr, 16)` for the two-character string `hex` made of
`a` and `b`: leading white space and a sign are accepted, then as many hexadecimal digits as
there are; without a digit the result is 0 (this covers `0x`, whose `0` is the number). -/
def strtol16 (a b : Char) : Int :=
  if isspace a ∨ a = '+' then
    match hexValue b with
    | some v => (v : Int)
    | none => 0
  else if a = '-' then
    match hexValue b with
    | some v => -(v : Int)
    | none => 0
  else
    match hexValue a with
    | some v =>
      match hexValue b with
      | some w => (16 * v + w : Nat)
      | none => (v : Int)
    | none => 0

/-- The conversion `static_cast<char>(n)`: the byte `n mod 256`. -/
def charOfLong (n : Int) : Char := Char.ofNat (n % 256).toNat

/-- The function `urlDecode` (main.cpp 47-70).  The loop index `i` is the head of the list:
`value[i] == '%' && i + 2 < value.size()` holds exactly when `%` is followed by two
characters. -/
def urlDecode : Str → Str
  | '%' :: a :: b :: rest => charOfLong (strtol16 a b) :: urlDecode rest
  | '+' :: rest => ' ' :: urlDecode rest
  | c :: rest => c :: urlDecode rest
  | [] => []

/-- The pieces of `s` between the occurrences of `c` (at least one piece). -/
def splitOnChar (c : Char) : Str → List Str
  | [] => [[]]
  | x :: xs =>
    if x = c then [] :: splitOnChar c xs
    else
      match splitOnChar c xs with
      | piece :: pieces => (x :: piece) :: pieces
      | [] => [[x]]

/-- The body of the loop of `parseParams` for one `token` (main.cpp 80-90). -/
def parseParamsToken (result : UMap Str Str) (token : Str) : UMap Str Str :=
  match findChar token '=' with
  | some eq =>
    UMap.assign result (urlDecode (substr token 0 eq)) (urlDecode (token.drop (eq + 1)))
  | none => if token ≠ [] then UMap.assign result (urlDecode token) [] else result

/-- The function `parseParams` (main.cpp 72-98): the tokens are the pieces of `data` between
the `&`; the loop ends before an empty last piece, which would add nothing. -/
def parseParams (data : Str) : UMap Str Str :=
  (splitOnChar '&' data).foldl parseParamsToken []

/-- The loop of `parseParams` as written (main.cpp 76-96), on the text `rest` of `data` from
`start` on; `fuel` bounds the number of rounds. -/
def parseParamsLoop : Nat → Str → UMap Str Str → UMap Str Str
  | 0, _, result => result
  | fuel + 1, rest, result =>
    if rest = [] then result
    else
      match findChar rest '&' with
      | none => parseParamsToken result rest
      | some amp =>
        parseParamsLoop fuel (rest.drop (amp + 1)) (parseParamsToken result (substr rest 0 amp))

/-! ## Request parsing (main.cpp 376-477) -/

/-- The call `s.find(pat)`: position of the first occurrence of `pat`; `none` is `npos`. -/
def findSub (pat : Str) : Str → Option Nat
  | [] => if pat = [] then some 0 else none
  | x :: xs =>
    if startsWith (x :: xs) pat then some 0 else (findSub pat xs).map (· + 1)

/-- The lines `std::getline` reads from a stream holding `s`: the pieces between the `\n`,
without an empty piece after a final `\n`; an empty stream has no line. -/
def getLines : Str → List Str
  | [] => []
  | x :: xs =>
    if x = '\n' then [] :: getLines xs
    else
      match getLines xs with
      | line :: lines => (x :: line) :: lines
      | [] => [[x]]

/-- Removal of one final `\r` (`if (!line.empty() && line.back() == '\r') line.pop_back()`). -/
def stripCR (line : Str) : Str :=
  if line.getLast? = some '\r' then line.dropLast else line

/-- The words `operator>>` extracts one after another: the maximal runs without white space. -/
def words : Str → List Str
  | [] => []
  | x :: xs =>
    if isspace x then words xs
    else
      match xs with
      | [] => [[x]]
      | y :: _ =>
        if isspace y then [x] :: words xs
        else
          match words xs with
          | w :: ws => (x :: w) :: ws
          | [] => [[x]]

/-- The call `headers.emplace(key, value)`: nothing is stored when the key is present. -/
def UMap.emplace {K V : Type} [DecidableEq K] (m : UMap K V) (k : K) (v : V) : UMap K V :=
  if (UMap.find m k).isSome then m else m ++ [(k, v)]

/-- The key and value the header loop takes from one line (main.cpp 434-448): `none` when the
line is empty after `stripCR` or has no `:`. -/
def headerOfLine (headerLine : Str) : Option (Str × Str) :=
  let line := stripCR headerLine
  if line = [] then none
  else
    match findChar line ':' with
    | none => none
    | some colon => some (toLower (substr line 0 colon), trim (line.drop (colon + 1)))

/-- The header loop (main.cpp 431-450) over the lines after the start line. -/
def parseHeaders : List Str → UMap Str Str → UMap Str Str
  | [], headers => headers
  | headerLine :: rest, headers =>
    match headerOfLine headerLine with
    | none => parseHeaders rest headers
    | some (key, value) => parseHeaders rest (UMap.emplace headers key value)

/-- The call `std::stoul(s)`: white space, an optional sign, then decimal digits.  Without a
digit it throws `std::invalid_argument`, above `ULONG_MAX` it throws `std::out_of_range`; a
minus sign negates modulo `2^64`, and what follows the digits is ignored. -/
def stoul (s : Str) : Except Fault Nat :=
  let s1 := s.dropWhile isspace
  let negative : Bool := s1.head? = some '-'
  let s2 := if s1.head? = some '-' ∨ s1.head? = some '+' then s1.drop 1 else s1
  let digits := s2.takeWhile isdigit
  if digits = [] then .error .stoulInvalidArgument
  else if decimalValue digits ≥ 2 ^ 64 then .error .stoulOutOfRange
  else .ok (if negative then (2 ^ 64 - decimalValue digits) % 2 ^ 64 else decimalValue digits)

/-- The block that runs once, when `\r\n\r\n` is first found at `headerEnd` (main.cpp 398-455):
the request with method, target, path, query and headers, and the content length; `none` is
`return false`. -/
def parseHead (raw : Str) (headerEnd : Nat) : Except Fault (Option (HttpRequest × Nat)) :=
  let headerSection := substr raw 0 headerEnd
  let lines := getLines headerSection
  let startLine := stripCR (lines.headD [])
  let tokens := words startLine
  let method := tokens.getD 0 []
  let rawTarget := tokens.getD 1 []
  if rawTarget = [] then .ok none
  else
    let request : HttpRequest :=
      match findChar rawTarget '?' with
      | some question =>
        { method := method, rawTarget := rawTarget, path := substr rawTarget 0 question,
          query := parseParams (rawTarget.drop (question + 1)) }
      | none => { method := method, rawTarget := rawTarget, path := rawTarget }
    let request := if request.path = [] then { request with path := ['/'] } else request
    let request := { request with headers := parseHeaders lines.tail [] }
    match UMap.find request.headers "content-length".toList with
    | some value =>
      match stoul value with
      | .error e => .error e
      | .ok contentLength => .ok (some (request, contentLength))
    | none => .ok (some (request, 0))

/-- The receive loop of `parseRequest` (main.cpp 385-468).  `chunks` are the results of the
successive `recv` calls (an empty chunk, or none left, is `received <= 0`); `raw` is the buffer
so far and `head` what `parseHead` gave once `\r\n\r\n` was found.  The result is the request
with its body, `none` for `return false`. -/
def parseLoop : List Str → Str → Option (Nat × HttpRequest × Nat) →
    Except Fault (Option HttpRequest)
  | [], _, _ => .ok none
  | chunk :: rest, raw, head =>
    if chunk = [] then .ok none
    else
      let raw := raw ++ chunk
      let parsed : Except Fault (Option (Option (Nat × HttpRequest × Nat))) :=
        match head with
        | some h => .ok (some (some h))
        | none =>
          match findSub "\r\n\r\n".toList raw with
          | none => .ok (some none)
          | some headerEnd =>
            match parseHead raw headerEnd with
            | .error e => .error e
            | .ok none => .ok none
            | .ok (some (request, contentLength)) =>
              .ok (some (some (headerEnd, request, contentLength)))
      match parsed with
      | .error e => .error e
      | .ok none => .ok none
      | .ok (some none) => parseLoop rest raw none
      | .ok (some (some (headerEnd, request, contentLength))) =>
        let totalNeeded := (headerEnd + 4 + contentLength) % 2 ^ 64
        if raw.length ≥ totalNeeded then
          .ok (some { request with body := substr raw (headerEnd + 4) contentLength })
        else parseLoop rest raw (some (headerEnd, request, contentLength))

/-- The method `parseRequest` (main.cpp 376-477) on the successive results of `recv`. -/
def parseRequest (chunks : List Str) : Except Fault (Option HttpRequest) :=
  match parseLoop chunks [] none with
  | .error e => .error e
  | .ok none => .ok none
  | .ok (some request) =>
    let contentType := request.getHeader "content-type".toList
    if contentType ≠ [] ∧
        (findSub "application/x-www-form-urlencoded".toList contentType).isSome then
      .ok (some { request with form := parseParams request.body })
    else .ok (some request)

/-! ## Two connection threads in `handleCreateAd`

The server runs each connection in its own thread.  To follow two threads through
`handleCreateAd` the method is cut at its accesses to the shared data members: the steps that
run under `dataMutex_` are atomic, and `advert.id = nextAdvertId_++` (main.cpp 841), which runs
before the lock is taken (main.cpp 848), is a read of the counter followed by a write. -/

/-- The local state of a thread inside `handleCreateAd`: `pc` counts the steps done, `loaded`
is the value of `nextAdvertId_` read by `nextAdvertId_++` (it becomes `advert.id`). -/
structure CreateAdThread where
  request : HttpRequest
  now : Int
  pc : Nat := 0
  userId : Int := 0
  price : Double := ⟨0⟩
  loaded : Int := 0
  response : HttpResponse := {}
deriving DecidableEq, Repr

/-- One step of a thread in `handleCreateAd`.
Step 0 is `authenticate` (under the lock) and the checks of main.cpp 805-837;
step 1 reads `nextAdvertId_`; step 2 writes the incremented value back;
step 3 is the `push_back` under the lock and the success body; then the thread is done. -/
def createAdStep (lib : StdLib) (app : BulletinBoardApp) (t : CreateAdThread) :
    BulletinBoardApp × CreateAdThread :=
  match t.pc with
  | 0 =>
    match authenticate app t.request with
    | none =>
      (app, { t with pc := 4,
                     response := { t.response with
                       status := 401,
                       body := "\x7b\"error\":\"Authentication required\"\x7d".toList } })
    | some userId =>
      let title := t.request.getParam "title".toList
      let description := t.request.getParam "description".toList
      let priceStr := t.request.getParam "price".toList
      if title.isEmpty || description.isEmpty then
        (app, { t with pc := 4,
                       response := { t.response with
                         status := 400,
                         body := "\x7b\"error\":\"Title and description are required\"\x7d".toList } })
      else
        let parsed : Option Double := if priceStr.isEmpty then some ⟨0⟩ else lib.stod priceStr
        match parsed with
        | none =>
          (app, { t with pc := 4,
                         response := { t.response with
                           status := 400,
                           body := "\x7b\"error\":\"Invalid price\"\x7d".toList } })
        | some price => (app, { t with pc := 1, userId := userId, price := price })
  | 1 => (app, { t with pc := 2, loaded := app.nextAdvertId_ })
  | 2 => ({ app with nextAdvertId_ := t.loaded + 1 }, { t with pc := 3 })
  | 3 =>
    ({ app with
         adverts_ := app.adverts_ ++
           [{ id := t.loaded, ownerId := t.userId,
              title := t.request.getParam "title".toList,
              description := t.request.getParam "description".toList,
              price := t.price, createdAt := t.now }] },
     { t with pc := 4,
              response := { t.response with body := "\x7b\"success\":true\x7d".toList } })
  | _ => (app, t)

/-- A run of two threads: the schedule names the thread that takes the next step (`false` the
first thread, `true` the second). -/
def runThreads (lib : StdLib) :
    List Bool → BulletinBoardApp × CreateAdThread × CreateAdThread →
    BulletinBoardApp × CreateAdThread × CreateAdThread
  | [], state => state
  | false :: schedule, (app, first, second) =>
    runThreads lib schedule
      ((createAdStep lib app first).1, (createAdStep lib app first).2, second)
  | true :: schedule, (app, first, second) =>
    runThreads lib schedule
      ((createAdStep lib app second).1, first, (createAdStep lib app second).2)

/-! ## Sending the response (main.cpp 620-672) -/

/-- The lambda `statusText` of `sendResponse` (main.cpp 622-648). -/
def statusText (status : Int) : Str :=
  if status = 200 then "OK".toList
  else if status = 201 then "Created".toList
  else if status = 204 then "No Content".toList
  else if status = 400 then "Bad Request".toList
  else if status = 401 then "Unauthorized".toList
  else if status = 403 then "Forbidden".toList
  else if status = 404 then "Not Found".toList
  else if status = 409 then "Conflict".toList
  else if status = 500 then "Internal Server Error".toList
  else "OK".toList

/-- The text `data` that `sendResponse` builds in `oss` (main.cpp 650-662); the function then
hands `data` to `::send` piece by piece until all of it is sent or `::send` reports an error. -/
def sendResponse (response : HttpResponse) : Str :=
  let oss : Str := "HTTP/1.1 ".toList ++ decInt response.status ++ [' ']
    ++ statusText response.status ++ "\r\n".toList
  let oss := oss ++ "Content-Type: ".toList ++ response.contentType ++ "\r\n".toList
  let oss := oss ++ "Content-Length: ".toList ++ decNat response.body.length ++ "\r\n".toList
  let oss := oss ++ "Connection: close\r\n".toList
  let oss := response.headers.foldl
    (fun oss kv => oss ++ kv.1 ++ ": ".toList ++ kv.2 ++ "\r\n".toList) oss
  let oss := oss ++ "\r\n".toList
  oss ++ response.body

/-! ## Reachable stores -/

/-- The stores the server can be in: the seeded store of the constructor, and any store
obtained from a reachable one by running one of the handlers that assign to a data member
(register, login, logout, create, delete, respond), on any request, advert id, clock value
and random draws.  The remaining handlers (session, ads list, my responses, responders) and
the static files only read the data members, and routing does nothing but call a handler. -/
inductive Reachable (lib : StdLib) : BulletinBoardApp → Prop
  | init (t1 t2 t3 : Int) : Reachable lib (BulletinBoardApp.init lib t1 t2 t3)
  | register {app : BulletinBoardApp} (request : HttpRequest) (response : HttpResponse) :
      Reachable lib app → Reachable lib (handleRegister lib app request response).1
  | login {app : BulletinBoardApp} (request : HttpRequest) (response : HttpResponse)
      (draws : Nat → Fin 16) (result : BulletinBoardApp × HttpResponse) :
      Reachable lib app → handleLogin lib app request response draws = some result →
      Reachable lib result.1
  | logout {app : BulletinBoardApp} (request : HttpRequest) (response : HttpResponse) :
      Reachable lib app → Reachable lib (handleLogout app request response).1
  | createAd {app : BulletinBoardApp} (request : HttpRequest) (response : HttpResponse)
      (now : Int) :
      Reachable lib app → Reachable lib (handleCreateAd lib app request response now).1
  | deleteAd {app : BulletinBoardApp} (request : HttpRequest) (response : HttpResponse)
      (advertId : Int) :
      Reachable lib app → Reachable lib (handleDeleteAd app request response advertId).1
  | respondToAd {app : BulletinBoardApp} (request : HttpRequest) (response : HttpResponse)
      (advertId : Int) :
      Reachable lib app → Reachable lib (handleRespondToAd app request response advertId).1

/-! ## Specification-level definitions -/

/-- The response set of an advert: the set stored under its id, empty when there is none. -/
def responseSet (app : BulletinBoardApp) (advertId : Int) : USet :=
  (UMap.find app.responses_ advertId).getD []

/-- Consistency of a store: what every reachable store satisfies. -/
structure WellFormed (app : BulletinBoardApp) : Prop where
  nextUserId : app.nextUserId_ = (app.users_.length : Int) + 1
  userIds : ∀ (i : Nat) (u : User), app.users_[i]? = some u → u.id = (i : Int) + 1
  emailIndex : ∀ (e : Str) (k : Int), UMap.find app.emailToUserId_ e = some k →
    ∃ u, usersAt app.users_ (k - 1) = some u ∧ u.email = e
  userEmails : ∀ u ∈ app.users_, UMap.find app.emailToUserId_ u.email = some u.id
  sessionIds : ∀ (t : Str) (k : Int), UMap.find app.sessions_ t = some k →
    1 ≤ k ∧ k ≤ (app.users_.length : Int)
  advertIds : app.adverts_.Pairwise (fun a b => a.id < b.id)
  advertIdsBelow : ∀ ad ∈ app.adverts_, ad.id < app.nextAdvertId_
  advertOwners : ∀ ad ∈ app.adverts_, 1 ≤ ad.ownerId ∧ ad.ownerId ≤ (app.users_.length : Int)
  responseKeys : ∀ p ∈ app.responses_, ∃ ad ∈ app.adverts_, ad.id = p.1
  responseKeysNodup : (app.responses_.map Prod.fst).Nodup
  responseSets : ∀ p ∈ app.responses_,
    p.2.Nodup ∧ ∀ u ∈ p.2, 1 ≤ u ∧ u ≤ (app.users_.length : Int)
  ownerNotResponder : ∀ ad ∈ app.adverts_, ∀ p ∈ app.responses_, p.1 = ad.id → ad.ownerId ∉ p.2

/-- One request that may update the store: a run of one of the handlers that assign to a data
member, on any request, advert id, clock value and random draws. -/
inductive Step (lib : StdLib) : BulletinBoardApp → BulletinBoardApp → Prop
  | register (app : BulletinBoardApp) (request : HttpRequest) (response : HttpResponse) :
      Step lib app (handleRegister lib app request response).1
  | login (app : BulletinBoardApp) (request : HttpRequest) (response : HttpResponse)
      (draws : Nat → Fin 16) (result : BulletinBoardApp × HttpResponse) :
      handleLogin lib app request response draws = some result → Step lib app result.1
  | logout (app : BulletinBoardApp) (request : HttpRequest) (response : HttpResponse) :
      Step lib app (handleLogout app request response).1
  | createAd (app : BulletinBoardApp) (request : HttpRequest) (response : HttpResponse)
      (now : Int) : Step lib app (handleCreateAd lib app request response now).1
  | deleteAd (app : BulletinBoardApp) (request : HttpRequest) (response : HttpResponse)
      (advertId : Int) : Step lib app (handleDeleteAd app request response advertId).1
  | respondToAd (app : BulletinBoardApp) (request : HttpRequest) (response : HttpResponse)
      (advertId : Int) : Step lib app (handleRespondToAd app request response advertId).1

/-- One request of the program with the advert counter held in a 32-bit `int`, in which the
increment of the counter does not overflow: the steps of `Step`, the create step being a run
of `handleCreateAdInt32` from a store whose counter is below `INT_MAX`. -/
inductive StepInRange (lib : StdLib) : BulletinBoardApp → BulletinBoardApp → Prop
  | register (app : BulletinBoardApp) (request : HttpRequest) (response : HttpResponse) :
      StepInRange lib app (handleRegister lib app request response).1
  | login (app : BulletinBoardApp) (request : HttpRequest) (response : HttpResponse)
      (draws : Nat → Fin 16) (result : BulletinBoardApp × HttpResponse) :
      handleLogin lib app request response draws = some result → StepInRange lib app result.1
  | logout (app : BulletinBoardApp) (request : HttpRequest) (response : HttpResponse) :
      StepInRange lib app (handleLogout app request response).1
  | createAd (app : BulletinBoardApp) (request : HttpRequest) (response : HttpResponse)
      (now : Int) :
      app.nextAdvertId_ < 2147483647 →
      StepInRange lib app (handleCreateAdInt32 lib app request response now).1
  | deleteAd (app : BulletinBoardApp) (request : HttpRequest) (response : HttpResponse)
      (advertId : Int) : StepInRange lib app (handleDeleteAd app request response advertId).1
  | respondToAd (app : BulletinBoardApp) (request : HttpRequest) (response : HttpResponse)
      (advertId : Int) :
      StepInRange lib app (handleRespondToAd app request response advertId).1

/-- A `double` below zero: sign bit set, and neither `-0.0` nor a NaN. -/
def Double.isNegative (d : Double) : Bool :=
  decide (2 ^ 63 < d.bits ∧ d.bits ≤ 0xFFF0000000000000)

/-- The three prices of the seeded adverts: `150.0`, `950.0` and `750.0`. -/
def seededPrices : List Double :=
  [⟨0x4062C00000000000⟩, ⟨0x408DB00000000000⟩, ⟨0x4087700000000000⟩]

/-- The ten rows of the route table (spec §4.4): method and path pattern, `{id}` being a
non-empty string of decimal digits. -/
def inRouteTable (method path : Str) : Prop :=
  (method = "POST".toList ∧ path = "/api/register".toList) ∨
  (method = "POST".toList ∧ path = "/api/login".toList) ∨
  (method = "POST".toList ∧ path = "/api/logout".toList) ∨
  (method = "GET".toList ∧ path = "/api/session".toList) ∨
  (method = "GET".toList ∧ path = "/api/ads".toList) ∨
  (method = "POST".toList ∧ path = "/api/ads".toList) ∨
  (method = "DELETE".toList ∧ ∃ id : Str, id ≠ [] ∧ id.all isdigit = true ∧
    path = "/api/ads/".toList ++ id) ∨
  (method = "POST".toList ∧ ∃ id : Str, id ≠ [] ∧ id.all isdigit = true ∧
    path = "/api/ads/".toList ++ id ++ "/respond".toList) ∨
  (method = "GET".toList ∧ ∃ id : Str, id ≠ [] ∧ id.all isdigit = true ∧
    path = "/api/ads/".toList ++ id ++ "/responders".toList) ∨
  (method = "GET".toList ∧ path = "/api/ads/my-responses".toList)

/-! ### The naive encoder and the positions the decoding loop reaches -/

/-- An ASCII letter or digit. -/
def isAlnum (c : Char) : Bool :=
  decide (('0'.toNat ≤ c.toNat ∧ c.toNat ≤ '9'.toNat) ∨ ('a'.toNat ≤ c.toNat ∧ c.toNat ≤ 'z'.toNat)
    ∨ ('A'.toNat ≤ c.toNat ∧ c.toNat ≤ 'Z'.toNat))

/-- The hexadecimal digit of `n < 16`, in upper or in lower case. -/
def hexDigitChar (upper : Bool) (n : Nat) : Char :=
  if n < 10 then Char.ofNat ('0'.toNat + n)
  else if upper then Char.ofNat ('A'.toNat + (n - 10))
  else Char.ofNat ('a'.toNat + (n - 10))

/-- The naive encoder: a space becomes `+`, an ASCII letter or digit stays, every other byte
becomes `%` and its two hexadecimal digits. `upper i` chooses the case of the `i`-th hexadecimal
digit written, so that every mixture of upper and lower case is covered. -/
def naiveEncode (upper : Nat → Bool) : Str → Str
  | [] => []
  | c :: s =>
    if c = ' ' then '+' :: naiveEncode upper s
    else if isAlnum c then c :: naiveEncode upper s
    else '%' :: hexDigitChar (upper 0) (c.toNat / 16) :: hexDigitChar (upper 1) (c.toNat % 16)
        :: naiveEncode (fun i => upper (i + 2)) s

/-- Whether the loop of `urlDecode`, started at the beginning of `p`, arrives exactly at the end
of `p`: every `%` of `p` that the loop reaches has two characters of `p` after it, which it
consumes. -/
def urlAligned : Str → Bool
  | '%' :: _ :: _ :: rest => urlAligned rest
  | '%' :: _ => false
  | _ :: rest => urlAligned rest
  | [] => true

/-- The decoding of a character that is not part of an escape: `+` becomes a space. -/
def plusToSpace (c : Char) : Char := if c = '+' then ' ' else c

/-! ### The entries of `parseParams` -/

/-- The entry a token contributes: none for the empty token, otherwise the decoded texts before
and after the first `=`, or the decoded token and the empty text when it has no `=`. -/
def paramOfToken (token : Str) : Option (Str × Str) :=
  if token = [] then none
  else
    match findChar token '=' with
    | some eq => some (urlDecode (token.take eq), urlDecode (token.drop (eq + 1)))
    | none => some (urlDecode token, [])

/-- The value of `key` in a sequence of entries in which a later entry overrides an earlier
one. -/
def lookupLast : List (Str × Str) → Str → Option Str
  | [], _ => none
  | e :: es, key =>
    match lookupLast es key with
    | some v => some v
    | none => if e.1 = key then some e.2 else none

/-- The pieces joined again with `c` between them. -/
def joinWith (c : Char) : List Str → Str
  | [] => []
  | [piece] => piece
  | piece :: pieces => piece ++ c :: joinWith c pieces

/-- The line of one handler-supplied header. -/
def headerLine (kv : Str × Str) : Str := kv.1 ++ ": ".toList ++ kv.2 ++ "\r\n".toList

/-! ### JSON escaping: the table and the unescaping -/

/-- The table of the escapes: the text written for one byte. -/
def jsonEscapeTable (ch : Char) : Str :=
  if ch = '"' then "\\\"".toList
  else if ch = '\\' then "\\\\".toList
  else if ch = '\n' then "\\n".toList
  else if ch = '\r' then "\\r".toList
  else if ch = '\t' then "\\t".toList
  else if ch.toNat < 0x20 then
    "\\u00".toList ++ [hexDigitChar false (ch.toNat / 16), hexDigitChar false (ch.toNat % 16)]
  else [ch]

/-- Whether a text holds no double quote outside an escape: a backslash and the character after
it form an escape, a backslash at the very end is refused. -/
def noBareQuote : Str → Bool
  | '\\' :: _ :: rest => noBareQuote rest
  | ['\\'] => false
  | c :: rest => c ≠ '"' && noBareQuote rest
  | [] => true

/-- One step of standard JSON string unescaping: the character the text starts with, an escape
being read as the character it denotes, and the text after it. There is no result at the end of
the text, at a raw double quote or control character, and at a malformed escape; the escape of
a surrogate half, which stands for no character by itself, is not read. -/
def jsonUnescapeStep : Str → Option (Char × Str)
  | [] => none
  | c :: rest =>
    if c = '\\' then
      match rest with
      | [] => none
      | e :: rest =>
        if e = '"' then some ('"', rest)
        else if e = '\\' then some ('\\', rest)
        else if e = '/' then some ('/', rest)
        else if e = 'b' then some (Char.ofNat 8, rest)
        else if e = 'f' then some (Char.ofNat 12, rest)
        else if e = 'n' then some ('\n', rest)
        else if e = 'r' then some ('\r', rest)
        else if e = 't' then some ('\t', rest)
        else if e = 'u' then
          match rest with
          | a :: b :: c :: d :: rest =>
            match hexValue a, hexValue b, hexValue c, hexValue d with
            | some x, some y, some z, some w =>
              let n := ((x * 16 + y) * 16 + z) * 16 + w
              if 0xD800 ≤ n ∧ n < 0xE000 then none else some (Char.ofNat n, rest)
            | _, _, _, _ => none
          | _ => none
        else none
    else if c = '"' ∨ c.toNat < 0x20 then none
    else some (c, rest)

/-- Unescaping with a bound on the number of steps. -/
def jsonUnescapeFuel : Nat → Str → Option Str
  | _, [] => some []
  | 0, _ :: _ => none
  | fuel + 1, c :: rest =>
    match jsonUnescapeStep (c :: rest) with
    | none => none
    | some (ch, rest) => (jsonUnescapeFuel fuel rest).map (ch :: ·)

/-- Standard JSON string unescaping of the text between the quotes; every step consumes a
character, so the length of the text bounds the number of steps. -/
def jsonUnescape (s : Str) : Option Str := jsonUnescapeFuel s.length s

/-- Whether `price` is what the request asks for: `0.0` when its price parameter is empty or
absent, otherwise the value `std::stod` returns for that parameter. -/
def priceOfRequest (lib : StdLib) (request : HttpRequest) (price : Double) : Prop :=
  (request.getParam "price".toList = [] ∧ price = ⟨0⟩) ∨
  (request.getParam "price".toList ≠ [] ∧
    lib.stod (request.getParam "price".toList) = some price)

/-! ## Structured views of the JSON bodies

The handlers write their JSON bodies piece by piece.  The definitions below describe the
same bodies as a list of entries and the text of that list, so that properties of the
entries can be stated; the lemmas `buildAdsJson_eq`, `handleAdResponders_ok` and
`handleMyResponses_ok` relate them to the handlers.  The text of an entry is written here
field by field, independently of the handlers. -/

/-- The texts `x₁`, `,x₂`, `,x₃`, ... one after another, each with a leading comma. -/
def commaTail : List Str → Str
  | [] => []
  | x :: xs => ',' :: x ++ commaTail xs

/-- The texts separated by commas. -/
def commaSeparated : List Str → Str
  | [] => []
  | x :: xs => x ++ commaTail xs

/-- One entry of the ads listing; `responsesCount` is `none` when the field is left out. -/
structure AdView where
  id : Int
  title : Str
  description : Str
  price : Double
  ownerName : Str
  createdAt : Int
  mine : Bool
  responsesCount : Option Nat
  hasResponded : Bool
deriving DecidableEq, Repr

/-- The JSON text of a boolean. -/
def boolJson (b : Bool) : Str := if b then "true".toList else "false".toList

/-- The JSON object of one entry of the ads listing. -/
def AdView.render (lib : StdLib) (v : AdView) : Str :=
  ['\x7b'] ++ "\"id\":".toList ++ decInt v.id ++ [',']
    ++ "\"title\":\"".toList ++ jsonEscape v.title ++ "\",".toList
    ++ "\"description\":\"".toList ++ jsonEscape v.description ++ "\",".toList
    ++ "\"price\":".toList ++ lib.fixed2 v.price ++ [',']
    ++ "\"ownerName\":\"".toList ++ jsonEscape v.ownerName ++ "\",".toList
    ++ "\"createdAt\":".toList ++ decInt v.createdAt ++ [',']
    ++ "\"mine\":".toList ++ boolJson v.mine ++ [',']
    ++ (match v.responsesCount with
        | some n => "\"responsesCount\":".toList ++ decNat n ++ [',']
        | none => [])
    ++ "\"hasResponded\":".toList ++ boolJson v.hasResponded ++ ['\x7d']

/-- The body of the ads listing with the given entries. -/
def renderAds (lib : StdLib) (views : List AdView) : Str :=
  "\x7b\"ads\":[".toList ++ commaSeparated (views.map (AdView.render lib)) ++ "]\x7d".toList

/-- One entry of the responders listing. -/
structure ResponderView where
  id : Int
  name : Str
  email : Str
deriving DecidableEq, Repr

/-- The JSON object of one entry of the responders listing: the fields `id`, `name` and
`email`, in this order, the two texts escaped. -/
def ResponderView.render (v : ResponderView) : Str :=
  "\x7b\"id\":".toList ++ decInt v.id
    ++ ",\"name\":\"".toList ++ jsonEscape v.name
    ++ "\",\"email\":\"".toList ++ jsonEscape v.email ++ "\"\x7d".toList

/-- The entry of the responders listing for one user. -/
def responderView (user : User) : ResponderView :=
  { id := user.id, name := user.name, email := user.email }

/-- The body of the responders listing with the given entries. -/
def renderResponders (views : List ResponderView) : Str :=
  "\x7b\"responders\":[".toList ++ commaSeparated (views.map ResponderView.render)
    ++ "]\x7d".toList

/-- The user `users_[ad.ownerId - 1]` (a default user when out of range). -/
def ownerOf (app : BulletinBoardApp) (ad : Advertisement) : User :=
  (usersAt app.users_ (ad.ownerId - 1)).getD {}

/-- The entry of the ads listing for one advert, as seen by `currentUserId`. -/
def adView (app : BulletinBoardApp) (currentUserId : Int) (ad : Advertisement) : AdView :=
  { id := ad.id, title := ad.title, description := ad.description, price := ad.price,
    ownerName := (ownerOf app ad).name, createdAt := ad.createdAt,
    mine := decide (ad.ownerId = currentUserId),
    responsesCount :=
      if ad.ownerId = currentUserId then some (responseSet app ad.id).length else none,
    hasResponded := decide (currentUserId > 0 ∧ currentUserId ∈ responseSet app ad.id) }

/-- One entry of the my-responses listing. -/
structure ResponseView where
  id : Int
  title : Str
  description : Str
  price : Double
  ownerName : Str
  createdAt : Int
  hasResponded : Bool
deriving DecidableEq, Repr

/-- The JSON object of one entry of the my-responses listing. -/
def ResponseView.render (lib : StdLib) (v : ResponseView) : Str :=
  ['\x7b'] ++ "\"id\":".toList ++ decInt v.id ++ [',']
    ++ "\"title\":\"".toList ++ jsonEscape v.title ++ "\",".toList
    ++ "\"description\":\"".toList ++ jsonEscape v.description ++ "\",".toList
    ++ "\"price\":".toList ++ lib.fixed2 v.price ++ [',']
    ++ "\"ownerName\":\"".toList ++ jsonEscape v.ownerName ++ "\",".toList
    ++ "\"createdAt\":".toList ++ decInt v.createdAt ++ [',']
    ++ "\"hasResponded\":".toList ++ boolJson v.hasResponded ++ ['\x7d']

/-- The body of the my-responses listing with the given entries. -/
def renderMyResponses (lib : StdLib) (views : List ResponseView) : Str :=
  "\x7b\"ads\":[".toList ++ commaSeparated (views.map (ResponseView.render lib))
    ++ "]\x7d".toList

/-- The entry of the my-responses listing for one advert. -/
def responseView (app : BulletinBoardApp) (ad : Advertisement) : ResponseView :=
  { id := ad.id, title := ad.title, description := ad.description, price := ad.price,
    ownerName := (ownerOf app ad).name, createdAt := ad.createdAt, hasResponded := true }

/-- The adverts the loop of `handleMyResponses` writes an entry for, in the order of the
loop: for each entry of `responses_` whose set holds `userId`, the stored advert with the key
of the entry, if there is one. -/
def respondedAds (app : BulletinBoardApp) (userId : Int) (entries : List (Int × USet)) :
    List Advertisement :=
  entries.filterMap
    (fun p => if USet.count p.2 userId > 0 then findAdvert app.adverts_ p.1 else none)

/-! ## Sample inputs

Concrete library parameters, requests and stores on which the handlers are evaluated. -/

/-- A sample instance of the library parameters: the hash is the sum of the character
codes, `stod` reads the texts `0` (as `0.0`) and `-5` (as `-5.0`, as `std::stod` does) and
throws on every other text, and `fixed2` prints these two values. -/
def sampleLib : StdLib where
  hash := fun s => (s.map Char.toNat).sum
  stod := fun s =>
    if s = ['0'] then some ⟨0⟩
    else if s = ['-', '5'] then some ⟨0xC014000000000000⟩
    else none
  fixed2 := fun d =>
    if d.bits = 0 then "0.00".toList
    else if d.bits = 0xC014000000000000 then "-5.00".toList
    else "?".toList

/-- Random draws that are all `10`: the token is 32 times `a`. -/
def sampleDraws : Nat → Fin 16 := fun _ => 10

/-- A request with the given form parameters and no headers. -/
def formRequest (form : UMap Str Str) : HttpRequest := { form := form }

/-- A request whose only header is `authorization: Bearer <token>`. -/
def bearerRequest (token : Str) : HttpRequest :=
  { headers := [("authorization".toList, "Bearer ".toList ++ token)] }

/-- The login request of the seeded user Alice. -/
def aliceLogin : HttpRequest :=
  formRequest [("email".toList, "alice@example.com".toList),
               ("password".toList, "alice123".toList)]

/-- The seeded store after Alice has logged in with `sampleDraws`. -/
def aliceStore : BulletinBoardApp :=
  { BulletinBoardApp.init sampleLib 0 0 0 with sessions_ := [(generateToken sampleDraws, 2)] }

/-- A request carrying Alice's token. -/
def aliceRequest : HttpRequest := bearerRequest (generateToken sampleDraws)

/-- The store after Alice has responded to the seeded advert 1. -/
def aliceResponded : BulletinBoardApp := (handleRespondToAd aliceStore aliceRequest {} 1).1

/-- Random draws that are all `1`: the token is 32 times `1`. -/
def demoDraws : Nat → Fin 16 := fun _ => 1

/-- The login request of the seeded user Demo. -/
def demoLogin : HttpRequest :=
  formRequest [("email".toList, "demo@example.com".toList),
               ("password".toList, "demo123".toList)]

/-- The store `aliceResponded` after Demo has logged in with `demoDraws`. -/
def bothStore : BulletinBoardApp :=
  { aliceResponded with
      sessions_ := [(generateToken sampleDraws, 2), (generateToken demoDraws, 1)] }

/-- A request carrying Demo's token. -/
def demoRequest : HttpRequest := bearerRequest (generateToken demoDraws)

/-- A registration request for a new user Bob. -/
def bobRegister : HttpRequest :=
  formRequest [("name".toList, "Bob".toList), ("email".toList, "bob@example.com".toList),
               ("password".toList, "bob123".toList)]

/-- A login request with an email no user has. -/
def unknownLogin : HttpRequest :=
  formRequest [("email".toList, "nobody@example.com".toList),
               ("password".toList, "alice123".toList)]

/-- A login request with Alice's email and a password that is not hers. -/
def wrongLogin : HttpRequest :=
  formRequest [("email".toList, "alice@example.com".toList),
               ("password".toList, "alice124".toList)]

/-- A create request by Alice with the given price parameter. -/
def aliceCreate (price : Str) : HttpRequest :=
  { headers := [("authorization".toList, "Bearer ".toList ++ generateToken sampleDraws)],
    form := [("title".toList, "Desk".toList), ("description".toList, "Oak desk".toList),
             ("price".toList, price)] }

/-- The store after Alice has created an advert with the price parameter `-5`. -/
def negativePriceStore : BulletinBoardApp :=
  (handleCreateAd sampleLib aliceStore (aliceCreate "-5".toList) {} 0).1

/-- A file system without files: `serveStatic` returns `false` and leaves the response. -/
def noFiles : Str → HttpResponse → Bool × HttpResponse := fun _ response => (false, response)

/-- A request by Alice with the given method and path. -/
def aliceCall (method path : Str) : HttpRequest :=
  { method := method, rawTarget := path, path := path,
    headers := [("authorization".toList, "Bearer ".toList ++ generateToken sampleDraws)] }

/-- A request without headers and parameters, with the given method and path. -/
def anonymousCall (method path : Str) : HttpRequest :=
  { method := method, rawTarget := path, path := path }

/-- A create request by Demo (title `Lamp`, no price). -/
def demoCreate : HttpRequest :=
  { headers := [("authorization".toList, "Bearer ".toList ++ generateToken demoDraws)],
    form := [("title".toList, "Lamp".toList), ("description".toList, "Desk lamp".toList)] }

/-- The store `aliceStore` after Alice has created an advert and deleted it again `n` times:
only the advert counter has moved. -/
def cycledStore (n : Nat) : BulletinBoardApp := { aliceStore with nextAdvertId_ := 4 + (n : Int) }

/-- The store `aliceStore` with the advert counter at `INT_MAX`: the store after Alice has
created an advert and deleted it again 2147483643 times. -/
def overflowStore : BulletinBoardApp := { aliceStore with nextAdvertId_ := 2147483647 }

/-- The store `aliceStore` after Alice has deleted her advert 3. -/
def afterDelete : BulletinBoardApp := (handleDeleteAd aliceStore aliceRequest {} 3).1

/-- A response with a status outside the table and three handler-supplied headers. -/
def teapot : HttpResponse :=
  { status := 418,
    body := "\x7b\"error\":\"teapot\"\x7d".toList,
    headers := [("Cache-Control".toList, "no-cache".toList), ("X-A".toList, "1".toList),
      ("Cache-Control".toList, "no-store".toList)] }

/-! ## Lemmas on the containers -/

section UMapLemmas

variable {K V : Type} [DecidableEq K]

theorem UMap.find_assign (m : UMap K V) (k k' : K) (v : V) :
    UMap.find (UMap.assign m k v) k' = if k = k' then some v else UMap.find m k' := by
  induction m with
  | nil => simp [UMap.assign, UMap.find]
  | cons p m ih =>
    obtain ⟨a, b⟩ := p
    by_cases h : a = k
    · subst h
      by_cases h2 : a = k' <;> simp [UMap.assign, UMap.find, h2]
    · by_cases h2 : a = k'
      · subst h2
        simp [UMap.assign, UMap.find, h, Ne.symm h]
      · simp [UMap.assign, UMap.find, h, h2, ih]

theorem UMap.find_erase (m : UMap K V) (k k' : K) :
    UMap.find (UMap.erase m k) k' = if k = k' then none else UMap.find m k' := by
  induction m with
  | nil => simp [UMap.erase, UMap.find]
  | cons p m ih =>
    obtain ⟨a, b⟩ := p
    by_cases h : a = k
    · subst h
      by_cases h2 : a = k'
      · subst h2
        simpa [UMap.erase] using ih
      · simp [UMap.erase, UMap.find, h2, ih]
    · by_cases h2 : a = k'
      · subst h2
        simp [UMap.erase, UMap.find, h, Ne.symm h]
      · simp [UMap.erase, UMap.find, h, h2, ih]

theorem UMap.erase_sublist (m : UMap K V) (k : K) : List.Sublist (UMap.erase m k) m := by
  induction m with
  | nil => simp [UMap.erase]
  | cons p m ih =>
    obtain ⟨a, b⟩ := p
    by_cases h : a = k
    · simp only [UMap.erase, h, if_true]
      exact List.Sublist.cons _ ih
    · simp only [UMap.erase, h, if_false]
      exact List.Sublist.cons₂ _ ih

theorem UMap.key_ne_of_mem_erase {m : UMap K V} {k : K} {p : K × V}
    (h : p ∈ UMap.erase m k) : p.1 ≠ k := by
  induction m with
  | nil => simp [UMap.erase] at h
  | cons q m ih =>
    obtain ⟨a, b⟩ := q
    by_cases h2 : a = k
    · simp only [UMap.erase, h2, if_true] at h
      exact ih h
    · simp only [UMap.erase, h2, if_false, List.mem_cons] at h
      rcases h with h | h
      · rw [h]; exact h2
      · exact ih h

theorem UMap.mem_of_find {m : UMap K V} {k : K} {v : V} (h : UMap.find m k = some v) :
    (k, v) ∈ m := by
  induction m with
  | nil => simp [UMap.find] at h
  | cons p m ih =>
    obtain ⟨a, b⟩ := p
    by_cases h2 : a = k
    · subst h2
      simp [UMap.find] at h
      simp [h]
    · simp [UMap.find, h2] at h
      exact List.mem_cons_of_mem _ (ih h)

theorem UMap.find_isSome_of_mem {m : UMap K V} {k : K} {v : V} (h : (k, v) ∈ m) :
    (UMap.find m k).isSome = true := by
  induction m with
  | nil => simp at h
  | cons p m ih =>
    obtain ⟨a, b⟩ := p
    by_cases h2 : a = k
    · simp [UMap.find, h2]
    · simp [UMap.find, h2]
      rcases List.mem_cons.mp h with h3 | h3
      · exact absurd (congrArg Prod.fst h3).symm h2
      · exact ih h3

theorem UMap.find_of_mem_nodup {m : UMap K V} {k : K} {v : V} (hn : (m.map Prod.fst).Nodup)
    (h : (k, v) ∈ m) : UMap.find m k = some v := by
  induction m with
  | nil => simp at h
  | cons p m ih =>
    obtain ⟨a, b⟩ := p
    simp only [List.map_cons, List.nodup_cons] at hn
    rcases List.mem_cons.mp h with h3 | h3
    · cases h3
      simp [UMap.find]
    · have : a ≠ k := by
        rintro rfl
        exact hn.1 (List.mem_map.mpr ⟨(a, v), h3, rfl⟩)
      simp [UMap.find, this]
      exact ih hn.2 h3

theorem UMap.mem_assign {m : UMap K V} {k : K} {v : V} {p : K × V}
    (h : p ∈ UMap.assign m k v) : p = (k, v) ∨ p ∈ m := by
  induction m with
  | nil => simpa [UMap.assign] using h
  | cons q m ih =>
    obtain ⟨a, b⟩ := q
    by_cases h2 : a = k
    · subst h2
      simp only [UMap.assign, if_true, List.mem_cons] at h
      rcases h with h | h
      · exact Or.inl h
      · exact Or.inr (List.mem_cons_of_mem _ h)
    · simp only [UMap.assign, h2, if_false, List.mem_cons] at h
      rcases h with h | h
      · exact Or.inr (by simp [h])
      · rcases ih h with h | h
        · exact Or.inl h
        · exact Or.inr (List.mem_cons_of_mem _ h)

theorem UMap.keys_assign_subset (m : UMap K V) (k : K) (v : V) (x : K)
    (h : x ∈ (UMap.assign m k v).map Prod.fst) : x = k ∨ x ∈ m.map Prod.fst := by
  obtain ⟨p, hp, rfl⟩ := List.mem_map.mp h
  rcases UMap.mem_assign hp with h | h
  · exact Or.inl (by rw [h])
  · exact Or.inr (List.mem_map.mpr ⟨p, h, rfl⟩)

theorem UMap.nodup_keys_assign {m : UMap K V} (k : K) (v : V) (hn : (m.map Prod.fst).Nodup) :
    ((UMap.assign m k v).map Prod.fst).Nodup := by
  induction m with
  | nil => simp [UMap.assign]
  | cons q m ih =>
    obtain ⟨a, b⟩ := q
    simp only [List.map_cons, List.nodup_cons] at hn
    by_cases h2 : a = k
    · simp only [UMap.assign, h2, if_true, List.map_cons, List.nodup_cons]
      exact ⟨h2 ▸ hn.1, hn.2⟩
    · simp only [UMap.assign, h2, if_false, List.map_cons, List.nodup_cons]
      refine ⟨fun hmem => ?_, ih hn.2⟩
      rcases UMap.keys_assign_subset m k v a hmem with h | h
      · exact h2 h
      · exact hn.1 h

theorem UMap.nodup_keys_erase {m : UMap K V} (k : K) (hn : (m.map Prod.fst).Nodup) :
    ((UMap.erase m k).map Prod.fst).Nodup :=
  List.Nodup.sublist ((UMap.erase_sublist m k).map Prod.fst) hn

theorem UMap.touch_of_find {m : UMap K V} {k : K} {v : V} (dflt : V)
    (h : UMap.find m k = some v) : UMap.touch m k dflt = m := by
  simp [UMap.touch, h]

theorem UMap.find_append_single (m : UMap K V) (k k' : K) (v : V) :
    UMap.find (m ++ [(k, v)]) k' =
      match UMap.find m k' with
      | some w => some w
      | none => if k = k' then some v else none := by
  induction m with
  | nil => simp [UMap.find]
  | cons p m ih =>
    obtain ⟨a, b⟩ := p
    by_cases h : a = k' <;> simp [UMap.find, h, ih]

theorem UMap.find_touch (m : UMap K V) (k k' : K) (dflt : V) :
    UMap.find (UMap.touch m k dflt) k' =
      if k = k' then some ((UMap.find m k).getD dflt) else UMap.find m k' := by
  unfold UMap.touch
  cases hf : UMap.find m k with
  | some w =>
    by_cases h : k = k'
    · subst h; simp [hf]
    · simp [h]
  | none =>
    simp only [Option.isSome_none, Bool.false_eq_true, if_false, UMap.find_append_single]
    by_cases h : k = k'
    · subst h; simp [hf]
    · cases UMap.find m k' <;> simp [h]

theorem UMap.mem_touch {m : UMap K V} {k : K} {dflt : V} {p : K × V}
    (h : p ∈ UMap.touch m k dflt) : p = (k, dflt) ∨ p ∈ m := by
  unfold UMap.touch at h
  split at h
  · exact Or.inr h
  · rcases List.mem_append.mp h with h | h
    · exact Or.inr h
    · exact Or.inl (by simpa using h)

theorem UMap.nodup_keys_touch {m : UMap K V} (k : K) (dflt : V)
    (hn : (m.map Prod.fst).Nodup) : ((UMap.touch m k dflt).map Prod.fst).Nodup := by
  unfold UMap.touch
  cases hf : UMap.find m k with
  | some w => simpa using hn
  | none =>
    simp only [Option.isSome_none, Bool.false_eq_true, if_false, List.map_append, List.map_cons,
      List.map_nil]
    refine List.Nodup.append hn (by simp) ?_
    intro x hx hx2
    simp only [List.mem_singleton] at hx2
    subst hx2
    obtain ⟨p, hp, hpk⟩ := List.mem_map.mp hx
    have := UMap.find_isSome_of_mem (m := m) (k := p.1) (v := p.2) hp
    rw [hpk, hf] at this
    simp at this
end UMapLemmas

/-! ## Preservation of consistency -/

theorem usersAt_some {users : List User} {i : Int} {u : User} (h : usersAt users i = some u) :
    0 ≤ i ∧ users[i.toNat]? = some u := by
  unfold usersAt at h
  split at h
  · exact ⟨by assumption, h⟩
  · simp at h

theorem usersAt_of_range {users : List User} {k : Int} (h1 : 1 ≤ k)
    (h2 : k ≤ (users.length : Int)) : ∃ u, usersAt users (k - 1) = some u ∧ u ∈ users := by
  have h0 : 0 ≤ k - 1 := by omega
  have hlt : (k - 1).toNat < users.length := by omega
  refine ⟨users[(k - 1).toNat], ?_, List.getElem_mem _⟩
  simp [usersAt, h0, List.getElem?_eq_getElem hlt]

theorem usersAt_append {users : List User} {i : Int} {u : User} (extra : List User)
    (h : usersAt users i = some u) : usersAt (users ++ extra) i = some u := by
  obtain ⟨h0, h1⟩ := usersAt_some h
  have hlt : i.toNat < users.length := by
    rcases List.getElem?_eq_some.mp h1 with ⟨hlt, _⟩
    exact hlt
  simp [usersAt, h0, List.getElem?_append_left hlt, h1]

theorem WellFormed.usersAt_id {app : BulletinBoardApp} (wf : WellFormed app) {k : Int} {u : User}
    (h : usersAt app.users_ (k - 1) = some u) : u.id = k := by
  obtain ⟨h0, h1⟩ := usersAt_some h
  have := wf.userIds _ _ h1
  omega

theorem WellFormed.usersAt_mem {app : BulletinBoardApp} {k : Int} {u : User}
    (h : usersAt app.users_ k = some u) : u ∈ app.users_ := by
  obtain ⟨_, h1⟩ := usersAt_some h
  rcases List.getElem?_eq_some.mp h1 with ⟨hlt, he⟩
  exact he ▸ List.getElem_mem _

theorem WellFormed.user_id_range {app : BulletinBoardApp} (wf : WellFormed app) {u : User}
    (h : u ∈ app.users_) : 1 ≤ u.id ∧ u.id ≤ (app.users_.length : Int) := by
  obtain ⟨i, hlt, he⟩ := List.mem_iff_getElem.mp h
  have := wf.userIds i u (by simp [List.getElem?_eq_getElem hlt, he])
  omega

theorem WellFormed.user_eq_of_id {app : BulletinBoardApp} (wf : WellFormed app) {u v : User}
    (hu : u ∈ app.users_) (hv : v ∈ app.users_) (h : u.id = v.id) : u = v := by
  obtain ⟨i, hi, he⟩ := List.mem_iff_getElem.mp hu
  obtain ⟨j, hj, hf⟩ := List.mem_iff_getElem.mp hv
  have h1 := wf.userIds i u (by simp [List.getElem?_eq_getElem hi, he])
  have h2 := wf.userIds j v (by simp [List.getElem?_eq_getElem hj, hf])
  have hij : i = j := by omega
  subst hij
  rw [← he, ← hf]

theorem wellFormed_init (lib : StdLib) (t1 t2 t3 : Int) :
    WellFormed (BulletinBoardApp.init lib t1 t2 t3) := by
  refine ⟨?_, ?_, ?_, ?_, ?_, ?_, ?_, ?_, ?_, ?_, ?_, ?_⟩
  · simp [BulletinBoardApp.init]
  · intro i u h
    match i, h with
    | 0, h => simp [BulletinBoardApp.init] at h; simp [← h]
    | 1, h => simp [BulletinBoardApp.init] at h; simp [← h]
    | n + 2, h => simp [BulletinBoardApp.init] at h
  · intro e k h
    have hne : ("alice@example.com".toList = "demo@example.com".toList) = False := by
      simp
    simp only [BulletinBoardApp.init, UMap.assign, UMap.find, List.nil_append, hne,
      if_false] at h
    split at h
    · rename_i he
      simp at h
      subst h
      exact ⟨{ id := 1, name := "Demo User".toList, email := "demo@example.com".toList,
               passwordHash := hashPassword lib "demo123".toList }, by
        simp [usersAt, BulletinBoardApp.init], he⟩
    · split at h
      · rename_i he
        simp at h
        subst h
        exact ⟨{ id := 2, name := "Alice Smith".toList, email := "alice@example.com".toList,
                 passwordHash := hashPassword lib "alice123".toList }, by
          simp [usersAt, BulletinBoardApp.init], he⟩
      · simp at h
  · intro u h
    simp [BulletinBoardApp.init] at h
    rcases h with h | h <;> subst h <;> simp [BulletinBoardApp.init, UMap.assign, UMap.find]
  · intro t k h
    simp [BulletinBoardApp.init, UMap.find] at h
  · simp [BulletinBoardApp.init]
  · intro ad h
    simp [BulletinBoardApp.init] at h
    rcases h with h | h | h <;> simp [h, BulletinBoardApp.init]
  · intro ad h
    simp [BulletinBoardApp.init] at h
    rcases h with h | h | h <;> simp [h, BulletinBoardApp.init]
  · intro p h
    simp [BulletinBoardApp.init] at h
  · simp [BulletinBoardApp.init]
  · intro p h
    simp [BulletinBoardApp.init] at h
  · intro ad _ p h
    simp [BulletinBoardApp.init] at h

theorem WellFormed.addUser {app : BulletinBoardApp} (wf : WellFormed app) (name email hash : Str)
    (hnew : UMap.find app.emailToUserId_ email = none) :
    WellFormed { app with
      nextUserId_ := app.nextUserId_ + 1,
      users_ := app.users_ ++ [{ id := app.nextUserId_, name := name, email := email,
                                 passwordHash := hash }],
      emailToUserId_ := UMap.assign app.emailToUserId_ email app.nextUserId_ } := by
  have hlen := wf.nextUserId
  refine ⟨?_, ?_, ?_, ?_, ?_, wf.advertIds, wf.advertIdsBelow, ?_, wf.responseKeys,
    wf.responseKeysNodup, ?_, wf.ownerNotResponder⟩
  · simp [hlen]
  · intro i u h
    simp only at h
    by_cases hi : i < app.users_.length
    · rw [List.getElem?_append_left hi] at h
      exact wf.userIds i u h
    · rw [List.getElem?_append_right (by omega)] at h
      have hi2 : i - app.users_.length = 0 := by
        by_contra hne
        obtain ⟨j, hj⟩ := Nat.exists_eq_succ_of_ne_zero hne
        rw [hj] at h
        simp at h
      rw [hi2] at h
      simp at h
      subst h
      simp only
      omega
  · intro e k h
    simp only [UMap.find_assign] at h
    split at h
    · rename_i he
      simp at h
      subst h
      refine ⟨{ id := app.nextUserId_, name := name, email := email, passwordHash := hash },
        ?_, he⟩
      have h0 : 0 ≤ app.nextUserId_ - 1 := by omega
      have h1 : (app.nextUserId_ - 1).toNat = app.users_.length := by omega
      simp [usersAt, h0, h1]
    · obtain ⟨u, hu, hue⟩ := wf.emailIndex e k h
      exact ⟨u, usersAt_append _ hu, hue⟩
  · intro u hu
    simp only [UMap.find_assign]
    rcases List.mem_append.mp hu with h | h
    · have := wf.userEmails u h
      split
      · rename_i he
        rw [← he, hnew] at this
        simp at this
      · exact this
    · simp at h
      subst h
      simp
  · intro t k h
    have := wf.sessionIds t k h
    simp only [List.length_append, List.length_singleton, Nat.cast_add, Nat.cast_one]
    omega
  · intro ad h
    have := wf.advertOwners ad h
    simp only [List.length_append, List.length_singleton, Nat.cast_add, Nat.cast_one]
    omega
  · intro p h
    have := wf.responseSets p h
    refine ⟨this.1, fun u hu => ?_⟩
    have := this.2 u hu
    simp only [List.length_append, List.length_singleton, Nat.cast_add, Nat.cast_one]
    omega

theorem WellFormed.setSessions {app : BulletinBoardApp} (wf : WellFormed app)
    (sessions : UMap Str Int)
    (h : ∀ (t : Str) (k : Int), UMap.find sessions t = some k →
      1 ≤ k ∧ k ≤ (app.users_.length : Int)) :
    WellFormed { app with sessions_ := sessions } :=
  ⟨wf.nextUserId, wf.userIds, wf.emailIndex, wf.userEmails, h, wf.advertIds, wf.advertIdsBelow,
    wf.advertOwners, wf.responseKeys, wf.responseKeysNodup, wf.responseSets,
    wf.ownerNotResponder⟩

theorem WellFormed.addAdvert {app : BulletinBoardApp} (wf : WellFormed app) (ad : Advertisement)
    (hid : ad.id = app.nextAdvertId_)
    (howner : 1 ≤ ad.ownerId ∧ ad.ownerId ≤ (app.users_.length : Int)) :
    WellFormed { app with nextAdvertId_ := app.nextAdvertId_ + 1,
                          adverts_ := app.adverts_ ++ [ad] } := by
  refine ⟨wf.nextUserId, wf.userIds, wf.emailIndex, wf.userEmails, wf.sessionIds, ?_, ?_, ?_, ?_,
    wf.responseKeysNodup, wf.responseSets, ?_⟩
  · refine List.pairwise_append.mpr ⟨wf.advertIds, List.pairwise_singleton _ _, ?_⟩
    intro a ha b hb
    simp only [List.mem_singleton] at hb
    subst hb
    have := wf.advertIdsBelow a ha
    omega
  · intro a ha
    rcases List.mem_append.mp ha with h | h
    · have := wf.advertIdsBelow a h
      simp only
      omega
    · simp only [List.mem_singleton] at h
      subst h
      simp only
      omega
  · intro a ha
    rcases List.mem_append.mp ha with h | h
    · exact wf.advertOwners a h
    · simp only [List.mem_singleton] at h
      subst h
      exact howner
  · intro p hp
    obtain ⟨a, ha, hap⟩ := wf.responseKeys p hp
    exact ⟨a, List.mem_append_left _ ha, hap⟩
  · intro a ha p hp hpa
    rcases List.mem_append.mp ha with h | h
    · exact wf.ownerNotResponder a h p hp hpa
    · simp only [List.mem_singleton] at h
      subst h
      obtain ⟨b, hb, hbp⟩ := wf.responseKeys p hp
      have := wf.advertIdsBelow b hb
      omega

theorem mem_eraseAdvert_of_ne {adverts : List Advertisement} {advertId : Int}
    {ad : Advertisement} (h : ad ∈ adverts) (hne : ad.id ≠ advertId) :
    ad ∈ eraseAdvert adverts advertId := by
  unfold eraseAdvert
  exact (List.mem_eraseP_of_neg (by simpa using hne)).mpr h

theorem WellFormed.deleteAdvert {app : BulletinBoardApp} (wf : WellFormed app) (advertId : Int) :
    WellFormed { app with adverts_ := eraseAdvert app.adverts_ advertId,
                          responses_ := UMap.erase app.responses_ advertId } := by
  have hsub : List.Sublist (eraseAdvert app.adverts_ advertId) app.adverts_ :=
    List.eraseP_sublist _
  have hrsub := UMap.erase_sublist app.responses_ advertId
  refine ⟨wf.nextUserId, wf.userIds, wf.emailIndex, wf.userEmails, wf.sessionIds,
    wf.advertIds.sublist hsub, fun a ha => wf.advertIdsBelow a (hsub.subset ha),
    fun a ha => wf.advertOwners a (hsub.subset ha), ?_,
    UMap.nodup_keys_erase _ wf.responseKeysNodup,
    fun p hp => wf.responseSets p (hrsub.subset hp),
    fun a ha p hp => wf.ownerNotResponder a (hsub.subset ha) p (hrsub.subset hp)⟩
  intro p hp
  obtain ⟨a, ha, hap⟩ := wf.responseKeys p (hrsub.subset hp)
  have hne := UMap.key_ne_of_mem_erase hp
  exact ⟨a, mem_eraseAdvert_of_ne ha (by omega), hap⟩

theorem WellFormed.setResponses {app : BulletinBoardApp} (wf : WellFormed app)
    (responses : UMap Int USet)
    (hkeys : ∀ p ∈ responses, ∃ ad ∈ app.adverts_, ad.id = p.1)
    (hnodup : (responses.map Prod.fst).Nodup)
    (hsets : ∀ p ∈ responses, p.2.Nodup ∧ ∀ u ∈ p.2, 1 ≤ u ∧ u ≤ (app.users_.length : Int))
    (howner : ∀ ad ∈ app.adverts_, ∀ p ∈ responses, p.1 = ad.id → ad.ownerId ∉ p.2) :
    WellFormed { app with responses_ := responses } :=
  ⟨wf.nextUserId, wf.userIds, wf.emailIndex, wf.userEmails, wf.sessionIds, wf.advertIds,
    wf.advertIdsBelow, wf.advertOwners, hkeys, hnodup, hsets, howner⟩

theorem findAdvert_some {adverts : List Advertisement} {advertId : Int} {ad : Advertisement}
    (h : findAdvert adverts advertId = some ad) : ad ∈ adverts ∧ ad.id = advertId := by
  unfold findAdvert at h
  exact ⟨List.mem_of_find?_eq_some h, by simpa using List.find?_some h⟩

theorem findAdvert_none {adverts : List Advertisement} {advertId : Int}
    (h : findAdvert adverts advertId = none) : ∀ ad ∈ adverts, ad.id ≠ advertId := by
  unfold findAdvert at h
  intro ad had
  simpa using List.find?_eq_none.mp h ad had

theorem advert_eq_of_pairwise {l : List Advertisement}
    (hp : l.Pairwise (fun a b => a.id < b.id)) {a b : Advertisement}
    (ha : a ∈ l) (hb : b ∈ l) (h : a.id = b.id) : a = b := by
  induction l with
  | nil => simp at ha
  | cons x l ih =>
    rw [List.pairwise_cons] at hp
    rcases List.mem_cons.mp ha with ha | ha <;> rcases List.mem_cons.mp hb with hb | hb
    · rw [ha, hb]
    · have := hp.1 b hb
      rw [← ha] at this
      omega
    · have := hp.1 a ha
      rw [← hb] at this
      omega
    · exact ih hp.2 ha hb

theorem WellFormed.advert_eq_of_id {app : BulletinBoardApp} (wf : WellFormed app)
    {a b : Advertisement} (ha : a ∈ app.adverts_) (hb : b ∈ app.adverts_) (h : a.id = b.id) :
    a = b :=
  advert_eq_of_pairwise wf.advertIds ha hb h

theorem WellFormed.touch {app : BulletinBoardApp} (wf : WellFormed app) {ad : Advertisement}
    (had : ad ∈ app.adverts_) :
    WellFormed { app with responses_ := UMap.touch app.responses_ ad.id [] } := by
  refine wf.setResponses _ ?_ (UMap.nodup_keys_touch _ _ wf.responseKeysNodup) ?_ ?_
  · intro p hp
    rcases UMap.mem_touch hp with h | h
    · exact ⟨ad, had, by rw [h]⟩
    · exact wf.responseKeys p h
  · intro p hp
    rcases UMap.mem_touch hp with h | h
    · subst h; simp
    · exact wf.responseSets p h
  · intro a ha p hp hpa
    rcases UMap.mem_touch hp with h | h
    · subst h; simp
    · exact wf.ownerNotResponder a ha p h hpa

theorem USet.mem_insert {s : USet} {u x : Int} : x ∈ USet.insert s u ↔ x ∈ s ∨ x = u := by
  unfold USet.insert
  split
  · constructor
    · exact Or.inl
    · rintro (h | h)
      · exact h
      · subst h; assumption
  · simp

theorem USet.nodup_insert {s : USet} (u : Int) (h : s.Nodup) : (USet.insert s u).Nodup := by
  unfold USet.insert
  split
  · exact h
  · rename_i hu
    exact List.Nodup.append h (by simp) (by
      intro x hx hx2
      simp only [List.mem_singleton] at hx2
      subst hx2
      exact hu hx)

theorem WellFormed.responseSet_props {app : BulletinBoardApp} (wf : WellFormed app)
    (advertId : Int) :
    (responseSet app advertId).Nodup ∧
      (∀ u ∈ responseSet app advertId, 1 ≤ u ∧ u ≤ (app.users_.length : Int)) ∧
      ∀ ad ∈ app.adverts_, ad.id = advertId → ad.ownerId ∉ responseSet app advertId := by
  unfold responseSet
  cases hf : UMap.find app.responses_ advertId with
  | none => simp
  | some set =>
    have hmem := UMap.mem_of_find hf
    have h1 := wf.responseSets _ hmem
    exact ⟨h1.1, h1.2, fun ad had hid => wf.ownerNotResponder ad had _ hmem hid.symm⟩

theorem WellFormed.respond {app : BulletinBoardApp} (wf : WellFormed app) {ad : Advertisement}
    (had : ad ∈ app.adverts_) (u : Int) (hu : 1 ≤ u ∧ u ≤ (app.users_.length : Int))
    (hne : ad.ownerId ≠ u) :
    WellFormed { app with
      responses_ := UMap.assign app.responses_ ad.id (USet.insert (responseSet app ad.id) u) } := by
  obtain ⟨hnd, hrange, hown⟩ := wf.responseSet_props ad.id
  refine wf.setResponses _ ?_ (UMap.nodup_keys_assign _ _ wf.responseKeysNodup) ?_ ?_
  · intro p hp
    rcases UMap.mem_assign hp with h | h
    · exact ⟨ad, had, by rw [h]⟩
    · exact wf.responseKeys p h
  · intro p hp
    rcases UMap.mem_assign hp with h | h
    · subst h
      refine ⟨USet.nodup_insert _ hnd, fun x hx => ?_⟩
      rcases USet.mem_insert.mp hx with hx | hx
      · exact hrange x hx
      · subst hx; exact hu
    · exact wf.responseSets p h
  · intro a ha p hp hpa
    rcases UMap.mem_assign hp with h | h
    · subst h
      have hab : a = ad := wf.advert_eq_of_id ha had hpa.symm
      subst hab
      intro hx
      rcases USet.mem_insert.mp hx with hx | hx
      · exact hown a ha rfl hx
      · exact hne hx
    · exact wf.ownerNotResponder a ha p h hpa

theorem WellFormed.authenticate_range {app : BulletinBoardApp} (wf : WellFormed app)
    {request : HttpRequest} {u : Int} (h : authenticate app request = some u) :
    1 ≤ u ∧ u ≤ (app.users_.length : Int) := by
  unfold authenticate at h
  simp only at h
  split at h
  · simp at h
  · split at h
    · simp at h
    · exact wf.sessionIds _ _ h

theorem WellFormed.handleRegister {app : BulletinBoardApp} (wf : WellFormed app) (lib : StdLib)
    (request : HttpRequest) (response : HttpResponse) :
    WellFormed (handleRegister lib app request response).1 := by
  unfold BulletinBoard.handleRegister
  simp only
  split
  · exact wf
  · split
    · exact wf
    · rename_i hcount
      refine wf.addUser _ _ _ ?_
      unfold UMap.count at hcount
      cases hf : UMap.find app.emailToUserId_ (request.getParam "email".toList) with
      | none => rfl
      | some k => rw [hf] at hcount; simp at hcount

theorem WellFormed.handleLogin {app : BulletinBoardApp} (wf : WellFormed app) (lib : StdLib)
    (request : HttpRequest) (response : HttpResponse) (draws : Nat → Fin 16)
    {result : BulletinBoardApp × HttpResponse}
    (h : handleLogin lib app request response draws = some result) : WellFormed result.1 := by
  unfold BulletinBoard.handleLogin at h
  simp only at h
  split at h
  · simp at h; subst h; exact wf
  · split at h
    · simp at h; subst h; exact wf
    · rename_i userId hfind
      split at h
      · simp at h
      · rename_i user huser
        split at h
        · simp at h; subst h; exact wf
        · simp at h
          subst h
          refine wf.setSessions _ ?_
          intro t k hk
          rw [UMap.find_assign] at hk
          split at hk
          · simp at hk
            subst hk
            exact wf.user_id_range (WellFormed.usersAt_mem huser)
          · exact wf.sessionIds t k hk

theorem WellFormed.handleLogout {app : BulletinBoardApp} (wf : WellFormed app)
    (request : HttpRequest) (response : HttpResponse) :
    WellFormed (handleLogout app request response).1 := by
  unfold BulletinBoard.handleLogout
  simp only
  split
  · split
    · refine wf.setSessions _ ?_
      intro t k hk
      rw [UMap.find_erase] at hk
      split at hk
      · simp at hk
      · exact wf.sessionIds t k hk
    · exact wf
  · exact wf

theorem WellFormed.handleCreateAd {app : BulletinBoardApp} (wf : WellFormed app) (lib : StdLib)
    (request : HttpRequest) (response : HttpResponse) (now : Int) :
    WellFormed (handleCreateAd lib app request response now).1 := by
  unfold BulletinBoard.handleCreateAd
  split
  · exact wf
  · rename_i userId hauth
    simp only
    split
    · exact wf
    · split
      · exact wf
      · exact wf.addAdvert _ rfl (wf.authenticate_range hauth)

theorem WellFormed.handleDeleteAd {app : BulletinBoardApp} (wf : WellFormed app)
    (request : HttpRequest) (response : HttpResponse) (advertId : Int) :
    WellFormed (handleDeleteAd app request response advertId).1 := by
  unfold BulletinBoard.handleDeleteAd
  split
  · exact wf
  · split
    · exact wf
    · split
      · exact wf
      · exact wf.deleteAdvert advertId

theorem WellFormed.handleRespondToAd {app : BulletinBoardApp} (wf : WellFormed app)
    (request : HttpRequest) (response : HttpResponse) (advertId : Int) :
    WellFormed (handleRespondToAd app request response advertId).1 := by
  unfold BulletinBoard.handleRespondToAd
  split
  · exact wf
  · rename_i userId hauth
    split
    · exact wf
    · rename_i it hit
      obtain ⟨hmem, hid⟩ := findAdvert_some hit
      subst hid
      split
      · exact wf
      · rename_i hne
        have wf1 := wf.touch hmem
        simp only
        split
        · exact wf1
        · exact wf1.respond hmem userId (wf.authenticate_range hauth) hne

/-- Every reachable store is consistent. -/
theorem Reachable.wellFormed {lib : StdLib} {app : BulletinBoardApp} (h : Reachable lib app) :
    WellFormed app := by
  induction h with
  | init t1 t2 t3 => exact wellFormed_init lib t1 t2 t3
  | register request response _ ih => exact ih.handleRegister lib request response
  | login request response draws result _ hres ih =>
    exact ih.handleLogin lib request response draws hres
  | logout request response _ ih => exact ih.handleLogout request response
  | createAd request response now _ ih => exact ih.handleCreateAd lib request response now
  | deleteAd request response advertId _ ih => exact ih.handleDeleteAd request response advertId
  | respondToAd request response advertId _ ih =>
    exact ih.handleRespondToAd request response advertId

/-! ## The handlers case by case -/

theorem authenticate_congr {app app1 : BulletinBoardApp} (h : app1.sessions_ = app.sessions_)
    (request : HttpRequest) : authenticate app1 request = authenticate app request := by
  unfold authenticate
  rw [h]

theorem WellFormed.findAdvert_of_mem {app : BulletinBoardApp} (wf : WellFormed app)
    {ad : Advertisement} (had : ad ∈ app.adverts_) :
    findAdvert app.adverts_ ad.id = some ad := by
  cases hf : findAdvert app.adverts_ ad.id with
  | none => exact absurd rfl (findAdvert_none hf ad had)
  | some b =>
    obtain ⟨hb, hid⟩ := findAdvert_some hf
    rw [wf.advert_eq_of_id hb had hid]

theorem findAdvert_none_iff {adverts : List Advertisement} {advertId : Int} :
    findAdvert adverts advertId = none ↔ ∀ ad ∈ adverts, ad.id ≠ advertId := by
  constructor
  · exact findAdvert_none
  · intro h
    cases hf : findAdvert adverts advertId with
    | none => rfl
    | some b =>
      obtain ⟨hb, hid⟩ := findAdvert_some hf
      exact absurd hid (h b hb)

theorem handleRespondToAd_notFound {app : BulletinBoardApp} {request : HttpRequest}
    (response : HttpResponse) {u advertId : Int} (hauth : authenticate app request = some u)
    (hfind : findAdvert app.adverts_ advertId = none) :
    handleRespondToAd app request response advertId =
      (app, { response with status := 404,
                            body := "\x7b\"error\":\"Advertisement not found\"\x7d".toList }) := by
  simp [handleRespondToAd, hauth, hfind]

theorem handleRespondToAd_self {app : BulletinBoardApp} {request : HttpRequest}
    (response : HttpResponse) {u advertId : Int} {it : Advertisement}
    (hauth : authenticate app request = some u)
    (hfind : findAdvert app.adverts_ advertId = some it) (hown : it.ownerId = u) :
    handleRespondToAd app request response advertId =
      (app, { response with
                status := 400,
                body := "\x7b\"error\":\"You cannot respond to your own advertisement\"\x7d".toList }) := by
  simp [handleRespondToAd, hauth, hfind, hown]

theorem handleRespondToAd_already {app : BulletinBoardApp} {request : HttpRequest}
    (response : HttpResponse) {u advertId : Int} {it : Advertisement}
    (hauth : authenticate app request = some u)
    (hfind : findAdvert app.adverts_ advertId = some it) (hown : it.ownerId ≠ u)
    (hin : u ∈ responseSet app advertId) :
    handleRespondToAd app request response advertId =
      (app, { response with
                status := 409,
                body := "\x7b\"error\":\"You have already responded to this advertisement\"\x7d".toList }) := by
  unfold responseSet at hin
  cases hf : UMap.find app.responses_ advertId with
  | none => simp [hf] at hin
  | some set =>
    rw [hf] at hin
    simp only [Option.getD_some] at hin
    simp [handleRespondToAd, hauth, hfind, hown, UMap.touch_of_find _ hf, hf, USet.count, hin]

theorem handleRespondToAd_ok {app : BulletinBoardApp} {request : HttpRequest}
    (response : HttpResponse) {u advertId : Int} {it : Advertisement}
    (hauth : authenticate app request = some u)
    (hfind : findAdvert app.adverts_ advertId = some it) (hown : it.ownerId ≠ u)
    (hin : u ∉ responseSet app advertId) :
    handleRespondToAd app request response advertId =
      ({ app with
           responses_ := UMap.assign (UMap.touch app.responses_ advertId []) advertId
                           (USet.insert (responseSet app advertId) u) },
       { response with body := "\x7b\"success\":true\x7d".toList }) := by
  have hget : (UMap.find (UMap.touch app.responses_ advertId []) advertId).getD [] =
      responseSet app advertId := by
    rw [UMap.find_touch]
    simp [responseSet]
  unfold handleRespondToAd
  simp only [hauth, hfind, hown, if_false, hget]
  simp [USet.count, hin]

theorem responseSet_after_respond (app : BulletinBoardApp) (advertId u : Int) :
    responseSet { app with
        responses_ := UMap.assign (UMap.touch app.responses_ advertId []) advertId
                        (USet.insert (responseSet app advertId) u) } advertId =
      USet.insert (responseSet app advertId) u := by
  simp [responseSet, UMap.find_assign]

/-! ## C1: responding to an advert -/

/-- C1. In a reachable store, for a requester authenticated as `u`, `handleRespondToAd` answers
404 when no stored advert has the id, otherwise 400 when `u` owns the advert, otherwise 409 when
`u` is already in its response set, otherwise 200 with `u` in the response set afterwards; and
a second call by the same requester right after a 200 answers 409. -/
theorem respondToAd_contract (lib : StdLib) (app : BulletinBoardApp)
    (hreach : Reachable lib app) (request : HttpRequest) (u advertId : Int)
    (hauth : authenticate app request = some u) :
    ((∀ ad ∈ app.adverts_, ad.id ≠ advertId) →
        (handleRespondToAd app request {} advertId).2.status = 404) ∧
    (∀ ad ∈ app.adverts_, ad.id = advertId →
      (ad.ownerId = u → (handleRespondToAd app request {} advertId).2.status = 400) ∧
      (ad.ownerId ≠ u → u ∈ responseSet app advertId →
        (handleRespondToAd app request {} advertId).2.status = 409) ∧
      (ad.ownerId ≠ u → u ∉ responseSet app advertId →
        (handleRespondToAd app request {} advertId).2.status = 200 ∧
        u ∈ responseSet (handleRespondToAd app request {} advertId).1 advertId ∧
        (handleRespondToAd (handleRespondToAd app request {} advertId).1 request {}
          advertId).2.status = 409)) := by
  have wf := hreach.wellFormed
  refine ⟨fun hnone => ?_, fun ad had hid => ?_⟩
  · rw [handleRespondToAd_notFound _ hauth (findAdvert_none_iff.mpr hnone)]
  · subst hid
    have hfind := wf.findAdvert_of_mem had
    refine ⟨fun hown => ?_, fun hown hin => ?_, fun hown hin => ?_⟩
    · rw [handleRespondToAd_self _ hauth hfind hown]
    · rw [handleRespondToAd_already _ hauth hfind hown hin]
    · rw [handleRespondToAd_ok _ hauth hfind hown hin]
      have hmem : u ∈ USet.insert (responseSet app ad.id) u := USet.mem_insert.mpr (Or.inr rfl)
      dsimp only
      refine ⟨rfl, ?_, ?_⟩
      · rw [responseSet_after_respond]
        exact hmem
      · have hauth2 : authenticate
            { app with
                responses_ := UMap.assign (UMap.touch app.responses_ ad.id []) ad.id
                                (USet.insert (responseSet app ad.id) u) } request = some u := by
          rw [← hauth]
          exact authenticate_congr rfl _
        rw [@handleRespondToAd_already _ request _ u ad.id ad hauth2 hfind hown
          (by rw [responseSet_after_respond]; exact hmem)]

theorem aliceStore_reachable : Reachable sampleLib aliceStore := by
  have h : (handleLogin sampleLib (BulletinBoardApp.init sampleLib 0 0 0) aliceLogin {}
      sampleDraws).map Prod.fst = some aliceStore := by
    decide
  cases hl : handleLogin sampleLib (BulletinBoardApp.init sampleLib 0 0 0) aliceLogin {}
      sampleDraws with
  | none => rw [hl] at h; simp at h
  | some result =>
    rw [hl] at h
    simp only [Option.map_some', Option.some.injEq] at h
    rw [← h]
    exact Reachable.login _ _ _ _ (Reachable.init 0 0 0) hl

theorem aliceRequest_auth : authenticate aliceStore aliceRequest = some 2 := by decide

theorem respondToAd_contract_witness :
    Reachable sampleLib aliceStore ∧ authenticate aliceStore aliceRequest = some 2 ∧
      (handleRespondToAd aliceStore aliceRequest {} 1).2.status = 200 ∧
      (handleRespondToAd (handleRespondToAd aliceStore aliceRequest {} 1).1 aliceRequest {}
        1).2.status = 409 :=
  have h := ((respondToAd_contract sampleLib aliceStore aliceStore_reachable aliceRequest 2 1
    aliceRequest_auth).2 (aliceStore.adverts_.headD {}) (by decide) (by decide)).2.2
    (by decide) (by decide)
  ⟨aliceStore_reachable, aliceRequest_auth, h.1, h.2.2⟩

theorem aliceResponded_reachable : Reachable sampleLib aliceResponded :=
  Reachable.respondToAd aliceRequest {} 1 aliceStore_reachable

/-! ## C2: the response sets -/

/-- C2. In every reachable store no response set stored for an advert contains the id of the
owner of that advert, no response set lists a user twice, and each advert id has at most one
response set. -/
theorem responseSets_invariant (lib : StdLib) (app : BulletinBoardApp)
    (hreach : Reachable lib app) :
    (∀ ad ∈ app.adverts_, ∀ p ∈ app.responses_, p.1 = ad.id → ad.ownerId ∉ p.2) ∧
    (∀ ad ∈ app.adverts_, ad.ownerId ∉ responseSet app ad.id) ∧
    (∀ p ∈ app.responses_, p.2.Nodup) ∧
    (app.responses_.map Prod.fst).Nodup := by
  have wf := hreach.wellFormed
  exact ⟨wf.ownerNotResponder, fun ad had => (wf.responseSet_props ad.id).2.2 ad had rfl,
    fun p hp => (wf.responseSets p hp).1, wf.responseKeysNodup⟩

theorem responseSets_invariant_witness :
    Reachable sampleLib aliceResponded ∧ aliceResponded.responses_ = [(1, [2])] ∧
      (∀ ad ∈ aliceResponded.adverts_, ad.ownerId ∉ responseSet aliceResponded ad.id) :=
  ⟨aliceResponded_reachable, by decide,
    (responseSets_invariant sampleLib aliceResponded aliceResponded_reachable).2.1⟩

/-! ## C3: deleting an advert -/

theorem handleDeleteAd_notFound {app : BulletinBoardApp} {request : HttpRequest}
    (response : HttpResponse) {u advertId : Int} (hauth : authenticate app request = some u)
    (hfind : findAdvert app.adverts_ advertId = none) :
    handleDeleteAd app request response advertId =
      (app, { response with status := 404,
                            body := "\x7b\"error\":\"Advertisement not found\"\x7d".toList }) := by
  simp [handleDeleteAd, hauth, hfind]

theorem handleDeleteAd_forbidden {app : BulletinBoardApp} {request : HttpRequest}
    (response : HttpResponse) {u advertId : Int} {it : Advertisement}
    (hauth : authenticate app request = some u)
    (hfind : findAdvert app.adverts_ advertId = some it) (hown : it.ownerId ≠ u) :
    handleDeleteAd app request response advertId =
      (app, { response with
                status := 403,
                body := "\x7b\"error\":\"You can only delete your own advertisements\"\x7d".toList }) := by
  simp [handleDeleteAd, hauth, hfind, hown]

theorem handleDeleteAd_ok {app : BulletinBoardApp} {request : HttpRequest}
    (response : HttpResponse) {u advertId : Int} {it : Advertisement}
    (hauth : authenticate app request = some u)
    (hfind : findAdvert app.adverts_ advertId = some it) (hown : it.ownerId = u) :
    handleDeleteAd app request response advertId =
      ({ app with adverts_ := eraseAdvert app.adverts_ advertId,
                  responses_ := UMap.erase app.responses_ advertId },
       { response with body := "\x7b\"success\":true\x7d".toList }) := by
  simp [handleDeleteAd, hauth, hfind, hown]

theorem eraseAdvert_eq_filter {adverts : List Advertisement}
    (hp : adverts.Pairwise (fun a b => a.id < b.id)) (advertId : Int) :
    eraseAdvert adverts advertId = adverts.filter (fun b => decide (b.id ≠ advertId)) := by
  induction adverts with
  | nil => rfl
  | cons x l ih =>
    rw [List.pairwise_cons] at hp
    by_cases hx : x.id = advertId
    · have hall : ∀ b ∈ l, decide (b.id ≠ advertId) = true := by
        intro b hb
        have := hp.1 b hb
        simp only [ne_eq, decide_eq_true_eq]
        omega
      simp only [eraseAdvert, List.eraseP_cons, hx, decide_True, cond_true, ne_eq,
        not_true_eq_false, decide_False, Bool.false_eq_true, not_false_eq_true,
        List.filter_cons_of_neg]
      exact (List.filter_eq_self.mpr (by simpa using hall)).symm
    · have ih2 := ih hp.2
      unfold eraseAdvert at ih2 ⊢
      simp [List.eraseP_cons, hx, ih2]

theorem deleteAd_contract_aux {app : BulletinBoardApp} (wf : WellFormed app)
    (request : HttpRequest) (u advertId : Int) (hauth : authenticate app request = some u) :
    ((∀ ad ∈ app.adverts_, ad.id ≠ advertId) →
        (handleDeleteAd app request {} advertId).2.status = 404) ∧
    (∀ ad ∈ app.adverts_, ad.id = advertId →
      (ad.ownerId ≠ u → (handleDeleteAd app request {} advertId).2.status = 403) ∧
      (ad.ownerId = u →
        (handleDeleteAd app request {} advertId).2.status = 200 ∧
        (∀ b ∈ (handleDeleteAd app request {} advertId).1.adverts_, b.id ≠ advertId) ∧
        (∀ p ∈ (handleDeleteAd app request {} advertId).1.responses_, p.1 ≠ advertId) ∧
        UMap.find (handleDeleteAd app request {} advertId).1.responses_ advertId = none ∧
        (handleDeleteAd app request {} advertId).1.adverts_ =
          app.adverts_.filter (fun b => decide (b.id ≠ advertId)) ∧
        (∀ other : Int, other ≠ advertId →
          UMap.find (handleDeleteAd app request {} advertId).1.responses_ other =
            UMap.find app.responses_ other))) := by
  refine ⟨fun hnone => ?_, fun ad had hid => ?_⟩
  · rw [handleDeleteAd_notFound _ hauth (findAdvert_none_iff.mpr hnone)]
  · subst hid
    have hfind := wf.findAdvert_of_mem had
    refine ⟨fun hown => ?_, fun hown => ?_⟩
    · rw [handleDeleteAd_forbidden _ hauth hfind hown]
    · rw [handleDeleteAd_ok _ hauth hfind hown]
      dsimp only
      refine ⟨rfl, ?_, fun p hp => UMap.key_ne_of_mem_erase hp, ?_,
        eraseAdvert_eq_filter wf.advertIds _, ?_⟩
      · intro b hb
        rw [eraseAdvert_eq_filter wf.advertIds] at hb
        simpa using (List.mem_filter.mp hb).2
      · simp [UMap.find_erase]
      · intro other hne
        simp [UMap.find_erase, Ne.symm hne]


/-- C3. In a reachable store, for a requester authenticated as `u`, `handleDeleteAd` answers 404
when no stored advert has the id, otherwise 403 when the owner of the advert is not `u`,
otherwise 200; after the 200 no stored advert has the id and no response set is stored under
it, the other adverts are kept in their order, and the response set of every other id is the
one it was. -/
theorem deleteAd_contract (lib : StdLib) (app : BulletinBoardApp) (hreach : Reachable lib app)
    (request : HttpRequest) (u advertId : Int) (hauth : authenticate app request = some u) :
    ((∀ ad ∈ app.adverts_, ad.id ≠ advertId) →
        (handleDeleteAd app request {} advertId).2.status = 404) ∧
    (∀ ad ∈ app.adverts_, ad.id = advertId →
      (ad.ownerId ≠ u → (handleDeleteAd app request {} advertId).2.status = 403) ∧
      (ad.ownerId = u →
        (handleDeleteAd app request {} advertId).2.status = 200 ∧
        (∀ b ∈ (handleDeleteAd app request {} advertId).1.adverts_, b.id ≠ advertId) ∧
        (∀ p ∈ (handleDeleteAd app request {} advertId).1.responses_, p.1 ≠ advertId) ∧
        UMap.find (handleDeleteAd app request {} advertId).1.responses_ advertId = none ∧
        (handleDeleteAd app request {} advertId).1.adverts_ =
          app.adverts_.filter (fun b => decide (b.id ≠ advertId)) ∧
        (∀ other : Int, other ≠ advertId →
          UMap.find (handleDeleteAd app request {} advertId).1.responses_ other =
            UMap.find app.responses_ other))) := by
  exact deleteAd_contract_aux hreach.wellFormed request u advertId hauth

theorem deleteAd_contract_witness :
    Reachable sampleLib aliceResponded ∧ authenticate aliceResponded aliceRequest = some 2 ∧
      (handleDeleteAd aliceResponded aliceRequest {} 3).2.status = 200 ∧
      (handleDeleteAd aliceResponded aliceRequest {} 3).1.adverts_ =
        aliceResponded.adverts_.filter (fun b => decide (b.id ≠ 3)) :=
  have h := ((deleteAd_contract sampleLib aliceResponded aliceResponded_reachable aliceRequest
    2 3 (by decide)).2 (aliceResponded.adverts_.getD 2 {}) (by decide) (by decide)).2 (by decide)
  ⟨aliceResponded_reachable, by decide, h.1, h.2.2.2.2.1⟩

/-! ## The ads listing as a list of entries -/

theorem adJson_eq_render (lib : StdLib) (app : BulletinBoardApp) (currentUserId : Int)
    (ad : Advertisement) :
    adJson lib app currentUserId ad (ownerOf app ad) =
      AdView.render lib (adView app currentUserId ad) := by
  unfold adJson AdView.render adView responseSet boolJson
  cases hf : UMap.find app.responses_ ad.id with
  | none =>
    by_cases hown : ad.ownerId = currentUserId <;> simp [hown, List.append_assoc]
  | some userIds =>
    by_cases hown : ad.ownerId = currentUserId <;> by_cases hpos : currentUserId > 0 <;>
      by_cases hin : currentUserId ∈ userIds <;>
      simp [hown, hpos, hin, USet.count, List.append_assoc]

theorem buildAdsJsonLoop_eq (lib : StdLib) (app : BulletinBoardApp) (currentUserId : Int)
    (ads : List Advertisement)
    (howner : ∀ ad ∈ ads, (usersAt app.users_ (ad.ownerId - 1)).isSome = true)
    (i : Nat) (oss : Str) :
    buildAdsJsonLoop lib app currentUserId ads i oss =
      some (oss ++
        (if i > 0 then commaTail (ads.map (fun ad => AdView.render lib (adView app currentUserId ad)))
         else commaSeparated
           (ads.map (fun ad => AdView.render lib (adView app currentUserId ad))))) := by
  induction ads generalizing i oss with
  | nil => simp [buildAdsJsonLoop, commaTail, commaSeparated]
  | cons ad rest ih =>
    have hsome := howner ad (List.mem_cons_self _ _)
    cases hu : usersAt app.users_ (ad.ownerId - 1) with
    | none => rw [hu] at hsome; simp at hsome
    | some owner =>
      have hown : ownerOf app ad = owner := by simp [ownerOf, hu]
      have ih2 := ih (fun a ha => howner a (List.mem_cons_of_mem _ ha))
      unfold buildAdsJsonLoop
      simp only [hu]
      rw [ih2, ← hown, adJson_eq_render]
      by_cases hi : i > 0
      · simp [hi, commaTail, List.append_assoc]
      · simp [hi, commaTail, commaSeparated, List.append_assoc]

theorem WellFormed.owner_isSome {app : BulletinBoardApp} (wf : WellFormed app) :
    ∀ ad ∈ app.adverts_, (usersAt app.users_ (ad.ownerId - 1)).isSome = true := by
  intro ad had
  obtain ⟨h1, h2⟩ := wf.advertOwners ad had
  obtain ⟨u, hu, _⟩ := usersAt_of_range h1 h2
  simp [hu]

theorem WellFormed.ownerOf_spec {app : BulletinBoardApp} (wf : WellFormed app)
    {ad : Advertisement} (had : ad ∈ app.adverts_) :
    ownerOf app ad ∈ app.users_ ∧ (ownerOf app ad).id = ad.ownerId := by
  obtain ⟨h1, h2⟩ := wf.advertOwners ad had
  obtain ⟨u, hu, hmem⟩ := usersAt_of_range h1 h2
  have : ownerOf app ad = u := by simp [ownerOf, hu]
  rw [this]
  exact ⟨hmem, wf.usersAt_id hu⟩

theorem buildAdsJson_eq (lib : StdLib) {app : BulletinBoardApp} (wf : WellFormed app)
    (currentUserId : Int) :
    buildAdsJson lib app currentUserId =
      some (renderAds lib (app.adverts_.map (adView app currentUserId))) := by
  unfold buildAdsJson
  rw [buildAdsJsonLoop_eq lib app currentUserId app.adverts_ wf.owner_isSome]
  simp [renderAds, List.append_assoc]
  rfl

theorem handleAdsList_eq (lib : StdLib) {app : BulletinBoardApp} (wf : WellFormed app)
    (request : HttpRequest) (response : HttpResponse) :
    handleAdsList lib app request response =
      some (app, { response with
        body := renderAds lib
          (app.adverts_.map (adView app ((authenticate app request).getD 0))) }) := by
  unfold handleAdsList
  simp only [buildAdsJson_eq lib wf]

/-! ## C4 and C5: the responders of an advert -/

theorem handleAdResponders_notFound {app : BulletinBoardApp} {request : HttpRequest}
    (response : HttpResponse) {u advertId : Int} (hauth : authenticate app request = some u)
    (hfind : findAdvert app.adverts_ advertId = none) :
    handleAdResponders app request response advertId =
      (app, { response with status := 404,
                            body := "\x7b\"error\":\"Advertisement not found\"\x7d".toList }) := by
  simp [handleAdResponders, hauth, hfind]

theorem handleAdResponders_forbidden {app : BulletinBoardApp} {request : HttpRequest}
    (response : HttpResponse) {u advertId : Int} {it : Advertisement}
    (hauth : authenticate app request = some u)
    (hfind : findAdvert app.adverts_ advertId = some it) (hown : it.ownerId ≠ u) :
    handleAdResponders app request response advertId =
      (app, { response with
                status := 403,
                body := "\x7b\"error\":\"Only the owner can view responders\"\x7d".toList }) := by
  simp [handleAdResponders, hauth, hfind, hown]

theorem respondersLoop_eq (app : BulletinBoardApp) (ids : List Int) (first : Bool) (oss : Str) :
    respondersLoop app ids first oss =
      oss ++ (if first then
                commaSeparated ((ids.filterMap (findUser app.users_)).map responderJson)
              else commaTail ((ids.filterMap (findUser app.users_)).map responderJson)) := by
  induction ids generalizing first oss with
  | nil => simp [respondersLoop, commaTail, commaSeparated]
  | cons k rest ih =>
    unfold respondersLoop
    cases hu : findUser app.users_ k with
    | none => simp [ih, List.filterMap_cons, hu]
    | some user =>
      cases first <;>
        simp [ih, List.filterMap_cons, hu, commaTail, commaSeparated, List.append_assoc]

theorem responderJson_eq_render (user : User) :
    responderJson user = ResponderView.render (responderView user) := by
  simp [responderJson, ResponderView.render, responderView]

theorem handleAdResponders_ok {app : BulletinBoardApp} {request : HttpRequest}
    (response : HttpResponse) {u advertId : Int} {it : Advertisement}
    (hauth : authenticate app request = some u)
    (hfind : findAdvert app.adverts_ advertId = some it) (hown : it.ownerId = u) :
    handleAdResponders app request response advertId =
      (app, { response with
                body := renderResponders
                  (((responseSet app advertId).filterMap (findUser app.users_)).map
                    responderView) }) := by
  have hmap : ∀ users : List User,
      users.map responderJson = (users.map responderView).map ResponderView.render := by
    intro users
    rw [List.map_map]
    exact List.map_congr_left (fun user _ => responderJson_eq_render user)
  unfold handleAdResponders renderResponders responseSet
  simp only [hauth, hfind, hown, ne_eq, not_true_eq_false, if_false]
  cases hf : UMap.find app.responses_ advertId with
  | none => simp [commaSeparated]
  | some userIds => simp [respondersLoop_eq, hmap]

theorem findUser_some {users : List User} {k : Int} {u : User} (h : findUser users k = some u) :
    u ∈ users ∧ u.id = k := by
  unfold findUser at h
  exact ⟨List.mem_of_find?_eq_some h, by simpa using List.find?_some h⟩

theorem WellFormed.findUser_of_range {app : BulletinBoardApp} (wf : WellFormed app) {k : Int}
    (h : 1 ≤ k ∧ k ≤ (app.users_.length : Int)) : ∃ u, findUser app.users_ k = some u := by
  obtain ⟨v, hv, hmem⟩ := usersAt_of_range h.1 h.2
  have hid := wf.usersAt_id hv
  cases hf : findUser app.users_ k with
  | some u => exact ⟨u, rfl⟩
  | none =>
    unfold findUser at hf
    have := List.find?_eq_none.mp hf v hmem
    simp [hid] at this

theorem filterMap_findUser_ids {users : List User} {ids : List Int}
    (h : ∀ k ∈ ids, ∃ u, findUser users k = some u) :
    (ids.filterMap (findUser users)).map (fun u => u.id) = ids := by
  induction ids with
  | nil => rfl
  | cons k rest ih =>
    obtain ⟨u, hu⟩ := h k (List.mem_cons_self _ _)
    have hid := (findUser_some hu).2
    simp [List.filterMap_cons, hu, hid, ih (fun j hj => h j (List.mem_cons_of_mem _ hj))]

theorem mem_filterMap_findUser {users : List User} {ids : List Int} {u : User}
    (h : u ∈ ids.filterMap (findUser users)) : u ∈ users := by
  obtain ⟨k, _, hk⟩ := List.mem_filterMap.mp h
  exact (findUser_some hk).1

/-- C4. In a reachable store, after the owner has deleted an advert (answer 200), the ads
listing built for any viewer has no entry with the id of that advert, and `handleAdResponders`
for that id answers 404 `Advertisement not found` to every authenticated requester. -/
theorem deleted_advert_gone (lib : StdLib) (app : BulletinBoardApp) (hreach : Reachable lib app)
    (request : HttpRequest) (u : Int) (hauth : authenticate app request = some u)
    (ad : Advertisement) (had : ad ∈ app.adverts_) (hown : ad.ownerId = u) :
    (handleDeleteAd app request {} ad.id).2.status = 200 ∧
    (∀ currentUserId : Int, ∃ views : List AdView,
      buildAdsJson lib (handleDeleteAd app request {} ad.id).1 currentUserId =
        some (renderAds lib views) ∧
      views.map (fun v => v.id) =
        (handleDeleteAd app request {} ad.id).1.adverts_.map (fun b => b.id) ∧
      ∀ v ∈ views, v.id ≠ ad.id) ∧
    (∀ (request2 : HttpRequest) (u2 : Int),
      authenticate (handleDeleteAd app request {} ad.id).1 request2 = some u2 →
      handleAdResponders (handleDeleteAd app request {} ad.id).1 request2 {} ad.id =
        ((handleDeleteAd app request {} ad.id).1,
         { status := 404,
           body := "\x7b\"error\":\"Advertisement not found\"\x7d".toList })) := by
  have wf := hreach.wellFormed
  have wf2 := wf.handleDeleteAd request {} ad.id
  have hgone := ((deleteAd_contract_aux wf request u ad.id hauth).2 ad had rfl).2 hown
  refine ⟨hgone.1, fun cur => ?_, fun request2 u2 hauth2 => ?_⟩
  · refine ⟨_, buildAdsJson_eq lib wf2 cur, by simp [adView, Function.comp_def], ?_⟩
    intro v hv
    obtain ⟨b, hb, hbv⟩ := List.mem_map.mp hv
    rw [← hbv]
    exact hgone.2.1 b hb
  · exact handleAdResponders_notFound _ hauth2 (findAdvert_none_iff.mpr hgone.2.1)

theorem deleted_advert_gone_witness :
    Reachable sampleLib aliceResponded ∧ authenticate aliceResponded aliceRequest = some 2 ∧
      (handleAdResponders (handleDeleteAd aliceResponded aliceRequest {} 3).1 aliceRequest {}
        3).2.status = 404 :=
  have h := (deleted_advert_gone sampleLib aliceResponded aliceResponded_reachable aliceRequest
    2 (by decide) (aliceResponded.adverts_.getD 2 {}) (by decide) (by decide)).2.2
      aliceRequest 2 (by decide)
  ⟨aliceResponded_reachable, by decide, congrArg (fun r => r.2.status) h⟩

/-- C5. In a reachable store, for a requester authenticated as `u`, `handleAdResponders` leaves
the store as it is and answers 404 when no stored advert has the id, 403 when the advert is
owned by someone else, and otherwise 200 with a body that is a list of entries
`{"id":…,"name":"…","email":"…"}`: every entry carries the id, the name and the email of one
stored user, no id occurs twice, and the ids of the entries are the members of the response set
of the advert, each user of the set once and nobody else. -/
theorem adResponders_contract (lib : StdLib) (app : BulletinBoardApp)
    (hreach : Reachable lib app) (request : HttpRequest) (u advertId : Int)
    (hauth : authenticate app request = some u) :
    (handleAdResponders app request {} advertId).1 = app ∧
    ((∀ ad ∈ app.adverts_, ad.id ≠ advertId) →
        (handleAdResponders app request {} advertId).2.status = 404) ∧
    (∀ ad ∈ app.adverts_, ad.id = advertId →
      (ad.ownerId ≠ u → (handleAdResponders app request {} advertId).2.status = 403) ∧
      (ad.ownerId = u → ∃ views : List ResponderView,
        (handleAdResponders app request {} advertId).2 =
          { status := 200,
            body := "\x7b\"responders\":[".toList
              ++ commaSeparated (views.map ResponderView.render) ++ "]\x7d".toList } ∧
        (∀ v ∈ views, ∃ user ∈ app.users_,
          v.id = user.id ∧ v.name = user.name ∧ v.email = user.email) ∧
        (views.map (fun v => v.id)).Nodup ∧
        List.Perm (views.map (fun v => v.id)) (responseSet app advertId))) := by
  have wf := hreach.wellFormed
  refine ⟨?_, fun hnone => ?_, fun ad had hid => ?_⟩
  · unfold handleAdResponders
    split
    · rfl
    · split
      · rfl
      · split <;> rfl
  · rw [handleAdResponders_notFound _ hauth (findAdvert_none_iff.mpr hnone)]
  · subst hid
    have hfind := wf.findAdvert_of_mem had
    refine ⟨fun hown => ?_, fun hown => ?_⟩
    · rw [handleAdResponders_forbidden _ hauth hfind hown]
    · obtain ⟨hnd, hrange, _⟩ := wf.responseSet_props ad.id
      have hids : ((responseSet app ad.id).filterMap (findUser app.users_)).map
          (fun e => e.id) = responseSet app ad.id :=
        filterMap_findUser_ids (fun k hk => wf.findUser_of_range (hrange k hk))
      have hviews : (((responseSet app ad.id).filterMap (findUser app.users_)).map
          responderView).map (fun v => v.id) = responseSet app ad.id := by
        rw [List.map_map]
        exact hids
      refine ⟨_, by rw [handleAdResponders_ok _ hauth hfind hown]; rfl, ?_, ?_, ?_⟩
      · intro v hv
        obtain ⟨user, huser, rfl⟩ := List.mem_map.mp hv
        exact ⟨user, mem_filterMap_findUser huser, rfl, rfl, rfl⟩
      · rw [hviews]; exact hnd
      · rw [hviews]

theorem bothStore_reachable : Reachable sampleLib bothStore := by
  have h : (handleLogin sampleLib aliceResponded demoLogin {} demoDraws).map Prod.fst =
      some bothStore := by
    decide
  cases hl : handleLogin sampleLib aliceResponded demoLogin {} demoDraws with
  | none => rw [hl] at h; simp at h
  | some result =>
    rw [hl] at h
    simp only [Option.map_some', Option.some.injEq] at h
    rw [← h]
    exact Reachable.login _ _ _ _ aliceResponded_reachable hl

theorem adResponders_contract_witness :
    Reachable sampleLib bothStore ∧ authenticate bothStore demoRequest = some 1 ∧
      (handleAdResponders bothStore demoRequest {} 1).2.body =
        ("\x7b\"responders\":[\x7b\"id\":2,\"name\":\"Alice Smith\","
          ++ "\"email\":\"alice@example.com\"\x7d]\x7d").toList ∧
      ∃ views : List ResponderView,
        (handleAdResponders bothStore demoRequest {} 1).2 =
          { status := 200,
            body := "\x7b\"responders\":[".toList
              ++ commaSeparated (views.map ResponderView.render) ++ "]\x7d".toList } ∧
        (∀ v ∈ views, ∃ user ∈ bothStore.users_,
          v.id = user.id ∧ v.name = user.name ∧ v.email = user.email) ∧
        (views.map (fun v => v.id)).Nodup ∧
        List.Perm (views.map (fun v => v.id)) (responseSet bothStore 1) :=
  ⟨bothStore_reachable, by decide, by rfl,
    ((adResponders_contract sampleLib bothStore bothStore_reachable demoRequest 1 1
      (by decide)).2.2 (bothStore.adverts_.headD {}) (by decide) (by decide)).2 (by decide)⟩

/-! ## C6: the ads listing -/

theorem WellFormed.adView_spec {app : BulletinBoardApp} (wf : WellFormed app)
    (request : HttpRequest) {ad : Advertisement} (had : ad ∈ app.adverts_) :
    (∃ owner ∈ app.users_, owner.id = ad.ownerId ∧
        (adView app ((authenticate app request).getD 0) ad).ownerName = owner.name) ∧
    ((adView app ((authenticate app request).getD 0) ad).mine = true ↔
        authenticate app request = some ad.ownerId) ∧
    ((adView app ((authenticate app request).getD 0) ad).hasResponded = true ↔
        ∃ w, authenticate app request = some w ∧ w ∈ responseSet app ad.id) ∧
    (adView app ((authenticate app request).getD 0) ad).responsesCount =
        (if authenticate app request = some ad.ownerId then
          some (responseSet app ad.id).length else none) := by
  have hrange := wf.advertOwners ad had
  have hownerOf := wf.ownerOf_spec had
  refine ⟨⟨ownerOf app ad, hownerOf.1, hownerOf.2, rfl⟩, ?_⟩
  cases hauth : authenticate app request with
  | none =>
    have hne : ad.ownerId ≠ 0 := by omega
    simp [adView, hne]
  | some w =>
    have hw := wf.authenticate_range hauth
    have hpos : w > 0 := by omega
    by_cases hown : ad.ownerId = w
    · simp [adView, hown, hpos]
    · have hown2 : w ≠ ad.ownerId := fun h => hown h.symm
      simp [adView, hown, hown2, hpos]

/-- C6. In a reachable store `handleAdsList` answers 200 with one entry per stored advert, in
the order of `adverts_`, which is the order of creation (increasing ids); the entry of an advert carries its id, title, description, price,
creation time and the name of its owner, `mine` is true exactly when the requester is
authenticated as the owner, `hasResponded` exactly when the requester is authenticated as a
member of the response set, and `responsesCount` is present exactly for the owner, with the
size of the response set.  In particular, after a user other than the owner has responded
(answer 200) to an advert without responses, the entry of that advert shows `responsesCount`
1 to the owner and has no `responsesCount` for every other requester. -/
theorem adsListing_contract (lib : StdLib) (app : BulletinBoardApp) (hreach : Reachable lib app) :
    (∀ request : HttpRequest, ∃ views : List AdView,
      handleAdsList lib app request {} =
        some (app, { status := 200, body := renderAds lib views }) ∧
      List.Forall₂
        (fun v ad =>
          v.id = ad.id ∧ v.title = ad.title ∧ v.description = ad.description ∧
          v.price = ad.price ∧ v.createdAt = ad.createdAt ∧
          (∃ owner ∈ app.users_, owner.id = ad.ownerId ∧ v.ownerName = owner.name) ∧
          (v.mine = true ↔ authenticate app request = some ad.ownerId) ∧
          (v.hasResponded = true ↔
            ∃ w, authenticate app request = some w ∧ w ∈ responseSet app ad.id) ∧
          v.responsesCount =
            (if authenticate app request = some ad.ownerId then
              some (responseSet app ad.id).length else none))
        views app.adverts_ ∧
      views.Pairwise (fun v w => v.id < w.id)) ∧
    (∀ ad ∈ app.adverts_, responseSet app ad.id = [] →
      ∀ (request2 : HttpRequest) (u2 : Int), authenticate app request2 = some u2 →
      u2 ≠ ad.ownerId →
      (handleRespondToAd app request2 {} ad.id).2.status = 200 ∧
      ∀ request3 : HttpRequest, ∃ views : List AdView,
        handleAdsList lib (handleRespondToAd app request2 {} ad.id).1 request3 {} =
          some ((handleRespondToAd app request2 {} ad.id).1,
                { status := 200, body := renderAds lib views }) ∧
        (∃ v ∈ views, v.id = ad.id) ∧
        ∀ v ∈ views, v.id = ad.id →
          v.responsesCount =
            (if authenticate (handleRespondToAd app request2 {} ad.id).1 request3 =
                some ad.ownerId then some 1 else none)) := by
  have wf := hreach.wellFormed
  constructor
  · intro request
    refine ⟨_, handleAdsList_eq lib wf request {}, ?_, List.pairwise_map.mpr wf.advertIds⟩
    rw [List.forall₂_map_left_iff, List.forall₂_same]
    intro ad had
    exact ⟨rfl, rfl, rfl, rfl, rfl, wf.adView_spec request had⟩
  · intro ad had hfresh request2 u2 hauth2 hne
    have hfind := wf.findAdvert_of_mem had
    have hown : ad.ownerId ≠ u2 := fun h => hne h.symm
    have hnin : u2 ∉ responseSet app ad.id := by rw [hfresh]; simp
    have wf2 := wf.handleRespondToAd request2 {} ad.id
    rw [handleRespondToAd_ok _ hauth2 hfind hown hnin] at wf2 ⊢
    dsimp only at wf2 ⊢
    refine ⟨rfl, fun request3 => ⟨_, handleAdsList_eq lib wf2 request3 {}, ?_, ?_⟩⟩
    · exact ⟨_, List.mem_map.mpr ⟨ad, had, rfl⟩, rfl⟩
    · intro v hv hvid
      obtain ⟨b, hb, hbv⟩ := List.mem_map.mp hv
      have hbid : b.id = ad.id := by rw [← hbv] at hvid; exact hvid
      have hbe : b = ad := wf.advert_eq_of_id hb had hbid
      subst hbe
      rw [← hbv, (wf2.adView_spec request3 hb).2.2.2, responseSet_after_respond, hfresh]
      simp [USet.insert]

theorem adsListing_contract_witness :
    Reachable sampleLib bothStore ∧
    ∃ views : List AdView,
      handleAdsList sampleLib bothStore demoRequest {} =
        some (bothStore, { status := 200, body := renderAds sampleLib views }) ∧
      List.Forall₂
        (fun v ad =>
          v.id = ad.id ∧ v.title = ad.title ∧ v.description = ad.description ∧
          v.price = ad.price ∧ v.createdAt = ad.createdAt ∧
          (∃ owner ∈ bothStore.users_, owner.id = ad.ownerId ∧ v.ownerName = owner.name) ∧
          (v.mine = true ↔ authenticate bothStore demoRequest = some ad.ownerId) ∧
          (v.hasResponded = true ↔
            ∃ w, authenticate bothStore demoRequest = some w ∧ w ∈ responseSet bothStore ad.id) ∧
          v.responsesCount =
            (if authenticate bothStore demoRequest = some ad.ownerId then
              some (responseSet bothStore ad.id).length else none))
        views bothStore.adverts_ ∧
      views.Pairwise (fun v w => v.id < w.id) :=
  ⟨bothStore_reachable,
    (adsListing_contract sampleLib bothStore bothStore_reachable).1 demoRequest⟩

/-! ## C7: registration -/

theorem handleRegister_conflict (lib : StdLib) {app : BulletinBoardApp} {request : HttpRequest}
    (response : HttpResponse)
    (hname : request.getParam "name".toList ≠ [])
    (hemail : request.getParam "email".toList ≠ [])
    (hpassword : request.getParam "password".toList ≠ []) {k : Int}
    (hfind : UMap.find app.emailToUserId_ (request.getParam "email".toList) = some k) :
    handleRegister lib app request response =
      (app, { response with status := 409,
                            body := "\x7b\"error\":\"Email already registered\"\x7d".toList }) := by
  unfold handleRegister UMap.count
  simp only [hfind]
  simp only [ne_eq, ← List.isEmpty_iff, Bool.not_eq_true] at hname hemail hpassword
  simp only [hname, hemail, hpassword, Bool.or_self, Bool.false_eq_true, if_false,
    Option.isSome_some, Option.isSome_none, if_true, gt_iff_lt, Nat.lt_irrefl, Nat.zero_lt_one]

theorem handleRegister_ok (lib : StdLib) {app : BulletinBoardApp} {request : HttpRequest}
    (response : HttpResponse)
    (hname : request.getParam "name".toList ≠ [])
    (hemail : request.getParam "email".toList ≠ [])
    (hpassword : request.getParam "password".toList ≠ [])
    (hfind : UMap.find app.emailToUserId_ (request.getParam "email".toList) = none) :
    handleRegister lib app request response =
      ({ app with
           nextUserId_ := app.nextUserId_ + 1,
           users_ := app.users_ ++
             [{ id := app.nextUserId_, name := request.getParam "name".toList,
                email := request.getParam "email".toList,
                passwordHash := hashPassword lib (request.getParam "password".toList) }],
           emailToUserId_ := UMap.assign app.emailToUserId_ (request.getParam "email".toList)
                               app.nextUserId_ },
       { response with
           body := "\x7b\"success\":true,\"message\":\"Registration complete\"\x7d".toList }) := by
  unfold handleRegister UMap.count
  simp only [hfind]
  simp only [ne_eq, ← List.isEmpty_iff, Bool.not_eq_true] at hname hemail hpassword
  simp only [hname, hemail, hpassword, Bool.or_self, Bool.false_eq_true, if_false,
    Option.isSome_some, Option.isSome_none, if_true, gt_iff_lt, Nat.lt_irrefl, Nat.zero_lt_one]

/-- C7. For a registration request with non-empty name, email and password: when the email
index already has the email, `handleRegister` answers 409 `Email already registered` and the
store is unchanged; otherwise it answers 200, appends one user with the next user id, the given
name and email and the hash of the given password, advances the counter and indexes the email
to that id, and any further registration with the same email (whatever its non-empty name and
password) answers 409 and changes nothing. -/
theorem register_contract (lib : StdLib) (app : BulletinBoardApp) (request : HttpRequest)
    (hname : request.getParam "name".toList ≠ [])
    (hemail : request.getParam "email".toList ≠ [])
    (hpassword : request.getParam "password".toList ≠ []) :
    ((UMap.find app.emailToUserId_ (request.getParam "email".toList)).isSome = true →
      handleRegister lib app request {} =
        (app, { status := 409,
                body := "\x7b\"error\":\"Email already registered\"\x7d".toList })) ∧
    (UMap.find app.emailToUserId_ (request.getParam "email".toList) = none →
      (handleRegister lib app request {}).2 =
        { status := 200,
          body := "\x7b\"success\":true,\"message\":\"Registration complete\"\x7d".toList } ∧
      (handleRegister lib app request {}).1 =
        { app with
            nextUserId_ := app.nextUserId_ + 1,
            users_ := app.users_ ++
              [{ id := app.nextUserId_, name := request.getParam "name".toList,
                 email := request.getParam "email".toList,
                 passwordHash := hashPassword lib (request.getParam "password".toList) }],
            emailToUserId_ := UMap.assign app.emailToUserId_ (request.getParam "email".toList)
                                app.nextUserId_ } ∧
      UMap.find (handleRegister lib app request {}).1.emailToUserId_
          (request.getParam "email".toList) = some app.nextUserId_ ∧
      (∀ other : Str, other ≠ request.getParam "email".toList →
        UMap.find (handleRegister lib app request {}).1.emailToUserId_ other =
          UMap.find app.emailToUserId_ other) ∧
      ∀ request2 : HttpRequest,
        request2.getParam "name".toList ≠ [] →
        request2.getParam "password".toList ≠ [] →
        request2.getParam "email".toList = request.getParam "email".toList →
        handleRegister lib (handleRegister lib app request {}).1 request2 {} =
          ((handleRegister lib app request {}).1,
           { status := 409,
             body := "\x7b\"error\":\"Email already registered\"\x7d".toList })) := by
  constructor
  · intro hsome
    obtain ⟨k, hk⟩ := Option.isSome_iff_exists.mp hsome
    exact handleRegister_conflict lib _ hname hemail hpassword hk
  · intro hnone
    rw [handleRegister_ok lib _ hname hemail hpassword hnone]
    dsimp only
    refine ⟨rfl, rfl, by simp [UMap.find_assign], ?_, ?_⟩
    · intro other hne
      rw [UMap.find_assign, if_neg (Ne.symm hne)]
    · intro request2 hname2 hpassword2 hsame
      refine handleRegister_conflict (k := app.nextUserId_) lib _ hname2 (hsame ▸ hemail)
        hpassword2 ?_
      rw [hsame, UMap.find_assign, if_pos rfl]

theorem register_contract_witness :
    bobRegister.getParam "name".toList ≠ [] ∧ bobRegister.getParam "email".toList ≠ [] ∧
    bobRegister.getParam "password".toList ≠ [] ∧
    UMap.find aliceStore.emailToUserId_ (bobRegister.getParam "email".toList) = none ∧
    (handleRegister sampleLib aliceStore bobRegister {}).2.status = 200 ∧
    handleRegister sampleLib (handleRegister sampleLib aliceStore bobRegister {}).1
        bobRegister {} =
      ((handleRegister sampleLib aliceStore bobRegister {}).1,
       { status := 409,
         body := "\x7b\"error\":\"Email already registered\"\x7d".toList }) :=
  have h := (register_contract sampleLib aliceStore bobRegister (by decide) (by decide)
    (by decide)).2 (by decide)
  ⟨by decide, by decide, by decide, by decide, congrArg HttpResponse.status h.1,
    h.2.2.2.2 bobRegister (by decide) (by decide) rfl⟩

/-! ## C8: failed logins -/

theorem handleLogin_unknown (lib : StdLib) {app : BulletinBoardApp} {request : HttpRequest}
    (response : HttpResponse) (draws : Nat → Fin 16)
    (hemail : request.getParam "email".toList ≠ [])
    (hpassword : request.getParam "password".toList ≠ [])
    (hfind : UMap.find app.emailToUserId_ (request.getParam "email".toList) = none) :
    handleLogin lib app request response draws =
      some (app, { response with status := 401,
                                 body := "\x7b\"error\":\"Invalid credentials\"\x7d".toList }) := by
  unfold handleLogin
  simp only [ne_eq, ← List.isEmpty_iff, Bool.not_eq_true] at hemail hpassword
  simp only [hemail, hpassword, Bool.or_self, Bool.false_eq_true, if_false, hfind]

theorem WellFormed.usersAt_of_mem {app : BulletinBoardApp} (wf : WellFormed app) {user : User}
    (hmem : user ∈ app.users_) :
    UMap.find app.emailToUserId_ user.email = some user.id ∧
      usersAt app.users_ (user.id - 1) = some user := by
  refine ⟨wf.userEmails user hmem, ?_⟩
  obtain ⟨h1, h2⟩ := wf.user_id_range hmem
  obtain ⟨v, hv, hvmem⟩ := usersAt_of_range h1 h2
  rw [hv, wf.user_eq_of_id hvmem hmem (wf.usersAt_id hv)]

theorem handleLogin_wrong (lib : StdLib) {app : BulletinBoardApp} (wf : WellFormed app)
    {request : HttpRequest} (response : HttpResponse) (draws : Nat → Fin 16)
    (hemail : request.getParam "email".toList ≠ [])
    (hpassword : request.getParam "password".toList ≠ [])
    {user : User} (hmem : user ∈ app.users_)
    (huser : user.email = request.getParam "email".toList)
    (hhash : user.passwordHash ≠ hashPassword lib (request.getParam "password".toList)) :
    handleLogin lib app request response draws =
      some (app, { response with status := 401,
                                 body := "\x7b\"error\":\"Invalid credentials\"\x7d".toList }) := by
  obtain ⟨hfind, hat⟩ := wf.usersAt_of_mem hmem
  rw [huser] at hfind
  unfold handleLogin
  simp only [ne_eq, ← List.isEmpty_iff, Bool.not_eq_true] at hemail hpassword
  simp only [hemail, hpassword, Bool.or_self, Bool.false_eq_true, if_false, hfind, hat, ne_eq,
    hhash, not_false_eq_true, if_true]

theorem handleLogin_ok (lib : StdLib) {app : BulletinBoardApp} (wf : WellFormed app)
    {request : HttpRequest} (response : HttpResponse) (draws : Nat → Fin 16)
    (hemail : request.getParam "email".toList ≠ [])
    (hpassword : request.getParam "password".toList ≠ [])
    {user : User} (hmem : user ∈ app.users_)
    (huser : user.email = request.getParam "email".toList)
    (hhash : user.passwordHash = hashPassword lib (request.getParam "password".toList)) :
    handleLogin lib app request response draws =
      some ({ app with sessions_ := UMap.assign app.sessions_ (generateToken draws) user.id },
            { response with
                body := "\x7b\"token\":\"".toList ++ generateToken draws
                          ++ "\",\"user\":".toList ++ userToJson user ++ ['\x7d'] }) := by
  obtain ⟨hfind, hat⟩ := wf.usersAt_of_mem hmem
  rw [huser] at hfind
  unfold handleLogin
  simp only [ne_eq, ← List.isEmpty_iff, Bool.not_eq_true] at hemail hpassword
  simp only [hemail, hpassword, Bool.or_self, Bool.false_eq_true, if_false, hfind, hat, ne_eq,
    hhash, not_true_eq_false]

/-- C8. In a reachable store, a login request whose email is not in the email index and a
login request whose email belongs to a stored user but whose password hashes to something else
than the stored hash (both with non-empty email and password) get the same response, status
401 with body `Invalid credentials`, and both leave the store, hence the sessions, unchanged. -/
theorem login_failures_indistinguishable (lib : StdLib) (app : BulletinBoardApp)
    (hreach : Reachable lib app) (request1 request2 : HttpRequest) (draws1 draws2 : Nat → Fin 16)
    (hemail1 : request1.getParam "email".toList ≠ [])
    (hpassword1 : request1.getParam "password".toList ≠ [])
    (hemail2 : request2.getParam "email".toList ≠ [])
    (hpassword2 : request2.getParam "password".toList ≠ [])
    (hunknown : UMap.find app.emailToUserId_ (request1.getParam "email".toList) = none)
    (hwrong : ∃ user ∈ app.users_, user.email = request2.getParam "email".toList ∧
      user.passwordHash ≠ hashPassword lib (request2.getParam "password".toList)) :
    handleLogin lib app request1 {} draws1 =
      some (app, { status := 401,
                   body := "\x7b\"error\":\"Invalid credentials\"\x7d".toList }) ∧
    handleLogin lib app request2 {} draws2 =
      some (app, { status := 401,
                   body := "\x7b\"error\":\"Invalid credentials\"\x7d".toList }) := by
  obtain ⟨user, hmem, huser, hhash⟩ := hwrong
  exact ⟨handleLogin_unknown lib _ draws1 hemail1 hpassword1 hunknown,
    handleLogin_wrong lib hreach.wellFormed _ draws2 hemail2 hpassword2 hmem huser hhash⟩

theorem login_failures_indistinguishable_witness :
    Reachable sampleLib aliceStore ∧
    UMap.find aliceStore.emailToUserId_ (unknownLogin.getParam "email".toList) = none ∧
    (∃ user ∈ aliceStore.users_, user.email = wrongLogin.getParam "email".toList ∧
      user.passwordHash ≠ hashPassword sampleLib (wrongLogin.getParam "password".toList)) ∧
    handleLogin sampleLib aliceStore unknownLogin {} sampleDraws =
      handleLogin sampleLib aliceStore wrongLogin {} demoDraws :=
  have hw : ∃ user ∈ aliceStore.users_, user.email = wrongLogin.getParam "email".toList ∧
      user.passwordHash ≠ hashPassword sampleLib (wrongLogin.getParam "password".toList) :=
    ⟨aliceStore.users_.getD 1 {}, by decide, by decide, by decide⟩
  have h := login_failures_indistinguishable sampleLib aliceStore aliceStore_reachable
    unknownLogin wrongLogin sampleDraws demoDraws (by decide) (by decide) (by decide)
    (by decide) (by decide) hw
  ⟨aliceStore_reachable, by decide, hw, h.1.trans h.2.symm⟩

/-! ## C9: register, login, authenticate -/

theorem findLastNotOf_of_no_blank {v : Str} (hne : v ≠ [])
    (h : ∀ c ∈ v, isTrimChar c = false) : findLastNotOf v = some (v.length - 1) := by
  induction v with
  | nil => exact absurd rfl hne
  | cons c cs ih =>
    have hc := h c (List.mem_cons_self _ _)
    cases cs with
    | nil => simp [findLastNotOf, hc]
    | cons d ds =>
      have := ih (by simp) (fun x hx => h x (List.mem_cons_of_mem _ hx))
      unfold findLastNotOf
      rw [this]
      simp

theorem trim_of_no_blank {v : Str} (h : ∀ c ∈ v, isTrimChar c = false) : trim v = v := by
  cases v with
  | nil => simp [trim, findFirstNotOf]
  | cons c cs =>
    have hc := h c (List.mem_cons_self _ _)
    have hlast := findLastNotOf_of_no_blank (by simp) h
    unfold trim
    rw [hlast]
    simp [findFirstNotOf, hc, substr]

theorem generateToken_length (draws : Nat → Fin 16) : (generateToken draws).length = 32 := by
  simp [generateToken]

theorem generateToken_no_blank (draws : Nat → Fin 16) :
    ∀ c ∈ generateToken draws, isTrimChar c = false := by
  intro c hc
  obtain ⟨i, _, hi⟩ := List.mem_map.mp hc
  have hall : ∀ d : Fin 16, isTrimChar (Nat.digitChar d.val) = false := by decide
  rw [← hi]
  exact hall (draws i)

theorem authenticate_bearer (app : BulletinBoardApp) {request : HttpRequest} {token : Str}
    (hheader : request.getHeader "authorization".toList = "Bearer ".toList ++ token)
    (hne : token ≠ []) (hblank : ∀ c ∈ token, isTrimChar c = false) :
    authenticate app request = UMap.find app.sessions_ token := by
  have hlen : ¬ ("Bearer ".toList ++ token).length < 8 := by
    cases token with
    | nil => exact absurd rfl hne
    | cons c cs => simp
  have hlow : toLower (substr ("Bearer ".toList ++ token) 0 "bearer ".toList.length)
      = "bearer ".toList := by
    simp [substr, toLower, tolower]
  unfold authenticate
  simp only [hheader, hlen, if_false, hlow, ne_eq, not_true_eq_false]
  have hdrop : List.drop "bearer ".toList.length ("Bearer ".toList ++ token) = token := by
    simp
  rw [hdrop, trim_of_no_blank hblank]

/-- C9. In a reachable store, after a registration with non-empty name, email and password and
an email not yet in the email index (answer 200), a login with that email and password answers
200 and stores a session that maps the issued token to the id of the new user; a request with
the header `authorization: Bearer <token>` then authenticates as that id, and the user stored
under that id has the registered name and email. -/
theorem register_login_authenticate (lib : StdLib) (app : BulletinBoardApp)
    (hreach : Reachable lib app) (request login bearer : HttpRequest) (draws : Nat → Fin 16)
    (hname : request.getParam "name".toList ≠ [])
    (hemail : request.getParam "email".toList ≠ [])
    (hpassword : request.getParam "password".toList ≠ [])
    (hnew : UMap.find app.emailToUserId_ (request.getParam "email".toList) = none)
    (hloginEmail : login.getParam "email".toList = request.getParam "email".toList)
    (hloginPassword : login.getParam "password".toList = request.getParam "password".toList)
    (hbearer : bearer.getHeader "authorization".toList =
      "Bearer ".toList ++ generateToken draws) :
    (handleRegister lib app request {}).2.status = 200 ∧
    ∃ (app2 : BulletinBoardApp) (user : User),
      handleLogin lib (handleRegister lib app request {}).1 login {} draws =
        some (app2,
          { status := 200,
            body := "\x7b\"token\":\"".toList ++ generateToken draws
                      ++ "\",\"user\":".toList ++ userToJson user ++ ['\x7d'] }) ∧
      UMap.find app2.sessions_ (generateToken draws) = some user.id ∧
      authenticate app2 bearer = some user.id ∧
      usersAt app2.users_ (user.id - 1) = some user ∧
      user.id = app.nextUserId_ ∧
      user.name = request.getParam "name".toList ∧
      user.email = request.getParam "email".toList := by
  have wf := hreach.wellFormed
  have wf1 := wf.handleRegister lib request {}
  rw [handleRegister_ok lib _ hname hemail hpassword hnew] at wf1 ⊢
  dsimp only at wf1 ⊢
  have hmem : ({ id := app.nextUserId_, name := request.getParam "name".toList,
                 email := request.getParam "email".toList,
                 passwordHash := hashPassword lib (request.getParam "password".toList) } : User)
      ∈ app.users_ ++
        [{ id := app.nextUserId_, name := request.getParam "name".toList,
           email := request.getParam "email".toList,
           passwordHash := hashPassword lib (request.getParam "password".toList) }] := by
    simp
  refine ⟨rfl, _, _, handleLogin_ok lib wf1 _ draws (hloginEmail ▸ hemail)
    (hloginPassword ▸ hpassword) hmem hloginEmail.symm (by rw [hloginPassword]), ?_, ?_, ?_,
    rfl, rfl, rfl⟩
  · simp [UMap.find_assign]
  · rw [authenticate_bearer _ hbearer
      (by intro h; have := generateToken_length draws; rw [h] at this; simp at this)
      (generateToken_no_blank draws)]
    simp [UMap.find_assign]
  · exact (wf1.usersAt_of_mem hmem).2

theorem register_login_authenticate_witness :
    Reachable sampleLib aliceStore ∧
    UMap.find aliceStore.emailToUserId_ (bobRegister.getParam "email".toList) = none ∧
    (handleRegister sampleLib aliceStore bobRegister {}).2.status = 200 ∧
    ∃ (app2 : BulletinBoardApp) (user : User),
      handleLogin sampleLib (handleRegister sampleLib aliceStore bobRegister {}).1 bobRegister {}
          demoDraws =
        some (app2,
          { status := 200,
            body := "\x7b\"token\":\"".toList ++ generateToken demoDraws
                      ++ "\",\"user\":".toList ++ userToJson user ++ ['\x7d'] }) ∧
      UMap.find app2.sessions_ (generateToken demoDraws) = some user.id ∧
      authenticate app2 demoRequest = some user.id ∧
      usersAt app2.users_ (user.id - 1) = some user ∧
      user.id = aliceStore.nextUserId_ ∧
      user.name = bobRegister.getParam "name".toList ∧
      user.email = bobRegister.getParam "email".toList :=
  have h := register_login_authenticate sampleLib aliceStore aliceStore_reachable bobRegister
    bobRegister demoRequest demoDraws (by decide) (by decide) (by decide) (by decide) rfl rfl
    (by decide)
  ⟨aliceStore_reachable, by decide, h.1, h.2⟩

/-! ## C10: logout -/

/-- C10. For every store and request `handleLogout` answers 200 with body `success: true` and
leaves users, adverts, the email index, the response sets and both counters as they are.  When
the `authorization` header has at least 8 characters and starts with `bearer ` in any letter
case, with `t` the trimmed rest, every request whose token is `t` is unauthenticated afterwards
and the session of every other token is unchanged; with any other header, or none, the whole
store is unchanged. -/
theorem logout_contract (app : BulletinBoardApp) (request : HttpRequest) :
    (handleLogout app request {}).2 =
      { status := 200, body := "\x7b\"success\":true\x7d".toList } ∧
    (handleLogout app request {}).1.users_ = app.users_ ∧
    (handleLogout app request {}).1.adverts_ = app.adverts_ ∧
    (handleLogout app request {}).1.emailToUserId_ = app.emailToUserId_ ∧
    (handleLogout app request {}).1.responses_ = app.responses_ ∧
    (handleLogout app request {}).1.nextUserId_ = app.nextUserId_ ∧
    (handleLogout app request {}).1.nextAdvertId_ = app.nextAdvertId_ ∧
    (∀ t : Str,
      8 ≤ (request.getHeader "authorization".toList).length →
      toLower (substr (request.getHeader "authorization".toList) 0 7) = "bearer ".toList →
      trim ((request.getHeader "authorization".toList).drop 7) = t →
      (∀ request2 : HttpRequest,
        trim ((request2.getHeader "authorization".toList).drop 7) = t →
        authenticate (handleLogout app request {}).1 request2 = none) ∧
      (∀ other : Str, other ≠ t →
        UMap.find (handleLogout app request {}).1.sessions_ other =
          UMap.find app.sessions_ other)) ∧
    (¬ (8 ≤ (request.getHeader "authorization".toList).length ∧
        toLower (substr (request.getHeader "authorization".toList) 0 7) = "bearer ".toList) →
      (handleLogout app request {}).1 = app) := by
  have hseven : "bearer ".toList.length = 7 := rfl
  refine ⟨rfl, ?_, ?_, ?_, ?_, ?_, ?_, ?_, ?_⟩
  · unfold handleLogout; dsimp only; split <;> [split; skip] <;> rfl
  · unfold handleLogout; dsimp only; split <;> [split; skip] <;> rfl
  · unfold handleLogout; dsimp only; split <;> [split; skip] <;> rfl
  · unfold handleLogout; dsimp only; split <;> [split; skip] <;> rfl
  · unfold handleLogout; dsimp only; split <;> [split; skip] <;> rfl
  · unfold handleLogout; dsimp only; split <;> [split; skip] <;> rfl
  · intro t hlen hlow htrim
    have hstore : (handleLogout app request {}).1 =
        { app with sessions_ := UMap.erase app.sessions_ t } := by
      unfold handleLogout
      simp only [hseven, ge_iff_le, hlen, if_true, hlow, htrim]
    rw [hstore]
    refine ⟨fun request2 htoken => ?_, fun other hne => ?_⟩
    · unfold authenticate
      dsimp only
      split
      · rfl
      · split
        · rfl
        · rw [hseven, htoken, UMap.find_erase, if_pos rfl]
    · dsimp only
      rw [UMap.find_erase, if_neg (Ne.symm hne)]
  · intro hnot
    unfold handleLogout
    dsimp only
    rw [hseven]
    by_cases hlen : (request.getHeader "authorization".toList).length ≥ 8
    · have hlow : ¬ toLower (substr (request.getHeader "authorization".toList) 0 7) =
          "bearer ".toList := fun h => hnot ⟨hlen, h⟩
      simp only [hlen, if_true, hlow, if_false]
    · simp only [hlen, if_false]

theorem logout_contract_witness :
    authenticate aliceStore aliceRequest = some 2 ∧
    authenticate (handleLogout aliceStore aliceRequest {}).1 aliceRequest = none ∧
    UMap.find (handleLogout bothStore aliceRequest {}).1.sessions_ (generateToken demoDraws) =
      UMap.find bothStore.sessions_ (generateToken demoDraws) :=
  ⟨by decide,
    ((logout_contract aliceStore aliceRequest).2.2.2.2.2.2.2.1 (generateToken sampleDraws)
      (by decide) (by decide) (by decide)).1 aliceRequest (by decide),
    ((logout_contract bothStore aliceRequest).2.2.2.2.2.2.2.1 (generateToken sampleDraws)
      (by decide) (by decide) (by decide)).2 (generateToken demoDraws) (by decide)⟩

/-! ## C11: the authentication gate -/

theorem tolower_eq_space {c : Char} (h : tolower c = ' ') : c = ' ' := by
  unfold tolower at h
  split at h
  · rename_i hr
    exfalso
    have h1 : 'A'.toNat = 65 := rfl
    have h2 : 'Z'.toNat = 90 := rfl
    rw [h1, h2] at hr
    have hn : (Char.ofNat (c.toNat + 32)).toNat = 32 := by rw [h]; rfl
    obtain ⟨lo, hi⟩ := hr
    generalize c.toNat = n at *
    interval_cases n <;> simp at hn
  · exact h

theorem toLower_length (v : Str) : (toLower v).length = v.length := by
  simp [toLower]

theorem authenticate_eq_some_iff (app : BulletinBoardApp) (request : HttpRequest) (u : Int) :
    authenticate app request = some u ↔
      ∃ scheme rest : Str, rest ≠ [] ∧
        request.getHeader "authorization".toList = scheme ++ ' ' :: rest ∧
        toLower scheme = "bearer".toList ∧
        UMap.find app.sessions_ (trim rest) = some u := by
  have hseven : "bearer ".toList.length = 7 := rfl
  constructor
  · intro h
    unfold authenticate at h
    simp only [hseven] at h
    split at h
    · simp at h
    · rename_i hlen
      split at h
      · simp at h
      · rename_i hlow
        simp only [ne_eq, not_not] at hlow
        generalize request.getHeader "authorization".toList = hd at *
        match hd, hlen, hlow, h with
        | c1 :: c2 :: c3 :: c4 :: c5 :: c6 :: c7 :: c8 :: tl, _, hlow, h =>
          simp only [substr, List.drop, List.take, toLower, List.map] at hlow
          simp only [List.drop] at h
          have hl : "bearer ".toList = ['b', 'e', 'a', 'r', 'e', 'r', ' '] := rfl
          rw [hl] at hlow
          simp only [List.cons.injEq, and_true] at hlow
          obtain ⟨e1, e2, e3, e4, e5, e6, e7⟩ := hlow
          refine ⟨[c1, c2, c3, c4, c5, c6], c8 :: tl, by simp, ?_, ?_, h⟩
          · rw [tolower_eq_space e7]; rfl
          · simp only [toLower, List.map, e1, e2, e3, e4, e5, e6]; rfl
        | [], hlen, _, _ => simp at hlen
        | [_], hlen, _, _ => simp at hlen
        | [_, _], hlen, _, _ => simp at hlen
        | [_, _, _], hlen, _, _ => simp at hlen
        | [_, _, _, _], hlen, _, _ => simp at hlen
        | [_, _, _, _, _], hlen, _, _ => simp at hlen
        | [_, _, _, _, _, _], hlen, _, _ => simp at hlen
        | [_, _, _, _, _, _, _], hlen, _, _ => simp at hlen
  · rintro ⟨scheme, rest, hne, hhd, hscheme, hfind⟩
    have hlen6 : scheme.length = 6 := by
      rw [← toLower_length, hscheme]; rfl
    unfold authenticate
    simp only [hseven, hhd]
    have hlen : ¬ (scheme ++ ' ' :: rest).length < 8 := by
      cases rest with
      | nil => exact absurd rfl hne
      | cons c cs => simp [hlen6]; omega
    have htake : substr (scheme ++ ' ' :: rest) 0 7 = scheme ++ [' '] := by
      have : scheme ++ ' ' :: rest = (scheme ++ [' ']) ++ rest := by simp
      rw [this]
      simp only [substr, List.drop]
      rw [List.take_left' (by simp [hlen6])]
    have hdrop : List.drop 7 (scheme ++ ' ' :: rest) = rest := by
      have : scheme ++ ' ' :: rest = (scheme ++ [' ']) ++ rest := by simp
      rw [this, List.drop_left' (by simp [hlen6])]
    have hlow : toLower (scheme ++ [' ']) = "bearer ".toList := by
      simp only [toLower, List.map_append] at hscheme ⊢
      rw [hscheme]; rfl
    simp only [hlen, if_false, htake, hlow, ne_eq, not_true_eq_false, hdrop, hfind]

theorem sessions_handleRegister (lib : StdLib) (app : BulletinBoardApp) (request : HttpRequest)
    (response : HttpResponse) :
    (handleRegister lib app request response).1.sessions_ = app.sessions_ := by
  unfold handleRegister
  dsimp only
  split <;> [skip; split] <;> rfl

theorem sessions_handleCreateAd (lib : StdLib) (app : BulletinBoardApp) (request : HttpRequest)
    (response : HttpResponse) (now : Int) :
    (handleCreateAd lib app request response now).1.sessions_ = app.sessions_ := by
  unfold handleCreateAd
  split
  · rfl
  · dsimp only
    split
    · rfl
    · split <;> rfl

theorem sessions_handleDeleteAd (app : BulletinBoardApp) (request : HttpRequest)
    (response : HttpResponse) (advertId : Int) :
    (handleDeleteAd app request response advertId).1.sessions_ = app.sessions_ := by
  unfold handleDeleteAd
  split
  · rfl
  · split
    · rfl
    · split <;> rfl

theorem sessions_handleRespondToAd (app : BulletinBoardApp) (request : HttpRequest)
    (response : HttpResponse) (advertId : Int) :
    (handleRespondToAd app request response advertId).1.sessions_ = app.sessions_ := by
  unfold handleRespondToAd
  split
  · rfl
  · split
    · rfl
    · split
      · rfl
      · dsimp only
        split <;> rfl

/-- Every session token of a reachable store is a token of `generateToken`: 32 characters. -/
theorem Reachable.session_tokens {lib : StdLib} {app : BulletinBoardApp}
    (h : Reachable lib app) :
    ∀ (t : Str) (k : Int), UMap.find app.sessions_ t = some k → t.length = 32 := by
  induction h with
  | init t1 t2 t3 =>
    intro t k hk
    simp [BulletinBoardApp.init, UMap.find] at hk
  | register request response _ ih => rw [sessions_handleRegister]; exact ih
  | login request response draws result _ hres ih =>
    intro t k hk
    unfold handleLogin at hres
    simp only at hres
    split at hres
    · simp at hres; subst hres; exact ih t k hk
    · split at hres
      · simp at hres; subst hres; exact ih t k hk
      · split at hres
        · simp at hres
        · split at hres
          · simp at hres; subst hres; exact ih t k hk
          · simp at hres
            subst hres
            rw [UMap.find_assign] at hk
            split at hk
            · rename_i ht
              rw [← ht]
              exact generateToken_length draws
            · exact ih t k hk
  | logout request response _ ih =>
    intro t k hk
    unfold handleLogout at hk
    dsimp only at hk
    split at hk
    · split at hk
      · rw [UMap.find_erase] at hk
        split at hk
        · simp at hk
        · exact ih t k hk
      · exact ih t k hk
    · exact ih t k hk
  | createAd request response now _ ih => rw [sessions_handleCreateAd]; exact ih
  | deleteAd request response advertId _ ih => rw [sessions_handleDeleteAd]; exact ih
  | respondToAd request response advertId _ ih => rw [sessions_handleRespondToAd]; exact ih

/-- C11. For every store and request, `authenticate` yields the user id `u` exactly when the
`authorization` header is a six-letter scheme equal to `bearer` up to letter case, one space,
and a non-empty rest whose trimmed form the session store maps to `u`; in a reachable store the
same holds with the rest allowed to be empty (no session has an empty token).  In every other
case, in particular without the header, the result is `none`: `authenticate` is a total
function and has no error outcome. -/
theorem authenticate_contract (lib : StdLib) (app : BulletinBoardApp) (request : HttpRequest)
    (u : Int) :
    (authenticate app request = some u ↔
      ∃ scheme rest : Str, rest ≠ [] ∧
        request.getHeader "authorization".toList = scheme ++ ' ' :: rest ∧
        toLower scheme = "bearer".toList ∧
        UMap.find app.sessions_ (trim rest) = some u) ∧
    (Reachable lib app →
      (authenticate app request = some u ↔
        ∃ scheme rest : Str,
          request.getHeader "authorization".toList = scheme ++ ' ' :: rest ∧
          toLower scheme = "bearer".toList ∧
          UMap.find app.sessions_ (trim rest) = some u)) ∧
    (UMap.find request.headers "authorization".toList = none →
      authenticate app request = none) ∧
    ((∀ v : Int, ¬ ∃ scheme rest : Str, rest ≠ [] ∧
        request.getHeader "authorization".toList = scheme ++ ' ' :: rest ∧
        toLower scheme = "bearer".toList ∧
        UMap.find app.sessions_ (trim rest) = some v) →
      authenticate app request = none) := by
  refine ⟨authenticate_eq_some_iff app request u, fun hreach => ?_, fun hmissing => ?_,
    fun hnone => ?_⟩
  · rw [authenticate_eq_some_iff]
    constructor
    · rintro ⟨scheme, rest, _, h1, h2, h3⟩
      exact ⟨scheme, rest, h1, h2, h3⟩
    · rintro ⟨scheme, rest, h1, h2, h3⟩
      refine ⟨scheme, rest, ?_, h1, h2, h3⟩
      rintro rfl
      have := hreach.session_tokens _ _ h3
      simp [trim, findFirstNotOf] at this
  · unfold authenticate HttpRequest.getHeader
    rw [hmissing]
    rfl
  · cases h : authenticate app request with
    | none => rfl
    | some v => exact absurd ((authenticate_eq_some_iff app request v).mp h) (hnone v)

theorem authenticate_contract_witness :
    authenticate aliceStore aliceRequest = some 2 ∧
    authenticate aliceStore (bearerRequest "0123".toList) = none ∧
    authenticate aliceStore
      { headers := [("authorization".toList, "Basic ".toList ++ generateToken sampleDraws)] }
      = none :=
  ⟨(authenticate_contract sampleLib aliceStore aliceRequest 2).1.mpr
      ⟨"Bearer".toList, generateToken sampleDraws, by decide, by decide, by decide, by decide⟩,
    (authenticate_contract sampleLib aliceStore (bearerRequest "0123".toList) 0).2.2.2
      (by
        rintro v ⟨scheme, rest, _, h1, h2, h3⟩
        have hlen : scheme.length = 6 := by rw [← toLower_length, h2]; rfl
        have hrest : rest = "0123".toList := by
          have h4 : ("Bearer".toList ++ ' ' :: "0123".toList) = scheme ++ ' ' :: rest := h1
          have := List.append_inj h4 (by rw [hlen]; rfl)
          simpa using this.2.symm
        have hnone : UMap.find aliceStore.sessions_ (trim "0123".toList) = none := by decide
        rw [hrest, hnone] at h3
        cases h3),
    by decide⟩

/-! ## C13: creating an advert -/

theorem handleCreateAd_missing (lib : StdLib) {app : BulletinBoardApp} {request : HttpRequest}
    (response : HttpResponse) (now : Int) {u : Int} (hauth : authenticate app request = some u)
    (h : request.getParam "title".toList = [] ∨ request.getParam "description".toList = []) :
    handleCreateAd lib app request response now =
      (app, { response with
                status := 400,
                body := "\x7b\"error\":\"Title and description are required\"\x7d".toList }) := by
  unfold handleCreateAd
  simp only [hauth]
  have : (List.isEmpty (request.getParam "title".toList) ||
      List.isEmpty (request.getParam "description".toList)) = true := by
    rcases h with h | h <;> rw [h] <;> simp
  rw [if_pos this]

theorem handleCreateAd_badPrice (lib : StdLib) {app : BulletinBoardApp} {request : HttpRequest}
    (response : HttpResponse) (now : Int) {u : Int} (hauth : authenticate app request = some u)
    (htitle : request.getParam "title".toList ≠ [])
    (hdescription : request.getParam "description".toList ≠ [])
    (hprice : request.getParam "price".toList ≠ [])
    (hstod : lib.stod (request.getParam "price".toList) = none) :
    handleCreateAd lib app request response now =
      (app, { response with status := 400,
                            body := "\x7b\"error\":\"Invalid price\"\x7d".toList }) := by
  unfold handleCreateAd
  simp only [ne_eq, ← List.isEmpty_iff, Bool.not_eq_true] at htitle hdescription hprice
  simp only [hauth, htitle, hdescription, hprice, Bool.or_self, Bool.false_eq_true, if_false,
    hstod]

theorem handleCreateAd_ok (lib : StdLib) {app : BulletinBoardApp} {request : HttpRequest}
    (response : HttpResponse) (now : Int) {u : Int} (hauth : authenticate app request = some u)
    (htitle : request.getParam "title".toList ≠ [])
    (hdescription : request.getParam "description".toList ≠ [])
    {price : Double}
    (hprice : (if request.getParam "price".toList = [] then some ⟨0⟩
               else lib.stod (request.getParam "price".toList)) = some price) :
    handleCreateAd lib app request response now =
      ({ app with
           nextAdvertId_ := app.nextAdvertId_ + 1,
           adverts_ := app.adverts_ ++
             [{ id := app.nextAdvertId_, ownerId := u,
                title := request.getParam "title".toList,
                description := request.getParam "description".toList,
                price := price, createdAt := now }] },
       { response with body := "\x7b\"success\":true\x7d".toList }) := by
  unfold handleCreateAd
  simp only [ne_eq, ← List.isEmpty_iff, Bool.not_eq_true] at htitle hdescription
  simp only [← List.isEmpty_iff] at hprice
  simp only [hauth, htitle, hdescription, Bool.or_self, Bool.false_eq_true, if_false, hprice]

/-- C13. In a reachable store, for a requester authenticated as `u`, `handleCreateAd` answers
400 and leaves the store unchanged when the title or the description parameter is empty, and
when the price parameter is non-empty and `std::stod` throws on it (it does not parse);
otherwise it answers 200 and appends exactly one advert with owner `u`, the given title and
description, the parsed price (`0.0` when the price parameter is empty or absent) and the id of
the counter, which no stored advert has, and advances the counter by one. -/
theorem createAd_contract (lib : StdLib) (app : BulletinBoardApp) (hreach : Reachable lib app)
    (request : HttpRequest) (u now : Int) (hauth : authenticate app request = some u) :
    ((request.getParam "title".toList = [] ∨ request.getParam "description".toList = []) →
      handleCreateAd lib app request {} now =
        (app, { status := 400,
                body := "\x7b\"error\":\"Title and description are required\"\x7d".toList })) ∧
    (request.getParam "title".toList ≠ [] → request.getParam "description".toList ≠ [] →
      request.getParam "price".toList ≠ [] →
      lib.stod (request.getParam "price".toList) = none →
      handleCreateAd lib app request {} now =
        (app, { status := 400, body := "\x7b\"error\":\"Invalid price\"\x7d".toList })) ∧
    (request.getParam "title".toList ≠ [] → request.getParam "description".toList ≠ [] →
      ∀ price : Double,
      (if request.getParam "price".toList = [] then some ⟨0⟩
       else lib.stod (request.getParam "price".toList)) = some price →
      handleCreateAd lib app request {} now =
        ({ app with
             nextAdvertId_ := app.nextAdvertId_ + 1,
             adverts_ := app.adverts_ ++
               [{ id := app.nextAdvertId_, ownerId := u,
                  title := request.getParam "title".toList,
                  description := request.getParam "description".toList,
                  price := price, createdAt := now }] },
         { status := 200, body := "\x7b\"success\":true\x7d".toList }) ∧
      ∀ ad ∈ app.adverts_, ad.id ≠ app.nextAdvertId_) := by
  refine ⟨fun h => handleCreateAd_missing lib _ now hauth h,
    fun ht hd hp hs => handleCreateAd_badPrice lib _ now hauth ht hd hp hs,
    fun ht hd price hp => ⟨handleCreateAd_ok lib _ now hauth ht hd hp, fun ad had => ?_⟩⟩
  have := hreach.wellFormed.advertIdsBelow ad had
  omega

theorem createAd_contract_witness :
    Reachable sampleLib aliceStore ∧
    authenticate aliceStore (aliceCreate []) = some 2 ∧
    (handleCreateAd sampleLib aliceStore (aliceCreate []) {} 7).2.status = 200 ∧
    (handleCreateAd sampleLib aliceStore (aliceCreate []) {} 7).1.adverts_ =
      aliceStore.adverts_ ++
        [{ id := 4, ownerId := 2, title := "Desk".toList, description := "Oak desk".toList,
           price := ⟨0⟩, createdAt := 7 }] ∧
    (handleCreateAd sampleLib aliceStore (aliceCreate "abc".toList) {} 7).2.status = 400 :=
  have h := createAd_contract sampleLib aliceStore aliceStore_reachable (aliceCreate []) 2 7
    (by decide)
  have h3 := (h.2.2 (by decide) (by decide) ⟨0⟩ (by decide)).1
  have h2 := (createAd_contract sampleLib aliceStore aliceStore_reachable
    (aliceCreate "abc".toList) 2 7 (by decide)).2.1 (by decide) (by decide) (by decide)
    (by decide)
  ⟨aliceStore_reachable, by decide, by rw [h3], by rw [h3]; rfl, by rw [h2]⟩

/-! ## C14 and C15: advert ids and prices along runs -/

theorem handleCreateAd_effect (lib : StdLib) (app : BulletinBoardApp) (request : HttpRequest)
    (response : HttpResponse) (now : Int) :
    (handleCreateAd lib app request response now).1 = app ∨
    ∃ ad : Advertisement,
      (handleCreateAd lib app request response now).1 =
        { app with nextAdvertId_ := app.nextAdvertId_ + 1, adverts_ := app.adverts_ ++ [ad] } ∧
      (handleCreateAd lib app request response now).2.status = response.status ∧
      ad.id = app.nextAdvertId_ ∧
      (ad.price = ⟨0⟩ ∨ ∃ s : Str, s ≠ [] ∧ lib.stod s = some ad.price) := by
  unfold handleCreateAd
  split
  · exact Or.inl rfl
  · dsimp only
    split
    · exact Or.inl rfl
    · split
      · exact Or.inl rfl
      · rename_i price hprice
        refine Or.inr ⟨_, rfl, rfl, rfl, ?_⟩
        dsimp only
        split at hprice
        · simp only [Option.some.injEq] at hprice
          exact Or.inl hprice.symm
        · rename_i hne
          exact Or.inr ⟨_, by simpa [List.isEmpty_iff] using hne, hprice⟩

theorem handleCreateAd_status (lib : StdLib) (app : BulletinBoardApp) (request : HttpRequest)
    (now : Int) (h : (handleCreateAd lib app request {} now).2.status = 200) :
    ∃ ad : Advertisement,
      (handleCreateAd lib app request {} now).1 =
        { app with nextAdvertId_ := app.nextAdvertId_ + 1, adverts_ := app.adverts_ ++ [ad] } ∧
      ad.id = app.nextAdvertId_ := by
  unfold handleCreateAd at h ⊢
  split at h
  · simp at h
  · dsimp only at h ⊢
    split at h
    · simp at h
    · rename_i hne
      rw [if_neg hne]
      split at h
      · simp at h
      · exact ⟨_, rfl, rfl⟩

/-- What one step does to the adverts and their counter. -/
theorem Step.adverts_effect {lib : StdLib} {app app1 : BulletinBoardApp} (h : Step lib app app1) :
    app.nextAdvertId_ ≤ app1.nextAdvertId_ ∧
    ∀ ad ∈ app1.adverts_, ad ∈ app.adverts_ ∨
      (ad.id = app.nextAdvertId_ ∧ ad.id < app1.nextAdvertId_ ∧
        (ad.price = ⟨0⟩ ∨ ∃ s : Str, s ≠ [] ∧ lib.stod s = some ad.price)) := by
  cases h with
  | register request response =>
    have : (handleRegister lib app request response).1.adverts_ = app.adverts_ ∧
        (handleRegister lib app request response).1.nextAdvertId_ = app.nextAdvertId_ := by
      unfold handleRegister
      dsimp only
      split <;> [skip; split] <;> exact ⟨rfl, rfl⟩
    rw [this.1, this.2]
    exact ⟨le_refl _, fun ad had => Or.inl had⟩
  | login request response draws result hres =>
    have : result.1.adverts_ = app.adverts_ ∧ result.1.nextAdvertId_ = app.nextAdvertId_ := by
      unfold handleLogin at hres
      simp only at hres
      split at hres
      · simp at hres; subst hres; exact ⟨rfl, rfl⟩
      · split at hres
        · simp at hres; subst hres; exact ⟨rfl, rfl⟩
        · split at hres
          · simp at hres
          · split at hres <;> (simp at hres; subst hres; exact ⟨rfl, rfl⟩)
    rw [this.1, this.2]
    exact ⟨le_refl _, fun ad had => Or.inl had⟩
  | logout request response =>
    have : (handleLogout app request response).1.adverts_ = app.adverts_ ∧
        (handleLogout app request response).1.nextAdvertId_ = app.nextAdvertId_ := by
      unfold handleLogout
      dsimp only
      split <;> [split; skip] <;> exact ⟨rfl, rfl⟩
    rw [this.1, this.2]
    exact ⟨le_refl _, fun ad had => Or.inl had⟩
  | createAd request response now =>
    rcases handleCreateAd_effect lib app request response now with h | ⟨ad, h, _, hid, hprice⟩
    · rw [h]
      exact ⟨le_refl _, fun ad had => Or.inl had⟩
    · rw [h]
      dsimp only
      refine ⟨by omega, fun b hb => ?_⟩
      rcases List.mem_append.mp hb with hb | hb
      · exact Or.inl hb
      · simp only [List.mem_singleton] at hb
        subst hb
        exact Or.inr ⟨hid, by omega, hprice⟩
  | deleteAd request response advertId =>
    have : List.Sublist (handleDeleteAd app request response advertId).1.adverts_ app.adverts_ ∧
        (handleDeleteAd app request response advertId).1.nextAdvertId_ = app.nextAdvertId_ := by
      unfold handleDeleteAd
      split
      · exact ⟨List.Sublist.refl _, rfl⟩
      · split
        · exact ⟨List.Sublist.refl _, rfl⟩
        · split
          · exact ⟨List.Sublist.refl _, rfl⟩
          · exact ⟨List.eraseP_sublist _, rfl⟩
    rw [this.2]
    exact ⟨le_refl _, fun ad had => Or.inl (this.1.subset had)⟩
  | respondToAd request response advertId =>
    have : (handleRespondToAd app request response advertId).1.adverts_ = app.adverts_ ∧
        (handleRespondToAd app request response advertId).1.nextAdvertId_
          = app.nextAdvertId_ := by
      unfold handleRespondToAd
      split
      · exact ⟨rfl, rfl⟩
      · split
        · exact ⟨rfl, rfl⟩
        · split
          · exact ⟨rfl, rfl⟩
          · dsimp only
            split <;> exact ⟨rfl, rfl⟩
    rw [this.1, this.2]
    exact ⟨le_refl _, fun ad had => Or.inl had⟩


theorem Step.stays_reachable {lib : StdLib} {app app1 : BulletinBoardApp} (hreach : Reachable lib app)
    (h : Step lib app app1) : Reachable lib app1 := by
  cases h with
  | register request response => exact Reachable.register request response hreach
  | login request response draws result hres =>
    exact Reachable.login request response draws result hreach hres
  | logout request response => exact Reachable.logout request response hreach
  | createAd request response now => exact Reachable.createAd request response now hreach
  | deleteAd request response advertId =>
    exact Reachable.deleteAd request response advertId hreach
  | respondToAd request response advertId =>
    exact Reachable.respondToAd request response advertId hreach

theorem Steps.stay_reachable {lib : StdLib} {app app1 : BulletinBoardApp} (hreach : Reachable lib app)
    (h : Relation.ReflTransGen (Step lib) app app1) : Reachable lib app1 := by
  induction h with
  | refl => exact hreach
  | tail _ hstep ih => exact Step.stays_reachable ih hstep

theorem Steps.adverts_mono {lib : StdLib} {app app1 : BulletinBoardApp}
    (h : Relation.ReflTransGen (Step lib) app app1) :
    app.nextAdvertId_ ≤ app1.nextAdvertId_ ∧
    ∀ ad ∈ app1.adverts_, ad ∈ app.adverts_ ∨ app.nextAdvertId_ ≤ ad.id := by
  induction h with
  | refl => exact ⟨le_refl _, fun ad had => Or.inl had⟩
  | tail _ hstep ih =>
    have hs := Step.adverts_effect hstep
    refine ⟨le_trans ih.1 hs.1, fun ad had => ?_⟩
    rcases hs.2 ad had with h | ⟨hid, _, _⟩
    · exact ih.2 ad h
    · exact Or.inr (by rw [hid]; exact ih.1)

theorem wrapInt32_of_range {n : Int} (h1 : -2147483648 ≤ n) (h2 : n ≤ 2147483647) :
    wrapInt32 n = n := by
  unfold wrapInt32
  omega

theorem handleCreateAdInt32_eq (lib : StdLib) (app : BulletinBoardApp) (request : HttpRequest)
    (response : HttpResponse) (now : Int) (h1 : -2147483648 ≤ app.nextAdvertId_ + 1)
    (h2 : app.nextAdvertId_ < 2147483647) :
    handleCreateAdInt32 lib app request response now =
      handleCreateAd lib app request response now := by
  unfold handleCreateAdInt32 handleCreateAd
  rw [wrapInt32_of_range h1 (by omega)]

theorem Reachable.counter_ge {lib : StdLib} {app : BulletinBoardApp} (hreach : Reachable lib app) :
    4 ≤ app.nextAdvertId_ := by
  induction hreach with
  | init t1 t2 t3 => simp [BulletinBoardApp.init]
  | register request response _ ih =>
    exact le_trans ih (@Step.adverts_effect lib _ _ (Step.register _ request response)).1
  | login request response draws result _ hres ih =>
    exact le_trans ih (@Step.adverts_effect lib _ _ (Step.login _ request response draws result hres)).1
  | logout request response _ ih =>
    exact le_trans ih (@Step.adverts_effect lib _ _ (Step.logout _ request response)).1
  | createAd request response now _ ih =>
    exact le_trans ih (@Step.adverts_effect lib _ _ (Step.createAd _ request response now)).1
  | deleteAd request response advertId _ ih =>
    exact le_trans ih (@Step.adverts_effect lib _ _ (Step.deleteAd _ request response advertId)).1
  | respondToAd request response advertId _ ih =>
    exact le_trans ih (@Step.adverts_effect lib _ _ (Step.respondToAd _ request response advertId)).1

theorem UMap.erase_of_find_none {K V : Type} [DecidableEq K] {m : UMap K V} {k : K}
    (h : UMap.find m k = none) : UMap.erase m k = m := by
  induction m with
  | nil => rfl
  | cons p m ih =>
    obtain ⟨a, b⟩ := p
    unfold UMap.find at h
    by_cases hk : a = k
    · simp [hk] at h
    · simp only [hk, if_false] at h
      simp [UMap.erase, hk, ih h]

theorem findAdvert_append_new {adverts : List Advertisement} {ad : Advertisement}
    (h : ∀ a ∈ adverts, a.id ≠ ad.id) : findAdvert (adverts ++ [ad]) ad.id = some ad := by
  unfold findAdvert
  induction adverts with
  | nil => simp
  | cons a rest ih =>
    have ha : a.id ≠ ad.id := h a (List.mem_cons_self _ _)
    simp only [List.cons_append, List.find?_cons, ha, decide_False]
    exact ih (fun b hb => h b (List.mem_cons_of_mem _ hb))

theorem eraseAdvert_append_new {adverts : List Advertisement} {ad : Advertisement}
    (h : ∀ a ∈ adverts, a.id ≠ ad.id) : eraseAdvert (adverts ++ [ad]) ad.id = adverts := by
  unfold eraseAdvert
  induction adverts with
  | nil => simp
  | cons a rest ih =>
    have ha : a.id ≠ ad.id := h a (List.mem_cons_self _ _)
    simp only [List.cons_append, List.eraseP_cons, ha, decide_False, cond_false]
    rw [ih (fun b hb => h b (List.mem_cons_of_mem _ hb))]

theorem deleteAd_of_new {app : BulletinBoardApp} (wf : WellFormed app)
    {request : HttpRequest} {u : Int} (hauth : authenticate app request = some u)
    (ad : Advertisement) (hid : ad.id = app.nextAdvertId_) (hown : ad.ownerId = u) :
    (handleDeleteAd
      { app with nextAdvertId_ := app.nextAdvertId_ + 1, adverts_ := app.adverts_ ++ [ad] }
      request {} app.nextAdvertId_).1 = { app with nextAdvertId_ := app.nextAdvertId_ + 1 } := by
  have hfresh : ∀ a ∈ app.adverts_, a.id ≠ ad.id := fun a ha => by
    rw [hid]
    exact ne_of_lt (wf.advertIdsBelow a ha)
  have hnone : UMap.find app.responses_ app.nextAdvertId_ = none := by
    cases hf : UMap.find app.responses_ app.nextAdvertId_ with
    | none => rfl
    | some v =>
      obtain ⟨a, ha, hida⟩ := wf.responseKeys _ (UMap.mem_of_find hf)
      exact absurd (hida.trans hid.symm) (hfresh a ha)
  have hauth1 : authenticate
      { app with nextAdvertId_ := app.nextAdvertId_ + 1, adverts_ := app.adverts_ ++ [ad] }
      request = some u := (authenticate_congr rfl request).trans hauth
  have hfind : findAdvert (app.adverts_ ++ [ad]) app.nextAdvertId_ = some ad := by
    rw [← hid]
    exact findAdvert_append_new hfresh
  rw [handleDeleteAd_ok {} hauth1 hfind hown]
  dsimp only
  rw [← hid, eraseAdvert_append_new hfresh, hid, UMap.erase_of_find_none hnone]

/-- Creating an advert and deleting it again advances the counter and changes nothing else. -/
theorem createAd_deleteAd_cycle (lib : StdLib) {app : BulletinBoardApp} (wf : WellFormed app)
    {request : HttpRequest} {u : Int} (hauth : authenticate app request = some u)
    (htitle : request.getParam "title".toList ≠ [])
    (hdescription : request.getParam "description".toList ≠ [])
    (hprice : request.getParam "price".toList = []) (now : Int) :
    (handleDeleteAd (handleCreateAd lib app request {} now).1 request {}
      app.nextAdvertId_).1 = { app with nextAdvertId_ := app.nextAdvertId_ + 1 } := by
  have hok := handleCreateAd_ok lib {} now hauth htitle hdescription
    (show (if request.getParam "price".toList = [] then some ⟨0⟩
            else lib.stod (request.getParam "price".toList)) = some ⟨0⟩ by rw [if_pos hprice])
  rw [hok]
  exact deleteAd_of_new wf hauth _ rfl rfl

theorem cycledStore_auth (n : Nat) : authenticate (cycledStore n) (aliceCreate []) = some 2 :=
  (@authenticate_congr aliceStore (cycledStore n) rfl (aliceCreate [])).trans (by decide)

theorem cycledStore_succ (n : Nat) (hwf : WellFormed (cycledStore n)) :
    (handleDeleteAd (handleCreateAd sampleLib (cycledStore n) (aliceCreate []) {} 0).1
      (aliceCreate []) {} (4 + (n : Int))).1 = cycledStore (n + 1) := by
  have hcycle := @createAd_deleteAd_cycle sampleLib (cycledStore n) hwf (aliceCreate []) 2
    (cycledStore_auth n) (by decide) (by decide) (by decide) 0
  have hnext : (cycledStore n).nextAdvertId_ = 4 + (n : Int) := rfl
  rw [hnext] at hcycle
  rw [hcycle]
  unfold cycledStore
  have : (4 : Int) + ((n + 1 : Nat) : Int) = 4 + (n : Int) + 1 := by push_cast; ring
  rw [this]

theorem cycledStore_reachable (n : Nat) : Reachable sampleLib (cycledStore n) := by
  induction n with
  | zero => exact aliceStore_reachable
  | succ n ih =>
    rw [← cycledStore_succ n ih.wellFormed]
    exact Reachable.deleteAd (aliceCreate []) {} (4 + (n : Int))
      (Reachable.createAd (aliceCreate []) {} 0 ih)

theorem StepInRange.toStep {lib : StdLib} {app app1 : BulletinBoardApp}
    (hreach : Reachable lib app) (h : StepInRange lib app app1) : Step lib app app1 := by
  cases h with
  | register request response => exact Step.register _ request response
  | login request response draws result hres =>
    exact Step.login _ request response draws result hres
  | logout request response => exact Step.logout _ request response
  | createAd request response now hlt =>
    have hge := hreach.counter_ge
    rw [handleCreateAdInt32_eq lib app request response now (by omega) hlt]
    exact Step.createAd _ request response now
  | deleteAd request response advertId => exact Step.deleteAd _ request response advertId
  | respondToAd request response advertId =>
    exact Step.respondToAd _ request response advertId

theorem StepsInRange.toSteps {lib : StdLib} {app app1 : BulletinBoardApp}
    (hreach : Reachable lib app) (h : Relation.ReflTransGen (StepInRange lib) app app1) :
    Relation.ReflTransGen (Step lib) app app1 ∧ Reachable lib app1 := by
  induction h with
  | refl => exact ⟨Relation.ReflTransGen.refl, hreach⟩
  | tail _ hstep ih =>
    have hs := StepInRange.toStep ih.2 hstep
    exact ⟨Relation.ReflTransGen.tail ih.1 hs, Step.stays_reachable ih.2 hs⟩

/-- The counter after one step in range: unchanged or advanced by one, and at most
`INT_MAX`. -/
theorem StepInRange.counter_le {lib : StdLib} {app app1 : BulletinBoardApp}
    (hreach : Reachable lib app) (h : StepInRange lib app app1)
    (hle : app.nextAdvertId_ ≤ 2147483647) : app1.nextAdvertId_ ≤ 2147483647 := by
  cases h with
  | register request response =>
    have : (handleRegister lib app request response).1.nextAdvertId_ = app.nextAdvertId_ := by
      unfold handleRegister
      dsimp only
      split <;> [skip; split] <;> rfl
    rw [this]; exact hle
  | login request response draws result hres =>
    have : result.1.nextAdvertId_ = app.nextAdvertId_ := by
      unfold handleLogin at hres
      simp only at hres
      split at hres
      · simp at hres; subst hres; rfl
      · split at hres
        · simp at hres; subst hres; rfl
        · split at hres
          · simp at hres
          · split at hres <;> (simp at hres; subst hres; rfl)
    rw [this]; exact hle
  | logout request response =>
    have : (handleLogout app request response).1.nextAdvertId_ = app.nextAdvertId_ := by
      unfold handleLogout
      dsimp only
      split <;> [split; skip] <;> rfl
    rw [this]; exact hle
  | createAd request response now hlt =>
    have hge := hreach.counter_ge
    rw [handleCreateAdInt32_eq lib app request response now (by omega) hlt]
    rcases handleCreateAd_effect lib app request response now with h | ⟨ad, h, _⟩
    · rw [h]; exact hle
    · rw [h]
      dsimp only
      omega
  | deleteAd request response advertId =>
    have : (handleDeleteAd app request response advertId).1.nextAdvertId_
        = app.nextAdvertId_ := by
      unfold handleDeleteAd
      split
      · rfl
      · split
        · rfl
        · split <;> rfl
    rw [this]; exact hle
  | respondToAd request response advertId =>
    have : (handleRespondToAd app request response advertId).1.nextAdvertId_
        = app.nextAdvertId_ := by
      unfold handleRespondToAd
      split
      · rfl
      · split
        · rfl
        · split
          · rfl
          · dsimp only
            split <;> rfl
    rw [this]; exact hle

theorem StepsInRange.counter_bound {lib : StdLib} {app app1 : BulletinBoardApp}
    (hreach : Reachable lib app) (h : Relation.ReflTransGen (StepInRange lib) app app1)
    (hle : app.nextAdvertId_ ≤ 2147483647) : app1.nextAdvertId_ ≤ 2147483647 := by
  induction h with
  | refl => exact hle
  | tail hsteps hstep ih =>
    exact StepInRange.counter_le (StepsInRange.toSteps hreach hsteps).2 hstep ih

theorem aliceStore_inRange :
    Relation.ReflTransGen (StepInRange sampleLib) (BulletinBoardApp.init sampleLib 0 0 0)
      aliceStore := by
  have h : (handleLogin sampleLib (BulletinBoardApp.init sampleLib 0 0 0) aliceLogin {}
      sampleDraws).map Prod.fst = some aliceStore := by
    decide
  cases hl : handleLogin sampleLib (BulletinBoardApp.init sampleLib 0 0 0) aliceLogin {}
      sampleDraws with
  | none => rw [hl] at h; simp at h
  | some result =>
    rw [hl] at h
    simp only [Option.map_some', Option.some.injEq] at h
    rw [← h]
    exact Relation.ReflTransGen.single (StepInRange.login _ _ _ _ _ hl)

/-- Creating an advert and deleting it again, over and over: every counter value up to
`INT_MAX` is reached without an overflow. -/
theorem cycledStore_inRange (n : Nat) (hn : 4 + (n : Int) ≤ 2147483647) :
    Relation.ReflTransGen (StepInRange sampleLib) aliceStore (cycledStore n) := by
  induction n with
  | zero => exact Relation.ReflTransGen.refl
  | succ n ih =>
    have hlt : (cycledStore n).nextAdvertId_ < 2147483647 := by
      show 4 + (n : Int) < 2147483647
      push_cast at hn
      omega
    have hge : (-2147483648 : Int) ≤ (cycledStore n).nextAdvertId_ + 1 := by
      show (-2147483648 : Int) ≤ 4 + (n : Int) + 1
      omega
    have hprev := ih (le_of_lt hlt)
    have hcreate := @StepInRange.createAd sampleLib (cycledStore n) (aliceCreate []) {} 0 hlt
    rw [handleCreateAdInt32_eq sampleLib (cycledStore n) (aliceCreate []) {} 0 hge hlt]
      at hcreate
    have hdelete := @StepInRange.deleteAd sampleLib
      (handleCreateAd sampleLib (cycledStore n) (aliceCreate []) {} 0).1 (aliceCreate []) {}
      (4 + (n : Int))
    rw [cycledStore_succ n (cycledStore_reachable n).wellFormed] at hdelete
    exact Relation.ReflTransGen.tail (Relation.ReflTransGen.tail hprev hcreate) hdelete

theorem overflowStore_inRange :
    Relation.ReflTransGen (StepInRange sampleLib) (BulletinBoardApp.init sampleLib 0 0 0)
      overflowStore :=
  Relation.ReflTransGen.trans aliceStore_inRange (cycledStore_inRange 2147483643 (by decide))

/-- C14, counterexample. The counter `nextAdvertId_` is a 32-bit `int`.  The store `overflowStore`
is reached from the seeded store without any overflow (Alice logs in, then creates an advert
and deletes it again 2147483643 times) and has the counter at `INT_MAX`.  The next create
request (answer 200) stores an advert with id 2147483647 and its increment overflows: the
counter becomes -2147483648, so the counter has decreased and the stored id is not below it;
one more create request (answer 200) stores an advert with id -2147483648, after and below the
advert with id 2147483647. -/
theorem advertId_counter_overflow :
    Relation.ReflTransGen (StepInRange sampleLib) (BulletinBoardApp.init sampleLib 0 0 0)
      overflowStore ∧
    overflowStore.nextAdvertId_ = 2147483647 ∧
    (handleCreateAdInt32 sampleLib overflowStore (aliceCreate []) {} 0).2.status = 200 ∧
    (handleCreateAdInt32 sampleLib overflowStore (aliceCreate []) {} 0).1.nextAdvertId_
      = -2147483648 ∧
    (handleCreateAdInt32 sampleLib
      (handleCreateAdInt32 sampleLib overflowStore (aliceCreate []) {} 0).1
      (aliceCreate []) {} 0).2.status = 200 ∧
    (handleCreateAdInt32 sampleLib
      (handleCreateAdInt32 sampleLib overflowStore (aliceCreate []) {} 0).1
      (aliceCreate []) {} 0).1.adverts_.map (fun ad => ad.id)
      = [1, 2, 3, 2147483647, -2147483648] :=
  ⟨overflowStore_inRange, rfl, by decide, by decide, by decide, by decide⟩

/-- C14, amended. In every store reached from the seeded store by a series of requests in which
no increment of the 32-bit counter `nextAdvertId_` overflows, the advert ids are strictly
increasing in list order, hence pairwise distinct, all below the counter, and the counter is
at most `INT_MAX`.  Along any further such run the counter never decreases and every advert
that was not already stored has an id at or above the earlier counter; a create request
answered 200 while the counter is below `INT_MAX` appends one advert with the id of the
counter, above the id of every advert stored at any earlier time and of every advert stored
now, and advances the counter by one: no id is used twice. -/
theorem advertIds_invariant (lib : StdLib) (t1 t2 t3 : Int) (app : BulletinBoardApp)
    (hrun : Relation.ReflTransGen (StepInRange lib) (BulletinBoardApp.init lib t1 t2 t3) app) :
    app.adverts_.Pairwise (fun a b => a.id < b.id) ∧
    (app.adverts_.map (fun ad => ad.id)).Nodup ∧
    (∀ ad ∈ app.adverts_, ad.id < app.nextAdvertId_) ∧
    app.nextAdvertId_ ≤ 2147483647 ∧
    ∀ later : BulletinBoardApp, Relation.ReflTransGen (StepInRange lib) app later →
      app.nextAdvertId_ ≤ later.nextAdvertId_ ∧
      (∀ ad ∈ later.adverts_, ad ∈ app.adverts_ ∨ app.nextAdvertId_ ≤ ad.id) ∧
      ∀ (request : HttpRequest) (now : Int),
        later.nextAdvertId_ < 2147483647 →
        (handleCreateAdInt32 lib later request {} now).2.status = 200 →
        ∃ created : Advertisement,
          (handleCreateAdInt32 lib later request {} now).1.adverts_ =
            later.adverts_ ++ [created] ∧
          (handleCreateAdInt32 lib later request {} now).1.nextAdvertId_ =
            later.nextAdvertId_ + 1 ∧
          created.id = later.nextAdvertId_ ∧
          (∀ old ∈ app.adverts_, old.id < created.id) ∧
          (∀ cur ∈ later.adverts_, cur.id < created.id) := by
  have hinit : Reachable lib (BulletinBoardApp.init lib t1 t2 t3) := Reachable.init t1 t2 t3
  have hreach := (StepsInRange.toSteps hinit hrun).2
  have wf := hreach.wellFormed
  refine ⟨wf.advertIds, ?_, wf.advertIdsBelow,
    StepsInRange.counter_bound hinit hrun (by simp [BulletinBoardApp.init]),
    fun later hlater => ?_⟩
  · unfold List.Nodup
    rw [List.pairwise_map]
    exact wf.advertIds.imp (fun h => ne_of_lt h)
  · obtain ⟨hsteps, hreach2⟩ := StepsInRange.toSteps hreach hlater
    have hmono := Steps.adverts_mono hsteps
    have wf2 := hreach2.wellFormed
    refine ⟨hmono.1, hmono.2, fun request now hlt hstatus => ?_⟩
    have hge := hreach2.counter_ge
    rw [handleCreateAdInt32_eq lib later request {} now (by omega) hlt] at hstatus ⊢
    obtain ⟨created, hstore, hid⟩ := handleCreateAd_status lib later request now hstatus
    refine ⟨created, by rw [hstore], by rw [hstore], hid, fun old hold => ?_, fun cur hcur => ?_⟩
    · have := wf.advertIdsBelow old hold
      omega
    · have := wf2.advertIdsBelow cur hcur
      omega

theorem advertIds_invariant_witness :
    Relation.ReflTransGen (StepInRange sampleLib) (BulletinBoardApp.init sampleLib 0 0 0)
      aliceStore ∧
    Relation.ReflTransGen (StepInRange sampleLib) aliceStore afterDelete ∧
    afterDelete.nextAdvertId_ < 2147483647 ∧
    afterDelete.adverts_.map (fun ad => ad.id) = [1, 2] ∧
    ∃ created : Advertisement,
      (handleCreateAdInt32 sampleLib afterDelete (aliceCreate []) {} 0).1.adverts_ =
        afterDelete.adverts_ ++ [created] ∧
      (handleCreateAdInt32 sampleLib afterDelete (aliceCreate []) {} 0).1.nextAdvertId_ =
        afterDelete.nextAdvertId_ + 1 ∧
      created.id = afterDelete.nextAdvertId_ ∧
      (∀ old ∈ aliceStore.adverts_, old.id < created.id) ∧
      (∀ cur ∈ afterDelete.adverts_, cur.id < created.id) :=
  have hsteps : Relation.ReflTransGen (StepInRange sampleLib) aliceStore afterDelete :=
    Relation.ReflTransGen.single (StepInRange.deleteAd aliceStore aliceRequest {} 3)
  ⟨aliceStore_inRange, hsteps, by decide, by decide,
    ((advertIds_invariant sampleLib 0 0 0 aliceStore aliceStore_inRange).2.2.2.2
      afterDelete hsteps).2.2 (aliceCreate []) 0 (by decide) (by decide)⟩

theorem negativePriceStore_reachable : Reachable sampleLib negativePriceStore :=
  Reachable.createAd (aliceCreate "-5".toList) {} 0 aliceStore_reachable

/-- C15, counterexample. With a `stod` that reads `-5` as `-5.0`, the create request of an
authenticated user with the price parameter `-5` leads to a reachable store holding an advert
with a negative price. -/
theorem negativePrice_stored :
    Reachable sampleLib negativePriceStore ∧
    (aliceCreate "-5".toList).getParam "price".toList = "-5".toList ∧
    ∃ ad ∈ negativePriceStore.adverts_, ad.price.isNegative = true :=
  ⟨negativePriceStore_reachable, by decide,
    ⟨{ id := 4, ownerId := 2, title := "Desk".toList, description := "Oak desk".toList,
       price := ⟨0xC014000000000000⟩, createdAt := 0 }, by decide, by decide⟩⟩

theorem handleCreateAd_origin (lib : StdLib) (app : BulletinBoardApp) (request : HttpRequest)
    (response : HttpResponse) (now : Int) :
    (handleCreateAd lib app request response now).1 = app ∨
    ∃ ad : Advertisement,
      (handleCreateAd lib app request response now).1.adverts_ = app.adverts_ ++ [ad] ∧
      priceOfRequest lib request ad.price := by
  unfold handleCreateAd
  split
  · exact Or.inl rfl
  · dsimp only
    split
    · exact Or.inl rfl
    · split
      · exact Or.inl rfl
      · rename_i price hprice
        refine Or.inr ⟨_, rfl, ?_⟩
        dsimp only
        split at hprice
        · rename_i he
          simp only [Option.some.injEq] at hprice
          exact Or.inl ⟨List.isEmpty_iff.mp he, hprice.symm⟩
        · rename_i hne
          exact Or.inr ⟨fun he => hne (List.isEmpty_iff.mpr he), hprice⟩

/-- Where the adverts of the store after one step come from. -/
theorem Step.adverts_origin {lib : StdLib} {app app1 : BulletinBoardApp}
    (h : Step lib app app1) :
    ∀ ad ∈ app1.adverts_, ad ∈ app.adverts_ ∨
      ∃ (request : HttpRequest) (response : HttpResponse) (now : Int),
        (handleCreateAd lib app request response now).1.adverts_ = app.adverts_ ++ [ad] ∧
        priceOfRequest lib request ad.price := by
  cases h with
  | register request response =>
    have : (handleRegister lib app request response).1.adverts_ = app.adverts_ := by
      unfold handleRegister
      dsimp only
      split <;> [skip; split] <;> rfl
    rw [this]
    exact fun ad had => Or.inl had
  | login request response draws result hres =>
    have : result.1.adverts_ = app.adverts_ := by
      unfold handleLogin at hres
      simp only at hres
      split at hres
      · simp at hres; subst hres; rfl
      · split at hres
        · simp at hres; subst hres; rfl
        · split at hres
          · simp at hres
          · split at hres <;> (simp at hres; subst hres; rfl)
    rw [this]
    exact fun ad had => Or.inl had
  | logout request response =>
    have : (handleLogout app request response).1.adverts_ = app.adverts_ := by
      unfold handleLogout
      dsimp only
      split <;> [split; skip] <;> rfl
    rw [this]
    exact fun ad had => Or.inl had
  | createAd request response now =>
    rcases handleCreateAd_origin lib app request response now with h | ⟨ad, h, hprice⟩
    · rw [h]
      exact fun ad had => Or.inl had
    · intro b hb
      rw [h] at hb
      rcases List.mem_append.mp hb with hb | hb
      · exact Or.inl hb
      · simp only [List.mem_singleton] at hb
        subst hb
        exact Or.inr ⟨request, response, now, h, hprice⟩
  | deleteAd request response advertId =>
    have : List.Sublist (handleDeleteAd app request response advertId).1.adverts_
        app.adverts_ := by
      unfold handleDeleteAd
      split
      · exact List.Sublist.refl _
      · split
        · exact List.Sublist.refl _
        · split
          · exact List.Sublist.refl _
          · exact List.eraseP_sublist _
    exact fun ad had => Or.inl (this.subset had)
  | respondToAd request response advertId =>
    have : (handleRespondToAd app request response advertId).1.adverts_ = app.adverts_ := by
      unfold handleRespondToAd
      split
      · rfl
      · split
        · rfl
        · split
          · rfl
          · dsimp only
            split <;> rfl
    rw [this]
    exact fun ad had => Or.inl had

/-- The origin of the adverts of a reachable store. -/
theorem Reachable.prices_origin {lib : StdLib} {app : BulletinBoardApp}
    (hreach : Reachable lib app) :
    ∀ ad ∈ app.adverts_, ad.price ∈ seededPrices ∨
      ∃ (earlier : BulletinBoardApp) (request : HttpRequest) (response : HttpResponse)
        (now : Int),
        Reachable lib earlier ∧
        (handleCreateAd lib earlier request response now).1.adverts_ =
          earlier.adverts_ ++ [ad] ∧
        priceOfRequest lib request ad.price := by
  have key : ∀ {a b : BulletinBoardApp}, Reachable lib a → Step lib a b →
      (∀ ad ∈ a.adverts_, ad.price ∈ seededPrices ∨
        ∃ (earlier : BulletinBoardApp) (request : HttpRequest) (response : HttpResponse)
          (now : Int),
          Reachable lib earlier ∧
          (handleCreateAd lib earlier request response now).1.adverts_ =
            earlier.adverts_ ++ [ad] ∧
          priceOfRequest lib request ad.price) →
      ∀ ad ∈ b.adverts_, ad.price ∈ seededPrices ∨
        ∃ (earlier : BulletinBoardApp) (request : HttpRequest) (response : HttpResponse)
          (now : Int),
          Reachable lib earlier ∧
          (handleCreateAd lib earlier request response now).1.adverts_ =
            earlier.adverts_ ++ [ad] ∧
          priceOfRequest lib request ad.price := by
    intro a b ha hstep ih ad had
    rcases Step.adverts_origin hstep ad had with h | ⟨request, response, now, h, hprice⟩
    · exact ih ad h
    · exact Or.inr ⟨a, request, response, now, ha, h, hprice⟩
  induction hreach with
  | init t1 t2 t3 =>
    intro ad had
    simp [BulletinBoardApp.init] at had
    rcases had with h | h | h <;> subst h <;> simp [seededPrices]
  | register request response hr ih => exact key hr (Step.register _ request response) ih
  | login request response draws result hr hres ih =>
    exact key hr (Step.login _ request response draws result hres) ih
  | logout request response hr ih => exact key hr (Step.logout _ request response) ih
  | createAd request response now hr ih => exact key hr (Step.createAd _ request response now) ih
  | deleteAd request response advertId hr ih =>
    exact key hr (Step.deleteAd _ request response advertId) ih
  | respondToAd request response advertId hr ih =>
    exact key hr (Step.respondToAd _ request response advertId) ih

/-- C15, amended. In every reachable store the price of every stored advert is one of the three
seeded prices, or the advert was appended by a run of `handleCreateAd` on a reachable store and
its price is what that very request asked for: `0.0` when the price parameter of the request is
empty or absent, otherwise the value `std::stod` returned for the price parameter of the
request, whatever its sign.  There is no sign check: every create request of an authenticated
user with non-empty title and description whose price parameter `std::stod` reads as `d` is
answered 200 and appends an advert with price `d`, so a price parameter denoting a negative
number is stored as a negative price. -/
theorem prices_provenance (lib : StdLib) (app : BulletinBoardApp) (hreach : Reachable lib app) :
    (∀ ad ∈ app.adverts_, ad.price ∈ seededPrices ∨
      ∃ (earlier : BulletinBoardApp) (request : HttpRequest) (response : HttpResponse)
        (now : Int),
        Reachable lib earlier ∧
        (handleCreateAd lib earlier request response now).1.adverts_ =
          earlier.adverts_ ++ [ad] ∧
        ((request.getParam "price".toList = [] ∧ ad.price = ⟨0⟩) ∨
         (request.getParam "price".toList ≠ [] ∧
           lib.stod (request.getParam "price".toList) = some ad.price))) ∧
    (∀ (request : HttpRequest) (u now : Int) (d : Double),
      authenticate app request = some u →
      request.getParam "title".toList ≠ [] → request.getParam "description".toList ≠ [] →
      request.getParam "price".toList ≠ [] →
      lib.stod (request.getParam "price".toList) = some d →
      handleCreateAd lib app request {} now =
        ({ app with
             nextAdvertId_ := app.nextAdvertId_ + 1,
             adverts_ := app.adverts_ ++
               [{ id := app.nextAdvertId_, ownerId := u,
                  title := request.getParam "title".toList,
                  description := request.getParam "description".toList,
                  price := d, createdAt := now }] },
         { status := 200, body := "\x7b\"success\":true\x7d".toList }) ∧
      Reachable lib (handleCreateAd lib app request {} now).1 ∧
      (d.isNegative = true →
        ∃ ad ∈ (handleCreateAd lib app request {} now).1.adverts_,
          ad.price = d ∧ ad.price.isNegative = true)) := by
  refine ⟨hreach.prices_origin, fun request u now d hauth ht hd hp hs => ?_⟩
  have hok := handleCreateAd_ok lib {} now hauth ht hd
    (show (if request.getParam "price".toList = [] then some ⟨0⟩
            else lib.stod (request.getParam "price".toList)) = some d by rw [if_neg hp]; exact hs)
  refine ⟨hok, Reachable.createAd request {} now hreach, fun hneg => ?_⟩
  rw [hok]
  exact ⟨_, List.mem_append_right _ (List.mem_singleton_self _), rfl, hneg⟩

theorem prices_provenance_witness :
    Reachable sampleLib aliceStore ∧
    authenticate aliceStore (aliceCreate "-5".toList) = some 2 ∧
    sampleLib.stod ((aliceCreate "-5".toList).getParam "price".toList)
      = some ⟨0xC014000000000000⟩ ∧
    ∃ ad ∈ (handleCreateAd sampleLib aliceStore (aliceCreate "-5".toList) {} 0).1.adverts_,
      ad.price = ⟨0xC014000000000000⟩ ∧ ad.price.isNegative = true :=
  ⟨aliceStore_reachable, by decide, by decide,
    ((prices_provenance sampleLib aliceStore aliceStore_reachable).2 (aliceCreate "-5".toList)
      2 0 ⟨0xC014000000000000⟩ (by decide) (by decide) (by decide) (by decide)
      (by decide)).2.2 (by decide)⟩


/-! ## Routing: which requests reach which handler -/

theorem startsWith_eq {s start : Str} (h : startsWith s start = true) :
    s = start ++ s.drop start.length := by
  unfold startsWith at h
  simp only [decide_eq_true_eq] at h
  conv_lhs => rw [← List.take_append_drop start.length s, h]

theorem startsWith_append (start rest : Str) : startsWith (start ++ rest) start = true := by
  simp [startsWith]

theorem findChar_some {s : Str} {c : Char} {i : Nat} (h : findChar s c = some i) :
    s = s.take i ++ c :: s.drop (i + 1) ∧ c ∉ s.take i := by
  induction s generalizing i with
  | nil => simp [findChar] at h
  | cons x xs ih =>
    unfold findChar at h
    split at h
    · rename_i hx
      simp at h
      subst h
      simp [hx]
    · rename_i hx
      cases hf : findChar xs c with
      | none => rw [hf] at h; simp at h
      | some j =>
        rw [hf] at h
        simp at h
        subst h
        obtain ⟨h1, h2⟩ := ih hf
        refine ⟨by simp only [List.take_succ_cons, List.drop_succ_cons, List.cons_append]; rw [← h1], ?_⟩
        simp only [List.take_succ_cons, List.mem_cons, not_or]
        exact ⟨fun h => hx h.symm, h2⟩

theorem findChar_append_of_not_mem {a : Str} {c : Char} (rest : Str) (h : c ∉ a) :
    findChar (a ++ c :: rest) c = some a.length := by
  induction a with
  | nil => simp [findChar]
  | cons x xs ih =>
    have hx : x ≠ c := fun e => h (by simp [e])
    have := ih (fun hm => h (List.mem_cons_of_mem _ hm))
    simp [findChar, hx, this]

theorem idOfDelete_some {path id : Str} (hstart : startsWith path "/api/ads/".toList = true)
    (h : idOfDelete path = some id) :
    id ≠ [] ∧ id.all isdigit = true ∧ path = "/api/ads/".toList ++ id := by
  unfold idOfDelete at h
  dsimp only at h
  split at h
  · rename_i hc
    simp only [Option.some.injEq] at h
    subst h
    exact ⟨hc.1, hc.2, startsWith_eq hstart⟩
  · simp at h

theorem idOfAction_some {path action id : Str}
    (hstart : startsWith path "/api/ads/".toList = true)
    (h : idOfAction path action = some id) :
    id ≠ [] ∧ id.all isdigit = true ∧ path = "/api/ads/".toList ++ id ++ '/' :: action := by
  unfold idOfAction idAndAction at h
  dsimp only at h
  cases hf : findChar (List.drop "/api/ads/".toList.length path) '/' with
  | none => rw [hf] at h; simp at h
  | some slash =>
    rw [hf] at h
    dsimp only at h
    split at h
    · rename_i hc
      simp only [Option.some.injEq] at h
      subst h
      refine ⟨hc.1, hc.2.1, ?_⟩
      have h1 := (findChar_some hf).1
      have h2 := startsWith_eq hstart
      rw [← hc.2.2]
      simp only [substr, List.drop_zero, List.append_assoc]
      rw [← h1]
      exact h2
    · simp at h

theorem isdigit_ne_slash {c : Char} (h : isdigit c = true) : c ≠ '/' := by
  rintro rfl
  revert h
  decide

theorem slash_not_mem_digits {id : Str} (h : id.all isdigit = true) : '/' ∉ id := by
  intro hm
  exact isdigit_ne_slash (List.all_eq_true.mp h _ hm) rfl

theorem idOfDelete_digits {id : Str} (hne : id ≠ []) (hdig : id.all isdigit = true) :
    idOfDelete ("/api/ads/".toList ++ id) = some id := by
  unfold idOfDelete
  simp only [List.drop_left, hne, ne_eq, not_false_eq_true, hdig, and_self, if_true]

theorem idOfAction_digits {id : Str} (action : Str) (hne : id ≠ [])
    (hdig : id.all isdigit = true) :
    idOfAction ("/api/ads/".toList ++ id ++ '/' :: action) action = some id := by
  unfold idOfAction idAndAction
  simp only [List.append_assoc, List.drop_left,
    findChar_append_of_not_mem action (slash_not_mem_digits hdig), substr, List.drop_zero,
    List.take_left, List.drop_left', hne, ne_eq, not_false_eq_true, hdig, and_self, if_true]
  have : List.drop (id.length + 1) (id ++ '/' :: action) = action := by
    have : id ++ '/' :: action = (id ++ ['/']) ++ action := by simp
    rw [this, List.drop_left' (by simp)]
  simp [this]


theorem handleApi_unmatched (lib : StdLib) (app : BulletinBoardApp) (request : HttpRequest)
    (response : HttpResponse) (draws : Nat → Fin 16) (now : Int)
    (h : ¬ inRouteTable request.method request.path) :
    handleApi lib app request response draws now = .ok (false, app, response) := by
  unfold inRouteTable at h
  simp only [not_or] at h
  obtain ⟨h1, h2, h3, h4, h5, h6, h7, h8, h9, h10⟩ := h
  unfold handleApi
  rw [if_neg h1, if_neg h2, if_neg h3, if_neg h4, if_neg h5, if_neg h10, if_neg h6]
  have hd : (if request.method = "DELETE".toList ∧
      startsWith request.path "/api/ads/".toList = true
      then idOfDelete request.path else none) = none := by
    split
    · rename_i hc
      cases hid : idOfDelete request.path with
      | none => rfl
      | some id =>
        obtain ⟨a, b, c⟩ := idOfDelete_some hc.2 hid
        exact absurd ⟨hc.1, id, a, b, c⟩ h7
    · rfl
  have hp : (if request.method = "POST".toList ∧
      startsWith request.path "/api/ads/".toList = true
      then idOfAction request.path "respond".toList else none) = none := by
    split
    · rename_i hc
      cases hid : idOfAction request.path "respond".toList with
      | none => rfl
      | some id =>
        obtain ⟨a, b, c⟩ := idOfAction_some hc.2 hid
        exact absurd ⟨hc.1, id, a, b, c⟩ h8
    · rfl
  have hg : (if request.method = "GET".toList ∧
      startsWith request.path "/api/ads/".toList = true
      then idOfAction request.path "responders".toList else none) = none := by
    split
    · rename_i hc
      cases hid : idOfAction request.path "responders".toList with
      | none => rfl
      | some id =>
        obtain ⟨a, b, c⟩ := idOfAction_some hc.2 hid
        exact absurd ⟨hc.1, id, a, b, c⟩ h9
    · rfl
  rw [hd, hp, hg]

theorem handleApi_delete (lib : StdLib) (app : BulletinBoardApp) {request : HttpRequest}
    (response : HttpResponse) (draws : Nat → Fin 16) (now : Int) {id : Str}
    (hmethod : request.method = "DELETE".toList) (hne : id ≠ [])
    (hdig : id.all isdigit = true) (hpath : request.path = "/api/ads/".toList ++ id) :
    handleApi lib app request response draws now =
      match stoi id with
      | .error e => .error e
      | .ok advertId => .ok (true, handleDeleteAd app request response advertId) := by
  have hp : ¬ request.method = "POST".toList := by rw [hmethod]; decide
  have hg : ¬ request.method = "GET".toList := by rw [hmethod]; decide
  have hstart : startsWith request.path "/api/ads/".toList = true := by
    rw [hpath]; exact startsWith_append _ _
  have hid : idOfDelete request.path = some id := by
    rw [hpath]; exact idOfDelete_digits hne hdig
  unfold handleApi
  simp only [hp, hg, false_and, if_false, eq_self_iff_true, hstart, and_self, if_true, hid,
    eq_true hmethod, true_and]

theorem digits_ne_my {id rest : Str} (hne : id ≠ []) (hdig : id.all isdigit = true) :
    "/api/ads/".toList ++ id ++ rest ≠ "/api/ads/my-responses".toList := by
  cases id with
  | nil => exact absurd rfl hne
  | cons d ds =>
    intro h
    have hd : isdigit d = true := List.all_eq_true.mp hdig d (List.mem_cons_self _ _)
    have : d = 'm' := by
      have h2 := congrArg (fun l => l.drop 9) h
      simp at h2
      exact h2.1
    rw [this] at hd
    revert hd
    decide

theorem handleApi_respond (lib : StdLib) (app : BulletinBoardApp) {request : HttpRequest}
    (response : HttpResponse) (draws : Nat → Fin 16) (now : Int) {id : Str}
    (hmethod : request.method = "POST".toList) (hne : id ≠ [])
    (hdig : id.all isdigit = true)
    (hpath : request.path = "/api/ads/".toList ++ id ++ "/respond".toList) :
    handleApi lib app request response draws now =
      match stoi id with
      | .error e => .error e
      | .ok advertId => .ok (true, handleRespondToAd app request response advertId) := by
  have hd : ¬ request.method = "DELETE".toList := by rw [hmethod]; decide
  have hg : ¬ request.method = "GET".toList := by rw [hmethod]; decide
  have h1 : ¬ request.path = "/api/register".toList := by rw [hpath]; simp
  have h2 : ¬ request.path = "/api/login".toList := by rw [hpath]; simp
  have h3 : ¬ request.path = "/api/logout".toList := by rw [hpath]; simp
  have h4 : ¬ request.path = "/api/ads".toList := by rw [hpath]; simp
  have hid : idOfAction request.path "respond".toList = some id := by
    rw [hpath]; exact idOfAction_digits "respond".toList hne hdig
  have hstart : startsWith request.path "/api/ads/".toList = true := by
    rw [hpath, List.append_assoc]; exact startsWith_append _ _
  unfold handleApi
  simp only [hd, hg, h1, h2, h3, h4, false_and, and_false, if_false, eq_true hmethod, hstart,
    and_self, if_true, hid, true_and]

theorem handleApi_responders (lib : StdLib) (app : BulletinBoardApp) {request : HttpRequest}
    (response : HttpResponse) (draws : Nat → Fin 16) (now : Int) {id : Str}
    (hmethod : request.method = "GET".toList) (hne : id ≠ [])
    (hdig : id.all isdigit = true)
    (hpath : request.path = "/api/ads/".toList ++ id ++ "/responders".toList) :
    handleApi lib app request response draws now =
      match stoi id with
      | .error e => .error e
      | .ok advertId => .ok (true, handleAdResponders app request response advertId) := by
  have hd : ¬ request.method = "DELETE".toList := by rw [hmethod]; decide
  have hg : ¬ request.method = "POST".toList := by rw [hmethod]; decide
  have h1 : ¬ request.path = "/api/session".toList := by rw [hpath]; simp
  have h4 : ¬ request.path = "/api/ads".toList := by rw [hpath]; simp
  have h5 : ¬ request.path = "/api/ads/my-responses".toList := by
    rw [hpath]; exact digits_ne_my hne hdig
  have hid : idOfAction request.path "responders".toList = some id := by
    rw [hpath]; exact idOfAction_digits "responders".toList hne hdig
  have hstart : startsWith request.path "/api/ads/".toList = true := by
    rw [hpath, List.append_assoc]; exact startsWith_append _ _
  unfold handleApi
  simp only [hd, hg, h1, h4, h5, false_and, and_false, if_false, eq_true hmethod, hstart,
    and_self, if_true, hid, true_and]

theorem handleApi_createAd (lib : StdLib) (app : BulletinBoardApp) {request : HttpRequest}
    (response : HttpResponse) (draws : Nat → Fin 16) (now : Int)
    (hmethod : request.method = "POST".toList) (hpath : request.path = "/api/ads".toList) :
    handleApi lib app request response draws now =
      .ok (true, handleCreateAd lib app request response now) := by
  have hg : ¬ request.method = "GET".toList := by rw [hmethod]; decide
  have h1 : ¬ request.path = "/api/register".toList := by rw [hpath]; decide
  have h2 : ¬ request.path = "/api/login".toList := by rw [hpath]; decide
  have h3 : ¬ request.path = "/api/logout".toList := by rw [hpath]; decide
  unfold handleApi
  simp only [hg, h1, h2, h3, false_and, and_false, if_false, eq_true hmethod, eq_true hpath,
    and_self, if_true]

theorem handleApi_myResponses (lib : StdLib) (app : BulletinBoardApp) {request : HttpRequest}
    (response : HttpResponse) (draws : Nat → Fin 16) (now : Int)
    (hmethod : request.method = "GET".toList)
    (hpath : request.path = "/api/ads/my-responses".toList) :
    handleApi lib app request response draws now =
      definedOr (handleMyResponses lib app request response) := by
  have hp : ¬ request.method = "POST".toList := by rw [hmethod]; decide
  have h1 : ¬ request.path = "/api/session".toList := by rw [hpath]; decide
  have h2 : ¬ request.path = "/api/ads".toList := by rw [hpath]; decide
  unfold handleApi
  simp only [hp, h1, h2, false_and, and_false, if_false, eq_true hmethod, eq_true hpath,
    and_self, if_true]


/-! ## C17: unknown API routes -/

/-- C17. For every store, method and path that starts with `/api/` and matches none of the ten
rows of the route table, `routeRequest` answers 404 with the body `Endpoint not found`, the
JSON content type and no extra header, and returns the store unchanged. -/
theorem unknown_api_route (lib : StdLib)
    (serveStatic : Str → HttpResponse → Bool × HttpResponse) (app : BulletinBoardApp)
    (request : HttpRequest) (draws : Nat → Fin 16) (now : Int)
    (hapi : ∃ rest : Str, request.path = "/api/".toList ++ rest)
    (hrow : ¬ inRouteTable request.method request.path) :
    routeRequest lib serveStatic app request {} draws now =
      .ok (app, { status := 404,
                  contentType := "application/json; charset=utf-8".toList,
                  body := "\x7b\"error\":\"Endpoint not found\"\x7d".toList,
                  headers := [] }) := by
  obtain ⟨rest, hrest⟩ := hapi
  have hstart : startsWith request.path "/api/".toList = true := by
    rw [hrest]; exact startsWith_append _ _
  unfold routeRequest
  rw [if_pos hstart, handleApi_unmatched lib app request {} draws now hrow]


theorem unknown_api_route_witness :
    (∃ rest : Str, (anonymousCall "PUT".toList "/api/ads/7".toList).path = "/api/".toList ++ rest) ∧
    ¬ inRouteTable "PUT".toList "/api/ads/7".toList ∧
    routeRequest sampleLib noFiles aliceStore (anonymousCall "PUT".toList "/api/ads/7".toList) {}
        sampleDraws 0 =
      .ok (aliceStore, { status := 404,
                         body := "\x7b\"error\":\"Endpoint not found\"\x7d".toList }) :=
  have hrest : ∃ rest : Str,
      (anonymousCall "PUT".toList "/api/ads/7".toList).path = "/api/".toList ++ rest :=
    ⟨"ads/7".toList, by decide⟩
  have hrow : ¬ inRouteTable "PUT".toList "/api/ads/7".toList := by
    unfold inRouteTable
    simp
  ⟨hrest, hrow,
    unknown_api_route sampleLib noFiles aliceStore (anonymousCall "PUT".toList "/api/ads/7".toList)
      sampleDraws 0 hrest hrow⟩

/-! ## C12: the protected endpoints without authentication -/

theorem stoi_in_range {id : Str} (h : decimalValue id ≤ 2147483647) :
    stoi id = .ok (decimalValue id : Int) := by
  unfold stoi
  rw [if_pos h]

/-- C12. For every store and every request for which `authenticate` yields `none`, each of the
five protected handlers (create, delete, respond, responders, my responses) answers 401 with the
body `Authentication required` and returns the store unchanged, for every advert id and
whatever the parameters are.  So does `routeRequest` on `POST /api/ads`, on
`GET /api/ads/my-responses` and on the three `/api/ads/{id}...` routes for every digit string
`{id}` that denotes a number up to `INT_MAX` (the range in which `std::stoi` returns). -/
theorem unauthenticated_rejected (lib : StdLib)
    (serveStatic : Str → HttpResponse → Bool × HttpResponse) (app : BulletinBoardApp)
    (request : HttpRequest) (draws : Nat → Fin 16) (now : Int)
    (hauth : authenticate app request = none) :
    handleCreateAd lib app request {} now =
      (app, { status := 401,
              body := "\x7b\"error\":\"Authentication required\"\x7d".toList }) ∧
    (∀ advertId : Int, handleDeleteAd app request {} advertId =
      (app, { status := 401,
              body := "\x7b\"error\":\"Authentication required\"\x7d".toList })) ∧
    (∀ advertId : Int, handleRespondToAd app request {} advertId =
      (app, { status := 401,
              body := "\x7b\"error\":\"Authentication required\"\x7d".toList })) ∧
    (∀ advertId : Int, handleAdResponders app request {} advertId =
      (app, { status := 401,
              body := "\x7b\"error\":\"Authentication required\"\x7d".toList })) ∧
    handleMyResponses lib app request {} =
      some (app, { status := 401,
                   body := "\x7b\"error\":\"Authentication required\"\x7d".toList }) ∧
    (request.method = "POST".toList → request.path = "/api/ads".toList →
      routeRequest lib serveStatic app request {} draws now =
        .ok (app, { status := 401,
                    body := "\x7b\"error\":\"Authentication required\"\x7d".toList })) ∧
    (request.method = "GET".toList → request.path = "/api/ads/my-responses".toList →
      routeRequest lib serveStatic app request {} draws now =
        .ok (app, { status := 401,
                    body := "\x7b\"error\":\"Authentication required\"\x7d".toList })) ∧
    (∀ id : Str, id ≠ [] → id.all isdigit = true → decimalValue id ≤ 2147483647 →
      (request.method = "DELETE".toList → request.path = "/api/ads/".toList ++ id →
        routeRequest lib serveStatic app request {} draws now =
          .ok (app, { status := 401,
                      body := "\x7b\"error\":\"Authentication required\"\x7d".toList })) ∧
      (request.method = "POST".toList →
        request.path = "/api/ads/".toList ++ id ++ "/respond".toList →
        routeRequest lib serveStatic app request {} draws now =
          .ok (app, { status := 401,
                      body := "\x7b\"error\":\"Authentication required\"\x7d".toList })) ∧
      (request.method = "GET".toList →
        request.path = "/api/ads/".toList ++ id ++ "/responders".toList →
        routeRequest lib serveStatic app request {} draws now =
          .ok (app, { status := 401,
                      body := "\x7b\"error\":\"Authentication required\"\x7d".toList }))) := by
  have hcreate : handleCreateAd lib app request {} now =
      (app, { status := 401,
              body := "\x7b\"error\":\"Authentication required\"\x7d".toList }) := by
    unfold handleCreateAd; rw [hauth]
  have hdelete : ∀ advertId : Int, handleDeleteAd app request {} advertId =
      (app, { status := 401,
              body := "\x7b\"error\":\"Authentication required\"\x7d".toList }) := by
    intro advertId; unfold handleDeleteAd; rw [hauth]
  have hrespond : ∀ advertId : Int, handleRespondToAd app request {} advertId =
      (app, { status := 401,
              body := "\x7b\"error\":\"Authentication required\"\x7d".toList }) := by
    intro advertId; unfold handleRespondToAd; rw [hauth]
  have hresponders : ∀ advertId : Int, handleAdResponders app request {} advertId =
      (app, { status := 401,
              body := "\x7b\"error\":\"Authentication required\"\x7d".toList }) := by
    intro advertId; unfold handleAdResponders; rw [hauth]
  have hmine : handleMyResponses lib app request {} =
      some (app, { status := 401,
                   body := "\x7b\"error\":\"Authentication required\"\x7d".toList }) := by
    unfold handleMyResponses; rw [hauth]
  have hapi : ∀ rest : Str, request.path = "/api/".toList ++ rest →
      startsWith request.path "/api/".toList = true := by
    intro rest hrest; rw [hrest]; exact startsWith_append _ _
  refine ⟨hcreate, hdelete, hrespond, hresponders, hmine, fun hm hp => ?_, fun hm hp => ?_,
    fun id hne hdig hrange => ⟨fun hm hp => ?_, fun hm hp => ?_, fun hm hp => ?_⟩⟩
  · unfold routeRequest
    rw [if_pos (hapi "ads".toList hp), handleApi_createAd lib app {} draws now hm hp, hcreate]
  · unfold routeRequest
    rw [if_pos (hapi "ads/my-responses".toList hp),
      handleApi_myResponses lib app {} draws now hm hp, hmine]
    rfl
  · unfold routeRequest
    rw [if_pos (hapi ("ads/".toList ++ id) (by rw [hp]; rfl)),
      handleApi_delete lib app {} draws now hm hne hdig hp, stoi_in_range hrange]
    dsimp only
    rw [hdelete]
  · unfold routeRequest
    rw [if_pos (hapi ("ads/".toList ++ id ++ "/respond".toList) (by rw [hp]; rfl)),
      handleApi_respond lib app {} draws now hm hne hdig hp, stoi_in_range hrange]
    dsimp only
    rw [hrespond]
  · unfold routeRequest
    rw [if_pos (hapi ("ads/".toList ++ id ++ "/responders".toList) (by rw [hp]; rfl)),
      handleApi_responders lib app {} draws now hm hne hdig hp, stoi_in_range hrange]
    dsimp only
    rw [hresponders]

theorem unauthenticated_rejected_witness :
    authenticate aliceStore (anonymousCall "DELETE".toList "/api/ads/1".toList) = none ∧
    routeRequest sampleLib noFiles aliceStore (anonymousCall "DELETE".toList "/api/ads/1".toList)
        {} sampleDraws 0 =
      .ok (aliceStore, { status := 401,
                         body := "\x7b\"error\":\"Authentication required\"\x7d".toList }) :=
  ⟨by decide,
    ((unauthenticated_rejected sampleLib noFiles aliceStore
      (anonymousCall "DELETE".toList "/api/ads/1".toList) sampleDraws 0
      (by decide)).2.2.2.2.2.2.2 "1".toList (by decide) (by decide) (by decide)).1
      (by decide) (by decide)⟩

/-! ## C18: the id segment of a route -/

/-- C18, at the failing input.  With the ten-digit id `2147483648` (`INT_MAX + 1`) routing
`DELETE /api/ads/2147483648`, `POST /api/ads/2147483648/respond` and
`GET /api/ads/2147483648/responders` ends in the exception `std::out_of_range` of `std::stoi`
instead of a response, while the same routes with the id `2147483647` reach their handlers
with that number, and a non-digit id gets the 404 answer. -/
theorem route_id_overflow :
    routeRequest sampleLib noFiles aliceStore
        (aliceCall "DELETE".toList "/api/ads/2147483648".toList) {} sampleDraws 0 =
      .error .stoiOutOfRange ∧
    routeRequest sampleLib noFiles aliceStore
        (aliceCall "POST".toList "/api/ads/2147483648/respond".toList) {} sampleDraws 0 =
      .error .stoiOutOfRange ∧
    routeRequest sampleLib noFiles aliceStore
        (aliceCall "GET".toList "/api/ads/2147483648/responders".toList) {} sampleDraws 0 =
      .error .stoiOutOfRange ∧
    routeRequest sampleLib noFiles aliceStore
        (aliceCall "DELETE".toList "/api/ads/2147483647".toList) {} sampleDraws 0 =
      .ok (handleDeleteAd aliceStore (aliceCall "DELETE".toList "/api/ads/2147483647".toList) {}
            2147483647) ∧
    routeRequest sampleLib noFiles aliceStore
        (aliceCall "DELETE".toList "/api/ads/12a".toList) {} sampleDraws 0 =
      .ok (aliceStore, { status := 404,
                         body := "\x7b\"error\":\"Endpoint not found\"\x7d".toList }) := by
  refine ⟨by decide, by decide, by decide, by decide, by decide⟩

/-! ## C16: two concurrent create requests -/

/-- A thread that runs its four steps alone does what `handleCreateAd` does. -/
theorem createAdStep_sequential (lib : StdLib) (app : BulletinBoardApp) (request : HttpRequest)
    (now : Int) :
    (runThreads lib [false, false, false, false]
        (app, { request := request, now := now }, { request := request, now := now })).1 =
      (handleCreateAd lib app request {} now).1 ∧
    (runThreads lib [false, false, false, false]
        (app, { request := request, now := now }, { request := request, now := now })).2.1.response =
      (handleCreateAd lib app request {} now).2 := by
  unfold handleCreateAd
  simp only [runThreads]
  cases hauth : authenticate app request with
  | none =>
    simp only [createAdStep, hauth]
    exact ⟨trivial, trivial⟩
  | some userId =>
    by_cases hempty : ((request.getParam "title".toList).isEmpty ||
        (request.getParam "description".toList).isEmpty) = true
    · simp only [createAdStep, hauth, hempty, if_true]
      exact ⟨trivial, trivial⟩
    · cases hprice : (if (request.getParam "price".toList).isEmpty then some (⟨0⟩ : Double)
          else lib.stod (request.getParam "price".toList)) with
      | none =>
        simp only [createAdStep, hauth, hempty, if_false, hprice]
        exact ⟨rfl, rfl⟩
      | some price =>
        simp only [createAdStep, hauth, hempty, if_false, hprice]
        exact ⟨rfl, rfl⟩

/-- C16, at the failing input.  On the store where Alice and Demo are logged in, their two
create requests both answer 200; when both threads read `nextAdvertId_` before either writes it
back, both adverts are stored with the id 4 and the counter ends at 5, whereas one thread after
the other gives the ids 4 and 5 and the counter 6. -/
theorem concurrent_createAd_same_id :
    (runThreads sampleLib [false, true, false, true, false, true, false, true]
        (bothStore, { request := aliceCreate [], now := 0 },
          { request := demoCreate, now := 0 })).1.adverts_.map (fun ad => ad.id) =
      [1, 2, 3, 4, 4] ∧
    (runThreads sampleLib [false, true, false, true, false, true, false, true]
        (bothStore, { request := aliceCreate [], now := 0 },
          { request := demoCreate, now := 0 })).1.nextAdvertId_ = 5 ∧
    (runThreads sampleLib [false, true, false, true, false, true, false, true]
        (bothStore, { request := aliceCreate [], now := 0 },
          { request := demoCreate, now := 0 })).2.1.response.status = 200 ∧
    (runThreads sampleLib [false, true, false, true, false, true, false, true]
        (bothStore, { request := aliceCreate [], now := 0 },
          { request := demoCreate, now := 0 })).2.2.response.status = 200 ∧
    (runThreads sampleLib [false, false, false, false, true, true, true, true]
        (bothStore, { request := aliceCreate [], now := 0 },
          { request := demoCreate, now := 0 })).1.adverts_.map (fun ad => ad.id) =
      [1, 2, 3, 4, 5] ∧
    (runThreads sampleLib [false, false, false, false, true, true, true, true]
        (bothStore, { request := aliceCreate [], now := 0 },
          { request := demoCreate, now := 0 })).1.nextAdvertId_ = 6 := by
  refine ⟨by decide, by decide, by decide, by decide, by decide, by decide⟩

/-! ## C19: header lines -/

theorem UMap.find_emplace {K V : Type} [DecidableEq K] (m : UMap K V) (k k' : K) (v : V) :
    UMap.find (UMap.emplace m k v) k' =
      match UMap.find m k' with
      | some w => some w
      | none => if k = k' then some v else none := by
  unfold UMap.emplace
  cases hk : UMap.find m k with
  | some w =>
    simp only [Option.isSome_some, if_true]
    cases hk' : UMap.find m k' with
    | some w' => rfl
    | none =>
      have : k ≠ k' := by rintro rfl; rw [hk] at hk'; cases hk'
      simp [this]
  | none =>
    simp only [Option.isSome_none, Bool.false_eq_true, if_false]
    exact UMap.find_append_single m k k' v

theorem find_parseHeaders (lines : List Str) (headers : UMap Str Str) (key : Str) :
    UMap.find (parseHeaders lines headers) key =
      match UMap.find headers key with
      | some w => some w
      | none => ((lines.filterMap headerOfLine).find? (fun kv => decide (kv.1 = key))).map
                  Prod.snd := by
  induction lines generalizing headers with
  | nil => cases h : UMap.find headers key <;> simp [parseHeaders, h]
  | cons line rest ih =>
    unfold parseHeaders
    cases hl : headerOfLine line with
    | none =>
      simp only [List.filterMap_cons, hl]
      exact ih headers
    | some kv =>
      obtain ⟨k, v⟩ := kv
      simp only [List.filterMap_cons, hl]
      rw [ih, UMap.find_emplace]
      cases hf : UMap.find headers key with
      | some w => rfl
      | none =>
        by_cases hk : k = key
        · simp [hk]
        · simp [hk]

theorem headerOfLine_split {line k v : Str} (hline : stripCR line = k ++ ':' :: v)
    (hk : ':' ∉ k) : headerOfLine line = some (toLower k, trim v) := by
  unfold headerOfLine
  simp only [hline]
  have hne : k ++ ':' :: v ≠ [] := by simp
  rw [if_neg hne]
  have hfind : findChar (k ++ ':' :: v) ':' = some k.length := by
    clear hline hne
    induction k with
    | nil => simp [findChar]
    | cons x xs ih =>
      have hx : x ≠ ':' := fun e => hk (by simp [e])
      have := ih (fun hm => hk (List.mem_cons_of_mem _ hm))
      simp [findChar, hx, this]
  rw [hfind]
  have hdrop : List.drop (k.length + 1) (k ++ ':' :: v) = v := by
    have : k ++ ':' :: v = (k ++ [':']) ++ v := by simp
    rw [this, List.drop_left' (by simp)]
  simp [substr, hdrop]

/-- C19, counterexample.  A request with the header lines `X-Id: 1` and `x-id: 2` is parsed
into a request whose `x-id` header is `1`, the value of the first line, although the second
line alone would give the key `x-id` and the value `2`. -/
theorem duplicate_header_first_kept :
    parseRequest ["GET / HTTP/1.1\r\nX-Id: 1\r\nx-id: 2\r\n\r\n".toList] =
      .ok (some { method := "GET".toList, rawTarget := "/".toList, path := "/".toList,
                  headers := [("x-id".toList, "1".toList)] }) ∧
    headerOfLine "x-id: 2\r".toList = some ("x-id".toList, "2".toList) ∧
    UMap.find (parseHeaders ["X-Id: 1\r".toList, "x-id: 2\r".toList] []) "x-id".toList
      ≠ some "2".toList := by
  refine ⟨by decide, by decide, by decide⟩

/-- C19, amended.  A header line that (after removal of a final `\r`) reads `k:v` with no `:`
in `k` gives the key `toLower k` and the value `trim v`, a line without `:` gives nothing, and
the value stored for a key is the value of the first line that gives that key (`emplace` does
not overwrite): first write wins. -/
theorem headers_first_wins (lines : List Str) (key : Str) :
    (∀ line k v : Str, stripCR line = k ++ ':' :: v → ':' ∉ k →
      headerOfLine line = some (toLower k, trim v)) ∧
    (∀ line : Str, ':' ∉ line → headerOfLine line = none) ∧
    UMap.find (parseHeaders lines []) key =
      ((lines.filterMap headerOfLine).find? (fun kv => decide (kv.1 = key))).map Prod.snd := by
  refine ⟨fun line k v h1 h2 => headerOfLine_split h1 h2, fun line hno => ?_, ?_⟩
  · unfold headerOfLine
    dsimp only
    split
    · rfl
    · have hsub : ':' ∉ stripCR line := by
        unfold stripCR
        split
        · exact fun h => hno (List.mem_of_mem_dropLast h)
        · exact hno
      cases hf : findChar (stripCR line) ':' with
      | none => rfl
      | some i =>
        exfalso
        have h := (findChar_some hf).1
        exact hsub (by rw [h]; simp)
  · rw [find_parseHeaders]
    rfl


theorem headers_first_wins_witness :
    stripCR "Host: a.example\r".toList = "Host".toList ++ ':' :: " a.example".toList ∧
    ':' ∉ "Host".toList ∧
    headerOfLine "Host: a.example\r".toList = some ("host".toList, "a.example".toList) ∧
    UMap.find (parseHeaders ["A: 1".toList, "a: 2".toList, "B: 3".toList] []) "a".toList =
      some "1".toList :=
  have h := headers_first_wins ["A: 1".toList, "a: 2".toList, "B: 3".toList] "a".toList
  ⟨by decide, by decide,
    (h.1 "Host: a.example\r".toList "Host".toList " a.example".toList (by decide)
      (by decide)).trans (by decide),
    h.2.2.trans (by decide)⟩

/-! ## C20: when parsing fails -/

/-- C20, at the failing input.  A complete request whose `Content-Length` header is `abc` (or
empty, or a number above `ULONG_MAX`) makes `parseRequest` end in the exception of
`std::stoul` instead of returning; the same request without that header is parsed, and a
start line without a request target makes `parseRequest` return `false`. -/
theorem parseRequest_contentLength_throws :
    parseRequest ["GET / HTTP/1.1\r\nContent-Length: abc\r\n\r\n".toList] =
      .error .stoulInvalidArgument ∧
    parseRequest ["GET / HTTP/1.1\r\nContent-Length:\r\n\r\n".toList] =
      .error .stoulInvalidArgument ∧
    parseRequest ["GET / HTTP/1.1\r\nContent-Length: 18446744073709551616\r\n\r\n".toList] =
      .error .stoulOutOfRange ∧
    parseRequest ["GET / HTTP/1.1\r\nHost: a\r\n\r\n".toList] =
      .ok (some { method := "GET".toList, rawTarget := "/".toList, path := "/".toList,
                  headers := [("host".toList, "a".toList)] }) ∧
    parseRequest ["GET\r\nHost: a\r\n\r\n".toList] = .ok none := by
  refine ⟨by decide, by decide, by decide, by decide, by decide⟩

/-! ## C21 and C22: decoding of percent escapes -/

theorem urlDecode_percent (a b : Char) (rest : Str) :
    urlDecode ('%' :: a :: b :: rest) = charOfLong (strtol16 a b) :: urlDecode rest := by
  simp [urlDecode]

theorem urlDecode_plus (rest : Str) : urlDecode ('+' :: rest) = ' ' :: urlDecode rest := by
  simp [urlDecode]

theorem urlDecode_ordinary {c : Char} (rest : Str) (h1 : c ≠ '%') (h2 : c ≠ '+') :
    urlDecode (c :: rest) = c :: urlDecode rest := by
  rw [urlDecode.eq_def]
  split
  · rename_i h; simp at h; exact absurd h.1 h1
  · rename_i h; simp at h; exact absurd h.1 h2
  · rename_i h; simp at h; rw [h.1, h.2]
  · rename_i h; simp at h

theorem hexDigitChar_props (u : Bool) {n : Nat} (h : n < 16) :
    hexValue (hexDigitChar u n) = some n ∧ isspace (hexDigitChar u n) = false ∧
      hexDigitChar u n ≠ '+' ∧ hexDigitChar u n ≠ '-' := by
  interval_cases n <;> cases u <;> decide

theorem strtol16_hexDigits (u v : Bool) {n m : Nat} (hn : n < 16) (hm : m < 16) :
    strtol16 (hexDigitChar u n) (hexDigitChar v m) = ((16 * n + m : Nat) : Int) := by
  obtain ⟨a1, a2, a3, a4⟩ := hexDigitChar_props u hn
  obtain ⟨b1, _, _, _⟩ := hexDigitChar_props v hm
  unfold strtol16
  simp only [a2, a3, a4, Bool.false_eq_true, or_self, if_false, a1, b1]

theorem charOfLong_byte {c : Char} (h : c.toNat < 256) :
    charOfLong ((16 * (c.toNat / 16) + c.toNat % 16 : Nat) : Int) = c := by
  unfold charOfLong
  have h1 : 16 * (c.toNat / 16) + c.toNat % 16 = c.toNat := Nat.div_add_mod _ _
  rw [h1]
  have h2 : ((c.toNat : Int) % 256).toNat = c.toNat := by omega
  rw [h2]
  exact Char.ofNat_toNat c

theorem isAlnum_ne {c : Char} (h : isAlnum c = true) : c ≠ '%' ∧ c ≠ '+' := by
  constructor <;> (rintro rfl; revert h; decide)

/-- C21. For every byte string `s` the decoder undoes the naive encoder, whatever the case of the
hexadecimal digits: `urlDecode (naiveEncode upper s) = s`. -/
theorem urlDecode_naiveEncode (upper : Nat → Bool) (s : Str) (hbytes : ∀ c ∈ s, c.toNat < 256) :
    urlDecode (naiveEncode upper s) = s := by
  induction s generalizing upper with
  | nil => simp [naiveEncode, urlDecode]
  | cons c s ih =>
    have ih2 := fun up => ih up (fun x hx => hbytes x (List.mem_cons_of_mem _ hx))
    have hc := hbytes c (List.mem_cons_self _ _)
    unfold naiveEncode
    split
    · rename_i hsp
      rw [urlDecode_plus, ih2, hsp]
    · split
      · rename_i hal
        rw [urlDecode_ordinary _ (isAlnum_ne hal).1 (isAlnum_ne hal).2, ih2]
      · rw [urlDecode_percent, ih2,
          strtol16_hexDigits _ _ (Nat.div_lt_of_lt_mul (by omega)) (Nat.mod_lt _ (by decide)),
          charOfLong_byte hc]

theorem urlDecode_naiveEncode_witness :
    (∀ c ∈ "a b%+&=Z9".toList ++ [Char.ofNat 200, Char.ofNat 0], c.toNat < 256) ∧
    naiveEncode (fun i => decide (i % 3 = 0)) ("a b%+&=Z9".toList ++ [Char.ofNat 200, Char.ofNat 0])
      = "a+b%25%2B%26%3dZ9%c8%00".toList ∧
    urlDecode (naiveEncode (fun i => decide (i % 3 = 0))
      ("a b%+&=Z9".toList ++ [Char.ofNat 200, Char.ofNat 0]))
      = "a b%+&=Z9".toList ++ [Char.ofNat 200, Char.ofNat 0] :=
  ⟨by decide, by decide,
    urlDecode_naiveEncode (fun i => decide (i % 3 = 0))
      ("a b%+&=Z9".toList ++ [Char.ofNat 200, Char.ofNat 0]) (by decide)⟩

theorem urlAligned_percent (a b : Char) (rest : Str) :
    urlAligned ('%' :: a :: b :: rest) = urlAligned rest := by
  simp [urlAligned]

theorem urlAligned_other {c : Char} (rest : Str) (h : c ≠ '%') :
    urlAligned (c :: rest) = urlAligned rest := by
  rw [urlAligned.eq_def]
  split
  · rename_i h2; simp at h2; exact absurd h2.1 h
  · rename_i h2; simp at h2; exact absurd h2.1 h
  · rename_i h2; simp at h2; rw [h2.2]
  · rename_i h2; simp at h2

theorem urlAligned_short_percent {rest : Str} (h : rest.length < 2) :
    urlAligned ('%' :: rest) = false := by
  match rest, h with
  | [], _ => simp [urlAligned]
  | [_], _ => simp [urlAligned]

theorem urlDecode_short_percent {t : Str} (h : t.length < 2) :
    urlDecode ('%' :: t) = '%' :: t.map plusToSpace := by
  match t, h with
  | [], _ => simp [urlDecode]
  | [c], _ =>
    by_cases h1 : c = '%'
    · subst h1; simp [urlDecode, plusToSpace]
    · by_cases h2 : c = '+'
      · subst h2; simp [urlDecode, plusToSpace]
      · have : urlDecode ['%', c] = '%' :: urlDecode [c] := by
          rw [urlDecode.eq_def]
          rfl
        rw [this, urlDecode_ordinary _ h1 h2]
        simp [urlDecode, plusToSpace, h2]

theorem urlDecode_append_aligned : ∀ (p q : Str), urlAligned p = true →
    urlDecode (p ++ q) = urlDecode p ++ urlDecode q
  | [], q, _ => by simp [urlDecode]
  | c :: rest, q, h => by
    by_cases hc : c = '%'
    · subst hc
      match rest, h with
      | [], h => simp [urlAligned] at h
      | [_], h => simp [urlAligned] at h
      | a :: b :: r, h =>
        rw [urlAligned_percent] at h
        simp only [List.cons_append, urlDecode_percent, urlDecode_append_aligned r q h]
    · rw [urlAligned_other _ hc] at h
      by_cases hp : c = '+'
      · subst hp
        simp only [List.cons_append, urlDecode_plus, urlDecode_append_aligned rest q h]
      · simp only [List.cons_append, urlDecode_ordinary _ hc hp,
          urlDecode_append_aligned rest q h]

/-- C22, counterexample. In `%%4` the final `%` is followed by a single hexadecimal digit, yet
it is not copied: the first `%` consumes `%4` as its two characters and `strtol` reads no digit
there, so the whole input decodes to the single byte 0 and the output holds no `%`. In `a%zz` the
`%` is followed by no hexadecimal digit at all and is replaced by the byte 0 as well. -/
theorem urlDecode_swallowed_percent :
    urlDecode "%%4".toList = [Char.ofNat 0] ∧ '%' ∉ urlDecode "%%4".toList ∧
    urlDecode "a%zz".toList = ['a', Char.ofNat 0] := by
  refine ⟨by decide, by decide, by decide⟩

/-- C22, amended. When the decoding loop reaches a `%` (the text `p` before it is consumed exactly),
a `%` followed by fewer than two characters before the end is copied literally and the characters
after it are decoded as ordinary characters (`+` becomes a space); a `%` followed by two
characters is always replaced by the byte that `strtol` reads from them, hexadecimal digits or
not. -/
theorem urlDecode_truncated_percent (p t : Str) (haligned : urlAligned p = true) :
    (t.length < 2 → urlDecode (p ++ '%' :: t) = urlDecode p ++ '%' :: t.map plusToSpace) ∧
    (∀ (a b : Char) (rest : Str),
      urlDecode (p ++ '%' :: a :: b :: rest) =
        urlDecode p ++ charOfLong (strtol16 a b) :: urlDecode rest) := by
  refine ⟨fun ht => ?_, fun a b rest => ?_⟩
  · rw [urlDecode_append_aligned _ _ haligned, urlDecode_short_percent ht]
  · rw [urlDecode_append_aligned _ _ haligned, urlDecode_percent]

theorem urlDecode_truncated_percent_witness :
    urlAligned "a+b%41".toList = true ∧
    urlDecode "a+b%41%4".toList = "a bA%4".toList ∧
    urlDecode "a+b%41%+".toList = "a bA% ".toList :=
  ⟨by decide,
    ((urlDecode_truncated_percent "a+b%41".toList "4".toList (by decide)).1 (by decide)).trans
      (by decide),
    ((urlDecode_truncated_percent "a+b%41".toList "+".toList (by decide)).1 (by decide)).trans
      (by decide)⟩

/-! ## C23: the parameters `parseParams` returns -/

theorem findChar_none {s : Str} {c : Char} (h : findChar s c = none) : c ∉ s := by
  induction s with
  | nil => simp
  | cons x xs ih =>
    unfold findChar at h
    split at h
    · simp at h
    · rename_i hx
      simp only [Option.map_eq_none'] at h
      simp only [List.mem_cons, not_or]
      exact ⟨fun e => hx e.symm, ih h⟩

theorem splitOnChar_ne_nil (c : Char) (s : Str) : splitOnChar c s ≠ [] := by
  cases s with
  | nil => simp [splitOnChar]
  | cons x xs =>
    unfold splitOnChar
    split
    · simp
    · split <;> simp

theorem splitOnChar_of_not_mem {c : Char} {s : Str} (h : c ∉ s) : splitOnChar c s = [s] := by
  induction s with
  | nil => simp [splitOnChar]
  | cons x xs ih =>
    simp only [List.mem_cons, not_or] at h
    unfold splitOnChar
    rw [if_neg (fun e => h.1 e.symm), ih h.2]

theorem splitOnChar_append {c : Char} {a : Str} (b : Str) (h : c ∉ a) :
    splitOnChar c (a ++ c :: b) = a :: splitOnChar c b := by
  induction a with
  | nil => simp [splitOnChar]
  | cons x xs ih =>
    simp only [List.mem_cons, not_or] at h
    simp only [List.cons_append]
    rw [splitOnChar, if_neg (fun e => h.1 e.symm), ih h.2]

theorem splitOnChar_pieces (c : Char) (s : Str) : ∀ piece ∈ splitOnChar c s, c ∉ piece := by
  induction s with
  | nil => simp [splitOnChar]
  | cons x xs ih =>
    unfold splitOnChar
    split
    · intro piece hp
      simp only [List.mem_cons] at hp
      rcases hp with rfl | hp
      · simp
      · exact ih piece hp
    · rename_i hx
      split
      · rename_i piece pieces heq
        rw [heq] at ih
        intro p hp
        simp only [List.mem_cons] at hp
        rcases hp with rfl | hp
        · simp only [List.mem_cons, not_or]
          exact ⟨fun e => hx e.symm, ih piece (List.mem_cons_self _ _)⟩
        · exact ih p (List.mem_cons_of_mem _ hp)
      · rename_i heq
        exact absurd heq (splitOnChar_ne_nil c xs)

theorem joinWith_cons (c : Char) (piece : Str) {pieces : List Str} (h : pieces ≠ []) :
    joinWith c (piece :: pieces) = piece ++ c :: joinWith c pieces := by
  cases pieces with
  | nil => exact absurd rfl h
  | cons p ps => simp [joinWith]

theorem joinWith_splitOnChar (c : Char) (s : Str) : joinWith c (splitOnChar c s) = s := by
  induction s with
  | nil => simp [splitOnChar, joinWith]
  | cons x xs ih =>
    unfold splitOnChar
    split
    · rename_i hx
      rw [joinWith_cons _ _ (splitOnChar_ne_nil c xs), ih, hx]
      rfl
    · split
      · rename_i piece pieces heq
        rw [heq] at ih
        cases pieces with
        | nil =>
          simp only [joinWith] at ih ⊢
          rw [ih]
        | cons p ps =>
          rw [joinWith_cons _ _ (List.cons_ne_nil _ _)] at ih ⊢
          simp only [List.cons_append]
          rw [ih]
      · rename_i heq
        exact absurd heq (splitOnChar_ne_nil c xs)

theorem parseParamsLoop_eq (fuel : Nat) (rest : Str) (result : UMap Str Str)
    (h : rest.length < fuel) :
    parseParamsLoop fuel rest result = (splitOnChar '&' rest).foldl parseParamsToken result := by
  induction fuel generalizing rest result with
  | zero => omega
  | succ fuel ih =>
    unfold parseParamsLoop
    split
    · rename_i he
      subst he
      simp [splitOnChar, parseParamsToken, findChar]
    · cases hf : findChar rest '&' with
      | none =>
        rw [splitOnChar_of_not_mem (findChar_none hf)]
        rfl
      | some amp =>
        obtain ⟨h1, h2⟩ := findChar_some hf
        have hpos : 0 < rest.length := List.length_pos.mpr (by assumption)
        have hlen : (rest.drop (amp + 1)).length < fuel := by
          simp only [List.length_drop]
          omega
        dsimp only
        rw [ih _ _ hlen]
        conv_rhs => rw [h1, splitOnChar_append _ h2]
        simp [substr]

theorem parseParams_eq_loop (data : Str) :
    parseParams data = parseParamsLoop (data.length + 1) data [] :=
  (parseParamsLoop_eq _ _ _ (Nat.lt_succ_self _)).symm

theorem parseParamsToken_eq (result : UMap Str Str) (token : Str) :
    parseParamsToken result token =
      match paramOfToken token with
      | none => result
      | some e => UMap.assign result e.1 e.2 := by
  unfold parseParamsToken paramOfToken
  by_cases ht : token = []
  · subst ht
    simp [findChar]
  · rw [if_neg ht]
    cases hf : findChar token '=' with
    | none => simp [ht]
    | some eq => simp [substr]

theorem find_foldl_parseParamsToken (tokens : List Str) (result : UMap Str Str) (key : Str) :
    UMap.find (tokens.foldl parseParamsToken result) key =
      match lookupLast (tokens.filterMap paramOfToken) key with
      | some v => some v
      | none => UMap.find result key := by
  induction tokens generalizing result with
  | nil => simp [lookupLast]
  | cons t ts ih =>
    rw [List.foldl_cons, ih, parseParamsToken_eq]
    cases hp : paramOfToken t with
    | none => simp [List.filterMap_cons, hp]
    | some e =>
      simp only [List.filterMap_cons, hp, lookupLast]
      cases hl : lookupLast (List.filterMap paramOfToken ts) key with
      | some v => rfl
      | none =>
        dsimp only
        rw [UMap.find_assign]
        split <;> rfl

theorem nodup_foldl_parseParamsToken (tokens : List Str) (result : UMap Str Str)
    (h : (result.map Prod.fst).Nodup) :
    ((tokens.foldl parseParamsToken result).map Prod.fst).Nodup := by
  induction tokens generalizing result with
  | nil => exact h
  | cons t ts ih =>
    rw [List.foldl_cons]
    apply ih
    rw [parseParamsToken_eq]
    cases paramOfToken t with
    | none => exact h
    | some e => exact UMap.nodup_keys_assign _ _ h

/-- C23. For every input, `parseParams` splits it at `&` (the tokens hold no `&` and, joined with
`&`, give the input back); the empty token contributes nothing, a token `k=v` (no `=` in `k`)
contributes `urlDecode k -> urlDecode v`, a non-empty token without `=` contributes
`urlDecode token -> ""`; the value the result holds for a key is the one of the last token
contributing that key, no value if there is none, and the result holds each key once. -/
theorem parseParams_contract (data key : Str) :
    joinWith '&' (splitOnChar '&' data) = data ∧
    (∀ token ∈ splitOnChar '&' data, '&' ∉ token) ∧
    UMap.find (parseParams data) key =
      lookupLast ((splitOnChar '&' data).filterMap paramOfToken) key ∧
    ((parseParams data).map Prod.fst).Nodup ∧
    paramOfToken [] = none ∧
    (∀ k v : Str, '=' ∉ k → paramOfToken (k ++ '=' :: v) = some (urlDecode k, urlDecode v)) ∧
    (∀ token : Str, token ≠ [] → '=' ∉ token → paramOfToken token = some (urlDecode token, [])) := by
  refine ⟨joinWith_splitOnChar _ _, splitOnChar_pieces _ _, ?_, ?_, rfl, ?_, ?_⟩
  · unfold parseParams
    rw [find_foldl_parseParamsToken]
    cases lookupLast ((splitOnChar '&' data).filterMap paramOfToken) key <;> rfl
  · exact nodup_foldl_parseParamsToken _ _ List.nodup_nil
  · intro k v hk
    unfold paramOfToken
    rw [if_neg (by simp), findChar_append_of_not_mem _ hk]
    simp
  · intro token hne hk
    unfold paramOfToken
    rw [if_neg hne]
    cases hf : findChar token '=' with
    | none => rfl
    | some eq =>
      obtain ⟨h1, _⟩ := findChar_some hf
      exact absurd (by rw [h1]; simp) hk

/-- A sample run: empty tokens, a repeated key, a token without `=`, an empty key. -/
theorem parseParams_sample :
    parseParams "a=1&b&&a=2%2B&c=x=y&=z".toList =
      [("a".toList, "2+".toList), ("b".toList, []), ("c".toList, "x=y".toList), ([], "z".toList)] := by
  decide

/-! ## C24: the accessor `getParam` -/

/-- C24. For every request and key, `getParam` returns the form value when the form parameters
hold the key (whatever the query holds), otherwise the query value when the query parameters hold
the key, otherwise the empty string; it is a total function. -/
theorem getParam_contract (request : HttpRequest) (key : Str) :
    (∀ v, UMap.find request.form key = some v → request.getParam key = v) ∧
    (UMap.find request.form key = none →
      ∀ v, UMap.find request.query key = some v → request.getParam key = v) ∧
    (UMap.find request.form key = none → UMap.find request.query key = none →
      request.getParam key = []) := by
  refine ⟨fun v h => ?_, fun h v hq => ?_, fun h hq => ?_⟩
  · unfold HttpRequest.getParam
    rw [h]
  · unfold HttpRequest.getParam
    rw [h, hq]
  · unfold HttpRequest.getParam
    rw [h, hq]

theorem getParam_contract_witness :
    HttpRequest.getParam { query := [("q".toList, "1".toList)], form := [("q".toList, [])] }
      "q".toList = [] ∧
    HttpRequest.getParam { query := [("q".toList, "1".toList)], form := [("r".toList, [])] }
      "q".toList = "1".toList ∧
    HttpRequest.getParam { query := [("q".toList, "1".toList)], form := [("r".toList, [])] }
      "s".toList = [] :=
  ⟨(getParam_contract { query := [("q".toList, "1".toList)], form := [("q".toList, [])] }
      "q".toList).1 [] (by decide),
    (getParam_contract { query := [("q".toList, "1".toList)], form := [("r".toList, [])] }
      "q".toList).2.1 (by decide) "1".toList (by decide),
    (getParam_contract { query := [("q".toList, "1".toList)], form := [("r".toList, [])] }
      "s".toList).2.2 (by decide) (by decide)⟩

/-! ## C25: the bytes of a response -/

theorem foldl_headers (headers : List (Str × Str)) (oss : Str) :
    headers.foldl (fun oss kv => oss ++ kv.1 ++ ": ".toList ++ kv.2 ++ "\r\n".toList) oss
      = oss ++ (headers.map headerLine).flatten := by
  induction headers generalizing oss with
  | nil => simp
  | cons kv rest ih =>
    rw [List.foldl_cons, ih]
    simp only [List.map_cons, List.flatten_cons, headerLine, List.append_assoc]

theorem decimalValue_append (s : Str) (c : Char) :
    decimalValue (s ++ [c]) = decimalValue s * 10 + (c.toNat - '0'.toNat) := by
  simp [decimalValue, List.foldl_append]

theorem digitChar_value {d : Nat} (h : d < 10) : (Nat.digitChar d).toNat - '0'.toNat = d := by
  interval_cases d <;> rfl

theorem foldl_decimal (ds : Str) (a : Nat) :
    ds.foldl (fun acc c => acc * 10 + (c.toNat - '0'.toNat)) a
      = a * 10 ^ ds.length + decimalValue ds := by
  induction ds generalizing a with
  | nil => simp [decimalValue]
  | cons c cs ih =>
    unfold decimalValue
    rw [List.foldl_cons, List.foldl_cons, ih, ih (0 * 10 + _)]
    simp only [List.length_cons, pow_succ]
    ring

theorem decimalValue_toDigitsCore (fuel n : Nat) (ds : Str) (h : n < fuel) :
    decimalValue (Nat.toDigitsCore 10 fuel n ds) = n * 10 ^ ds.length + decimalValue ds := by
  induction fuel generalizing n ds with
  | zero => omega
  | succ fuel ih =>
    unfold Nat.toDigitsCore
    dsimp only
    have hd : (Nat.digitChar (n % 10)).toNat - '0'.toNat = n % 10 :=
      digitChar_value (Nat.mod_lt _ (by decide))
    have hcons : decimalValue (Nat.digitChar (n % 10) :: ds)
        = (n % 10) * 10 ^ ds.length + decimalValue ds := by
      unfold decimalValue
      rw [List.foldl_cons, foldl_decimal, hd]
      simp [decimalValue]
    split
    · rename_i h0
      rw [hcons]
      have : n = n % 10 := by omega
      rw [← this]
    · rename_i h0
      have hlt : n / 10 < fuel := by omega
      rw [ih _ _ hlt, hcons]
      simp only [List.length_cons, pow_succ]
      have : n = 10 * (n / 10) + n % 10 := (Nat.div_add_mod n 10).symm
      generalize 10 ^ ds.length = p at *
      generalize decimalValue ds = q at *
      generalize n / 10 = a at *
      generalize n % 10 = b at *
      subst this
      ring

theorem decNat_eq (n : Nat) : decNat n = Nat.toDigits 10 n := rfl

theorem decimalValue_decNat (n : Nat) : decimalValue (decNat n) = n := by
  rw [decNat_eq, Nat.toDigits, decimalValue_toDigitsCore _ _ _ (Nat.lt_succ_self _)]
  simp [decimalValue]

theorem digitChar_isdigit {d : Nat} (h : d < 10) : isdigit (Nat.digitChar d) = true := by
  interval_cases d <;> rfl

theorem toDigitsCore_digits (fuel n : Nat) (ds : Str) (h : ∀ c ∈ ds, isdigit c = true) :
    ∀ c ∈ Nat.toDigitsCore 10 fuel n ds, isdigit c = true := by
  induction fuel generalizing n ds with
  | zero => exact h
  | succ fuel ih =>
    have hds : ∀ c ∈ Nat.digitChar (n % 10) :: ds, isdigit c = true := by
      intro c hc
      simp only [List.mem_cons] at hc
      rcases hc with rfl | hc
      · exact digitChar_isdigit (Nat.mod_lt _ (by decide))
      · exact h c hc
    unfold Nat.toDigitsCore
    dsimp only
    split
    · exact hds
    · exact ih _ _ hds

theorem decNat_digits (n : Nat) : ∀ c ∈ decNat n, isdigit c = true := by
  rw [decNat_eq, Nat.toDigits]
  exact toDigitsCore_digits _ _ _ (by simp)

/-- C25. For every response, the bytes built by `sendResponse` are the status line
`HTTP/1.1 <status> <reason>`, the lines `Content-Type: <contentType>`, `Content-Length: <n>` with
`n` the length of the body written in decimal digits, `Connection: close`, one line `key: value`
for each handler-supplied header in insertion order, an empty line, and the body verbatim, every
line ending in CR LF; the reason is the fixed phrase for 200, 201, 204, 400, 401, 403, 404, 409
and 500, and `OK` for every other status. -/
theorem sendResponse_contract (response : HttpResponse) :
    sendResponse response =
      "HTTP/1.1 ".toList ++ decInt response.status ++ " ".toList ++ statusText response.status
        ++ "\r\n".toList
      ++ "Content-Type: ".toList ++ response.contentType ++ "\r\n".toList
      ++ "Content-Length: ".toList ++ decNat response.body.length ++ "\r\n".toList
      ++ "Connection: close\r\n".toList
      ++ (response.headers.map headerLine).flatten
      ++ "\r\n".toList ++ response.body ∧
    (∀ c ∈ decNat response.body.length, isdigit c = true) ∧
    decimalValue (decNat response.body.length) = response.body.length ∧
    statusText 200 = "OK".toList ∧ statusText 201 = "Created".toList ∧
    statusText 204 = "No Content".toList ∧ statusText 400 = "Bad Request".toList ∧
    statusText 401 = "Unauthorized".toList ∧ statusText 403 = "Forbidden".toList ∧
    statusText 404 = "Not Found".toList ∧ statusText 409 = "Conflict".toList ∧
    statusText 500 = "Internal Server Error".toList ∧
    (response.status ∉ [200, 201, 204, 400, 401, 403, 404, 409, 500] →
      statusText response.status = "OK".toList) := by
  refine ⟨?_, decNat_digits _, decimalValue_decNat _, by decide, by decide, by decide, by decide, by decide,
    by decide, by decide, by decide, by decide, fun h => ?_⟩
  · unfold sendResponse
    dsimp only
    rw [foldl_headers]
    simp only [List.append_assoc]
    rfl
  · simp only [List.mem_cons, List.mem_singleton, not_or, List.not_mem_nil, or_false] at h
    obtain ⟨h1, h2, h3, h4, h5, h6, h7, h8, h9⟩ := h
    unfold statusText
    simp only [h1, h2, h3, h4, h5, h6, h7, h8, h9, if_false]

theorem sendResponse_contract_witness :
    sendResponse teapot
      = ("HTTP/1.1 418 OK\r\nContent-Type: application/json; charset=utf-8\r\n"
        ++ "Content-Length: 18\r\nConnection: close\r\nCache-Control: no-cache\r\nX-A: 1\r\n"
        ++ "Cache-Control: no-store\r\n\r\n\x7b\"error\":\"teapot\"\x7d").toList ∧
    statusText teapot.status = "OK".toList :=
  ⟨by rfl, (sendResponse_contract teapot).2.2.2.2.2.2.2.2.2.2.2.2 (by decide)⟩

/-! ## C26: JSON escaping -/

theorem hex4_control {n : Nat} (h : n < 32) :
    hex4 n = ['0', '0', hexDigitChar false (n / 16), hexDigitChar false (n % 16)] := by
  interval_cases n <;> rfl

theorem jsonEscapeChar_eq_table (ch : Char) : jsonEscapeChar ch = jsonEscapeTable ch := by
  unfold jsonEscapeChar jsonEscapeTable
  by_cases h : ch.toNat < 0x20
  · simp only [h, if_true, hex4_control h]
    rfl
  · simp only [h, if_false]
    rfl

theorem jsonEscape_eq_table (s : Str) : jsonEscape s = (s.map jsonEscapeTable).flatten := by
  induction s with
  | nil => rfl
  | cons c s ih => simp only [jsonEscape, List.map_cons, List.flatten_cons, ih, jsonEscapeChar_eq_table]

/-- The cases of the table. -/
theorem jsonEscapeTable_cases (ch : Char) :
    (ch = '"' ∧ jsonEscapeTable ch = "\\\"".toList) ∨
    (ch = '\\' ∧ jsonEscapeTable ch = "\\\\".toList) ∨
    (ch = '\n' ∧ jsonEscapeTable ch = "\\n".toList) ∨
    (ch = '\r' ∧ jsonEscapeTable ch = "\\r".toList) ∨
    (ch = '\t' ∧ jsonEscapeTable ch = "\\t".toList) ∨
    (ch.toNat < 0x20 ∧ jsonEscapeTable ch =
      "\\u00".toList ++ [hexDigitChar false (ch.toNat / 16), hexDigitChar false (ch.toNat % 16)]) ∨
    (0x20 ≤ ch.toNat ∧ ch ≠ '"' ∧ ch ≠ '\\' ∧ jsonEscapeTable ch = [ch]) := by
  unfold jsonEscapeTable
  by_cases h1 : ch = '"'
  · exact Or.inl ⟨h1, by simp [h1]⟩
  by_cases h2 : ch = '\\'
  · exact Or.inr (Or.inl ⟨h2, by simp [h2]⟩)
  by_cases h3 : ch = '\n'
  · exact Or.inr (Or.inr (Or.inl ⟨h3, by simp [h3]⟩))
  by_cases h4 : ch = '\r'
  · exact Or.inr (Or.inr (Or.inr (Or.inl ⟨h4, by simp [h4]⟩)))
  by_cases h5 : ch = '\t'
  · exact Or.inr (Or.inr (Or.inr (Or.inr (Or.inl ⟨h5, by simp [h5]⟩))))
  by_cases h6 : ch.toNat < 0x20
  · exact Or.inr (Or.inr (Or.inr (Or.inr (Or.inr (Or.inl ⟨h6, by simp only [h1, h2, h3, h4, h5, h6, if_false, if_true]⟩)))))
  · exact Or.inr (Or.inr (Or.inr (Or.inr (Or.inr (Or.inr
      ⟨by omega, h1, h2, by simp only [h1, h2, h3, h4, h5, h6, if_false]⟩)))))

theorem control_escape_props {n : Nat} (h : n < 32) (rest : Str) :
    jsonUnescapeStep ("\\u00".toList ++ [hexDigitChar false (n / 16), hexDigitChar false (n % 16)]
      ++ rest) = some (Char.ofNat n, rest) ∧
    noBareQuote ("\\u00".toList ++ [hexDigitChar false (n / 16), hexDigitChar false (n % 16)]
      ++ rest) = noBareQuote rest ∧
    ∀ c ∈ "\\u00".toList ++ [hexDigitChar false (n / 16), hexDigitChar false (n % 16)],
      0x20 ≤ c.toNat := by
  interval_cases n <;> refine ⟨rfl, rfl, by decide⟩

theorem jsonEscapeTable_props (ch : Char) (rest : Str) :
    jsonUnescapeStep (jsonEscapeTable ch ++ rest) = some (ch, rest) ∧
    noBareQuote (jsonEscapeTable ch ++ rest) = noBareQuote rest ∧
    (∀ c ∈ jsonEscapeTable ch, 0x20 ≤ c.toNat) ∧
    0 < (jsonEscapeTable ch).length := by
  rcases jsonEscapeTable_cases ch with ⟨h, e⟩ | ⟨h, e⟩ | ⟨h, e⟩ | ⟨h, e⟩ | ⟨h, e⟩ | ⟨h, e⟩ |
    ⟨h, h1, h2, e⟩
  · rw [e, h]; exact ⟨rfl, rfl, by decide, by decide⟩
  · rw [e, h]; exact ⟨rfl, rfl, by decide, by decide⟩
  · rw [e, h]; exact ⟨rfl, rfl, by decide, by decide⟩
  · rw [e, h]; exact ⟨rfl, rfl, by decide, by decide⟩
  · rw [e, h]; exact ⟨rfl, rfl, by decide, by decide⟩
  · rw [e]
    obtain ⟨a, b, c⟩ := control_escape_props h rest
    rw [Char.ofNat_toNat] at a
    exact ⟨a, b, c, by simp⟩
  · rw [e]
    refine ⟨?_, ?_, ?_, by simp⟩
    · have h3 : ¬ (ch = '"' ∨ ch.toNat < 0x20) := by
        rintro (h3 | h3)
        · exact h1 h3
        · omega
      simp only [List.singleton_append, jsonUnescapeStep, if_neg h2, if_neg h3]
    · simp only [List.singleton_append]
      rw [noBareQuote.eq_def]
      split
      · rename_i heq; simp only [List.cons.injEq] at heq; exact absurd heq.1 h2
      · rename_i heq; simp only [List.cons.injEq] at heq; exact absurd heq.1 h2
      · rename_i heq; simp only [List.cons.injEq] at heq
        rw [← heq.1, ← heq.2]
        simp [h1]
      · rename_i heq; simp at heq
    · intro c hc
      simp only [List.mem_singleton] at hc
      rw [hc]; exact h

theorem jsonUnescapeFuel_step {s rest : Str} {ch : Char} (fuel : Nat)
    (h : jsonUnescapeStep s = some (ch, rest)) :
    jsonUnescapeFuel (fuel + 1) s = (jsonUnescapeFuel fuel rest).map (ch :: ·) := by
  cases s with
  | nil => simp [jsonUnescapeStep] at h
  | cons c cs => simp only [jsonUnescapeFuel, h]

theorem jsonUnescapeFuel_jsonEscape (s : Str) (fuel : Nat) (h : (jsonEscape s).length ≤ fuel) :
    jsonUnescapeFuel fuel (jsonEscape s) = some s := by
  induction s generalizing fuel with
  | nil => cases fuel <;> rfl
  | cons c s ih =>
    rw [jsonEscape, jsonEscapeChar_eq_table] at h ⊢
    obtain ⟨h1, _, _, h4⟩ := jsonEscapeTable_props c (jsonEscape s)
    rw [List.length_append] at h
    cases fuel with
    | zero => omega
    | succ fuel =>
      rw [jsonUnescapeFuel_step fuel h1, ih fuel (by omega)]
      rfl

theorem noBareQuote_jsonEscape (s : Str) : noBareQuote (jsonEscape s) = true := by
  induction s with
  | nil => rfl
  | cons c s ih =>
    rw [jsonEscape, jsonEscapeChar_eq_table, (jsonEscapeTable_props c _).2.1, ih]

theorem jsonEscape_no_control (s : Str) : ∀ c ∈ jsonEscape s, 0x20 ≤ c.toNat := by
  induction s with
  | nil => simp [jsonEscape]
  | cons x s ih =>
    intro c hc
    rw [jsonEscape, jsonEscapeChar_eq_table, List.mem_append] at hc
    rcases hc with hc | hc
    · exact (jsonEscapeTable_props x []).2.2.1 c hc
    · exact ih c hc

/-- C26. For every byte string `s`, `jsonEscape s` is the concatenation over the bytes of `s` of
the texts of the table (backslash and quote, two backslashes, `\n`, `\r`, `\t`, `\u00XX` for the
other bytes below 0x20, the byte itself otherwise); the output holds no byte below 0x20 and no
double quote outside an escape, and standard JSON unescaping of it gives `s` back. -/
theorem jsonEscape_contract (s : Str) :
    jsonEscape s = (s.map jsonEscapeTable).flatten ∧
    (∀ c ∈ jsonEscape s, 0x20 ≤ c.toNat) ∧
    noBareQuote (jsonEscape s) = true ∧
    jsonUnescape (jsonEscape s) = some s :=
  ⟨jsonEscape_eq_table s, jsonEscape_no_control s, noBareQuote_jsonEscape s,
    jsonUnescapeFuel_jsonEscape s _ (Nat.le_refl _)⟩

/-- A sample: quote, backslash, the three short escapes, two other control bytes, a byte above
0x7f. -/
theorem jsonEscape_sample :
    jsonEscape ("a\"b\\c\n\r\t".toList ++ [Char.ofNat 1, Char.ofNat 31, Char.ofNat 200])
      = "a\\\"b\\\\c\\n\\r\\t\\u0001\\u001f".toList ++ [Char.ofNat 200] ∧
    jsonUnescape "\\u0041\\/\\b\\f".toList = some ['A', '/', Char.ofNat 8, Char.ofNat 12] ∧
    jsonUnescape "a\"b".toList = none := by
  refine ⟨by decide, by decide, by decide⟩

/-! ## C28: the adverts a user has responded to -/

theorem myResponseJson_eq_render (lib : StdLib) (app : BulletinBoardApp) (ad : Advertisement)
    {owner : User} (h : usersAt app.users_ (ad.ownerId - 1) = some owner) :
    myResponseJson lib ad owner = ResponseView.render lib (responseView app ad) := by
  simp [myResponseJson, ResponseView.render, responseView, ownerOf, h, boolJson]

theorem commaSeparated_or_tail_cons (first : Bool) (oss x : Str) (xs : List Str) :
    (if !first then oss ++ [','] else oss) ++ x ++ commaTail xs =
      oss ++ (if first then commaSeparated (x :: xs) else commaTail (x :: xs)) := by
  cases first <;> simp [commaSeparated, commaTail]

theorem myResponsesLoop_eq (lib : StdLib) {app : BulletinBoardApp} (wf : WellFormed app)
    (userId : Int) (entries : List (Int × USet)) (first : Bool) (oss : Str) :
    myResponsesLoop lib app userId entries first oss =
      some (oss ++
        (if first then
          commaSeparated ((respondedAds app userId entries).map
            (fun ad => ResponseView.render lib (responseView app ad)))
         else
          commaTail ((respondedAds app userId entries).map
            (fun ad => ResponseView.render lib (responseView app ad))))) := by
  induction entries generalizing first oss with
  | nil => cases first <;> simp [myResponsesLoop, respondedAds, commaSeparated, commaTail]
  | cons p rest ih =>
    obtain ⟨adId, userIds⟩ := p
    unfold myResponsesLoop
    by_cases hc : USet.count userIds userId > 0
    · rw [if_pos hc]
      cases hf : findAdvert app.adverts_ adId with
      | none =>
        dsimp only
        rw [ih]
        simp [respondedAds, hc, hf]
      | some ad =>
        dsimp only
        have had := (findAdvert_some hf).1
        have hsome := wf.owner_isSome ad had
        obtain ⟨owner, howner⟩ := Option.isSome_iff_exists.mp hsome
        rw [howner]
        dsimp only
        rw [ih, myResponseJson_eq_render lib app ad howner]
        have hra : respondedAds app userId ((adId, userIds) :: rest)
            = ad :: respondedAds app userId rest := by
          simp [respondedAds, hc, hf]
        rw [hra, List.map_cons, ← commaSeparated_or_tail_cons]
        simp [List.append_assoc]
    · rw [if_neg hc, ih]
      simp [respondedAds, hc]

theorem handleMyResponses_ok (lib : StdLib) {app : BulletinBoardApp} (wf : WellFormed app)
    {request : HttpRequest} (response : HttpResponse) {u : Int}
    (hauth : authenticate app request = some u) :
    handleMyResponses lib app request response =
      some (app, { response with
        body := renderMyResponses lib
          ((respondedAds app u app.responses_).map (responseView app)) }) := by
  unfold handleMyResponses
  rw [hauth]
  dsimp only
  rw [myResponsesLoop_eq lib wf]
  simp [renderMyResponses, List.append_assoc, Function.comp_def]

theorem USet.count_pos_iff (s : USet) (x : Int) : USet.count s x > 0 ↔ x ∈ s := by
  unfold USet.count
  split <;> simp [*]

theorem mem_respondedAds {app : BulletinBoardApp} {userId : Int} {entries : List (Int × USet)}
    {ad : Advertisement} :
    ad ∈ respondedAds app userId entries ↔
      ∃ p ∈ entries, userId ∈ p.2 ∧ findAdvert app.adverts_ p.1 = some ad := by
  unfold respondedAds
  rw [List.mem_filterMap]
  constructor
  · rintro ⟨p, hp, h⟩
    by_cases hc : USet.count p.2 userId > 0
    · rw [if_pos hc] at h
      exact ⟨p, hp, (USet.count_pos_iff _ _).mp hc, h⟩
    · rw [if_neg hc] at h
      exact absurd h (by simp)
  · rintro ⟨p, hp, hm, h⟩
    exact ⟨p, hp, by rw [if_pos ((USet.count_pos_iff _ _).mpr hm)]; exact h⟩

theorem respondedAds_ids_sublist (app : BulletinBoardApp) (userId : Int)
    (entries : List (Int × USet)) :
    List.Sublist ((respondedAds app userId entries).map (fun ad => ad.id))
      (entries.map Prod.fst) := by
  induction entries with
  | nil => simp [respondedAds]
  | cons p rest ih =>
    unfold respondedAds at ih ⊢
    rw [List.filterMap_cons]
    split
    · exact List.Sublist.cons _ ih
    · rename_i ad heq
      have hid : ad.id = p.1 := by
        by_cases hc : USet.count p.2 userId > 0
        · rw [if_pos hc] at heq
          exact (findAdvert_some heq).2
        · rw [if_neg hc] at heq
          exact absurd heq (by simp)
      simp only [List.map_cons]
      rw [hid]
      exact List.Sublist.cons₂ _ ih

theorem WellFormed.respondedAds_spec {app : BulletinBoardApp} (wf : WellFormed app) (u : Int)
    (ad : Advertisement) :
    ad ∈ respondedAds app u app.responses_ ↔ ad ∈ app.adverts_ ∧ u ∈ responseSet app ad.id := by
  rw [mem_respondedAds]
  constructor
  · rintro ⟨p, hp, hm, hf⟩
    obtain ⟨had, hid⟩ := findAdvert_some hf
    refine ⟨had, ?_⟩
    have hfind : UMap.find app.responses_ p.1 = some p.2 :=
      UMap.find_of_mem_nodup wf.responseKeysNodup hp
    unfold responseSet
    rw [hid, hfind]
    exact hm
  · rintro ⟨had, hm⟩
    unfold responseSet at hm
    cases hf : UMap.find app.responses_ ad.id with
    | none => rw [hf] at hm; simp at hm
    | some userIds =>
      rw [hf] at hm
      exact ⟨(ad.id, userIds), UMap.mem_of_find hf, hm, wf.findAdvert_of_mem had⟩

/-- C28. In a reachable store, for a requester authenticated as `u`, `handleMyResponses` leaves
the store as it is and answers 200 with a list of entries in which no advert id occurs twice:
every entry is the entry of a stored advert whose response set contains `u` (id, title,
description, price, creation time, name of the owner) and carries `hasResponded` true, and
every stored advert whose response set contains `u` has an entry. -/
theorem myResponses_contract (lib : StdLib) (app : BulletinBoardApp)
    (hreach : Reachable lib app) (request : HttpRequest) (u : Int)
    (hauth : authenticate app request = some u) :
    ∃ views : List ResponseView,
      handleMyResponses lib app request {} =
        some (app, { status := 200, body := renderMyResponses lib views }) ∧
      (views.map (fun v => v.id)).Nodup ∧
      (∀ v ∈ views, v.hasResponded = true ∧
        ∃ ad ∈ app.adverts_, u ∈ responseSet app ad.id ∧
          v.id = ad.id ∧ v.title = ad.title ∧ v.description = ad.description ∧
          v.price = ad.price ∧ v.createdAt = ad.createdAt ∧
          ∃ owner ∈ app.users_, owner.id = ad.ownerId ∧ v.ownerName = owner.name) ∧
      (∀ ad ∈ app.adverts_, u ∈ responseSet app ad.id → ∃ v ∈ views, v.id = ad.id) := by
  have wf := hreach.wellFormed
  refine ⟨(respondedAds app u app.responses_).map (responseView app),
    handleMyResponses_ok lib wf _ hauth, ?_, ?_, ?_⟩
  · rw [List.map_map]
    exact List.Nodup.sublist (respondedAds_ids_sublist app u app.responses_)
      wf.responseKeysNodup
  · intro v hv
    obtain ⟨ad, had, rfl⟩ := List.mem_map.mp hv
    obtain ⟨hmem, hresp⟩ := (wf.respondedAds_spec u ad).mp had
    obtain ⟨ho1, ho2⟩ := wf.ownerOf_spec hmem
    exact ⟨rfl, ad, hmem, hresp, rfl, rfl, rfl, rfl, rfl, ownerOf app ad, ho1, ho2, rfl⟩
  · intro ad had hresp
    exact ⟨responseView app ad,
      List.mem_map.mpr ⟨ad, (wf.respondedAds_spec u ad).mpr ⟨had, hresp⟩, rfl⟩, rfl⟩

theorem myResponses_contract_witness :
    Reachable sampleLib aliceResponded ∧ authenticate aliceResponded aliceRequest = some 2 ∧
    (handleMyResponses sampleLib aliceResponded aliceRequest {}).map (fun r => r.2.body) =
      some ("\x7b\"ads\":[\x7b\"id\":1,\"title\":\"Vintage Bicycle\","
        ++ "\"description\":\"Reliable city bike. Recently serviced.\",\"price\":?,"
        ++ "\"ownerName\":\"Demo User\",\"createdAt\":0,\"hasResponded\":true\x7d]\x7d").toList ∧
    ∃ views : List ResponseView,
      handleMyResponses sampleLib aliceResponded aliceRequest {} =
        some (aliceResponded, { status := 200, body := renderMyResponses sampleLib views }) ∧
      (views.map (fun v => v.id)).Nodup ∧
      (∀ v ∈ views, v.hasResponded = true ∧
        ∃ ad ∈ aliceResponded.adverts_, 2 ∈ responseSet aliceResponded ad.id ∧
          v.id = ad.id ∧ v.title = ad.title ∧ v.description = ad.description ∧
          v.price = ad.price ∧ v.createdAt = ad.createdAt ∧
          ∃ owner ∈ aliceResponded.users_, owner.id = ad.ownerId ∧ v.ownerName = owner.name) ∧
      (∀ ad ∈ aliceResponded.adverts_, 2 ∈ responseSet aliceResponded ad.id →
        ∃ v ∈ views, v.id = ad.id) :=
  ⟨aliceResponded_reachable, by decide, by rfl,
    myResponses_contract sampleLib aliceResponded aliceResponded_reachable aliceRequest 2
      (by decide)⟩

/-! ## C29: which requests change the store -/

theorem handleRegister_frame (lib : StdLib) (app : BulletinBoardApp) (request : HttpRequest)
    (response : HttpResponse) :
    (handleRegister lib app request response).1 = app ∨
      (handleRegister lib app request response).2.status = response.status := by
  unfold handleRegister
  dsimp only
  split
  · exact Or.inl rfl
  · split
    · exact Or.inl rfl
    · exact Or.inr rfl

theorem handleLogin_frame (lib : StdLib) (app : BulletinBoardApp) (request : HttpRequest)
    (response : HttpResponse) (draws : Nat → Fin 16) {result : BulletinBoardApp × HttpResponse}
    (h : handleLogin lib app request response draws = some result) :
    result.1 = app ∨ result.2.status = response.status := by
  unfold handleLogin at h
  dsimp only at h
  split at h
  · simp only [Option.some.injEq] at h; subst h; exact Or.inl rfl
  · split at h
    · simp only [Option.some.injEq] at h; subst h; exact Or.inl rfl
    · split at h
      · exact absurd h (by simp)
      · split at h
        · simp only [Option.some.injEq] at h; subst h; exact Or.inl rfl
        · simp only [Option.some.injEq] at h; subst h; exact Or.inr rfl

theorem handleLogout_frame (app : BulletinBoardApp) (request : HttpRequest)
    (response : HttpResponse) :
    (handleLogout app request response).2.status = response.status := rfl

theorem handleSession_frame (app : BulletinBoardApp) (request : HttpRequest)
    (response : HttpResponse) {result : BulletinBoardApp × HttpResponse}
    (h : handleSession app request response = some result) : result.1 = app := by
  unfold handleSession at h
  split at h
  · simp only [Option.some.injEq] at h; subst h; rfl
  · split at h
    · exact absurd h (by simp)
    · simp only [Option.some.injEq] at h; subst h; rfl

theorem handleAdsList_frame (lib : StdLib) (app : BulletinBoardApp) (request : HttpRequest)
    (response : HttpResponse) {result : BulletinBoardApp × HttpResponse}
    (h : handleAdsList lib app request response = some result) : result.1 = app := by
  unfold handleAdsList at h
  dsimp only at h
  split at h
  · exact absurd h (by simp)
  · simp only [Option.some.injEq] at h; subst h; rfl

theorem handleMyResponses_frame (lib : StdLib) (app : BulletinBoardApp) (request : HttpRequest)
    (response : HttpResponse) {result : BulletinBoardApp × HttpResponse}
    (h : handleMyResponses lib app request response = some result) : result.1 = app := by
  unfold handleMyResponses at h
  split at h
  · simp only [Option.some.injEq] at h; subst h; rfl
  · split at h
    · exact absurd h (by simp)
    · simp only [Option.some.injEq] at h; subst h; rfl

theorem handleCreateAd_frame (lib : StdLib) (app : BulletinBoardApp) (request : HttpRequest)
    (response : HttpResponse) (now : Int) :
    (handleCreateAd lib app request response now).1 = app ∨
      (handleCreateAd lib app request response now).2.status = response.status := by
  unfold handleCreateAd
  split
  · exact Or.inl rfl
  · dsimp only
    split
    · exact Or.inl rfl
    · split
      · exact Or.inl rfl
      · exact Or.inr rfl

theorem handleDeleteAd_frame (app : BulletinBoardApp) (request : HttpRequest)
    (response : HttpResponse) (advertId : Int) :
    (handleDeleteAd app request response advertId).1 = app ∨
      (handleDeleteAd app request response advertId).2.status = response.status := by
  unfold handleDeleteAd
  split
  · exact Or.inl rfl
  · split
    · exact Or.inl rfl
    · split
      · exact Or.inl rfl
      · exact Or.inr rfl

theorem handleRespondToAd_frame (app : BulletinBoardApp) (request : HttpRequest)
    (response : HttpResponse) (advertId : Int) :
    (handleRespondToAd app request response advertId).1 = app ∨
      (handleRespondToAd app request response advertId).2.status = response.status := by
  unfold handleRespondToAd
  split
  · exact Or.inl rfl
  · split
    · exact Or.inl rfl
    · split
      · exact Or.inl rfl
      · rename_i userId _ _ _ _
        dsimp only
        split
        · rename_i hc
          left
          cases hf : UMap.find app.responses_ advertId with
          | none =>
            rw [UMap.find_touch, if_pos rfl, hf] at hc
            simp [USet.count] at hc
          | some v =>
            dsimp only
            rw [UMap.touch_of_find _ hf]
        · exact Or.inr rfl

theorem handleAdResponders_frame (app : BulletinBoardApp) (request : HttpRequest)
    (response : HttpResponse) (advertId : Int) :
    (handleAdResponders app request response advertId).1 = app := by
  unfold handleAdResponders
  split
  · rfl
  · split
    · rfl
    · split <;> rfl

theorem definedOr_ok {r : Option (BulletinBoardApp × HttpResponse)} {called : Bool}
    {app1 : BulletinBoardApp} {response1 : HttpResponse}
    (h : definedOr r = .ok (called, app1, response1)) : r = some (app1, response1) := by
  unfold definedOr at h
  split at h
  · rename_i a b
    simp only [Except.ok.injEq, Prod.mk.injEq] at h
    rw [h.2.1, h.2.2]
  · exact absurd h (by simp)

theorem handleApi_frame (lib : StdLib) (app : BulletinBoardApp) (request : HttpRequest)
    (response : HttpResponse) (draws : Nat → Fin 16) (now : Int) {called : Bool}
    {app1 : BulletinBoardApp} {response1 : HttpResponse}
    (h : handleApi lib app request response draws now = .ok (called, app1, response1)) :
    app1 = app ∨
      ((request.method = "POST".toList ∨ request.method = "DELETE".toList) ∧ called = true ∧
        response1.status = response.status) := by
  unfold handleApi at h
  split at h
  · rename_i hm
    simp only [Except.ok.injEq, Prod.mk.injEq] at h
    obtain ⟨hc, hx⟩ := h
    have hf := handleRegister_frame lib app request response
    rw [hx] at hf
    exact hf.imp id (fun hs => ⟨Or.inl hm.1, hc.symm, hs⟩)
  split at h
  · rename_i hm
    have hd := definedOr_ok h
    have hc : called = true := by
      rw [hd] at h
      simp only [definedOr, Except.ok.injEq, Prod.mk.injEq] at h
      exact h.1.symm
    exact (handleLogin_frame lib app request response draws hd).imp id
      (fun hs => ⟨Or.inl hm.1, hc, hs⟩)
  split at h
  · rename_i hm
    simp only [Except.ok.injEq, Prod.mk.injEq] at h
    obtain ⟨hc, hx⟩ := h
    have hf := handleLogout_frame app request response
    rw [hx] at hf
    exact Or.inr ⟨Or.inl hm.1, hc.symm, hf⟩
  split at h
  · exact Or.inl (handleSession_frame app request response (definedOr_ok h))
  split at h
  · exact Or.inl (handleAdsList_frame lib app request response (definedOr_ok h))
  split at h
  · exact Or.inl (handleMyResponses_frame lib app request response (definedOr_ok h))
  split at h
  · rename_i hm
    simp only [Except.ok.injEq, Prod.mk.injEq] at h
    obtain ⟨hc, hx⟩ := h
    have hf := handleCreateAd_frame lib app request response now
    rw [hx] at hf
    exact hf.imp id (fun hs => ⟨Or.inl hm.1, hc.symm, hs⟩)
  split at h
  · rename_i idStr hid
    have hm : request.method = "DELETE".toList := by
      by_contra hne
      rw [if_neg (fun hh => hne hh.1)] at hid
      exact absurd hid (by simp)
    split at h
    · exact absurd h (by simp)
    · rename_i advertId _
      simp only [Except.ok.injEq, Prod.mk.injEq] at h
      obtain ⟨hc, hx⟩ := h
      have hf := handleDeleteAd_frame app request response advertId
      rw [hx] at hf
      exact hf.imp id (fun hs => ⟨Or.inr hm, hc.symm, hs⟩)
  · split at h
    · rename_i idStr hid
      have hm : request.method = "POST".toList := by
        by_contra hne
        rw [if_neg (fun hh => hne hh.1)] at hid
        exact absurd hid (by simp)
      split at h
      · exact absurd h (by simp)
      · rename_i advertId _
        simp only [Except.ok.injEq, Prod.mk.injEq] at h
        obtain ⟨hc, hx⟩ := h
        have hf := handleRespondToAd_frame app request response advertId
        rw [hx] at hf
        exact hf.imp id (fun hs => ⟨Or.inl hm, hc.symm, hs⟩)
    · split at h
      · split at h
        · exact absurd h (by simp)
        · rename_i advertId _
          simp only [Except.ok.injEq, Prod.mk.injEq] at h
          obtain ⟨hc, hx⟩ := h
          have hf := handleAdResponders_frame app request response advertId
          rw [hx] at hf
          exact Or.inl hf
      · simp only [Except.ok.injEq, Prod.mk.injEq] at h
        exact Or.inl h.2.1.symm

theorem routeRequest_frame_aux (lib : StdLib)
    (serveStatic : Str → HttpResponse → Bool × HttpResponse) (app : BulletinBoardApp)
    (request : HttpRequest) (response : HttpResponse) (draws : Nat → Fin 16) (now : Int)
    {app1 : BulletinBoardApp} {response1 : HttpResponse}
    (h : routeRequest lib serveStatic app request response draws now = .ok (app1, response1)) :
    app1 = app ∨
      ((request.method = "POST".toList ∨ request.method = "DELETE".toList) ∧
        response1.status = response.status) := by
  unfold routeRequest at h
  split at h
  · split at h
    · exact absurd h (by simp)
    · rename_i a r hapi
      simp only [Except.ok.injEq, Prod.mk.injEq] at h
      rcases handleApi_frame lib app request response draws now hapi with hf | ⟨hm, _, hs⟩
      · exact Or.inl (h.1 ▸ hf)
      · exact Or.inr ⟨hm, h.2 ▸ hs⟩
    · rename_i a r hapi
      simp only [Except.ok.injEq, Prod.mk.injEq] at h
      rcases handleApi_frame lib app request response draws now hapi with hf | ⟨_, hc, _⟩
      · exact Or.inl (h.1 ▸ hf)
      · exact absurd hc (by simp)
  · split at h
    · simp only [Except.ok.injEq, Prod.mk.injEq] at h
      exact Or.inl h.1.symm
    · simp only [Except.ok.injEq, Prod.mk.injEq] at h
      exact Or.inl h.1.symm

/-- C29. For every store and every request that routing answers: if the store after routing
differs from the store before, the method is `POST` or `DELETE` and the status is 200; a `GET`
request leaves the whole store as it is, and so does every request answered with 400, 401, 403,
404 or 409. -/
theorem routeRequest_frame (lib : StdLib)
    (serveStatic : Str → HttpResponse → Bool × HttpResponse) (app : BulletinBoardApp)
    (request : HttpRequest) (draws : Nat → Fin 16) (now : Int)
    (app1 : BulletinBoardApp) (response1 : HttpResponse)
    (h : routeRequest lib serveStatic app request {} draws now = .ok (app1, response1)) :
    (app1 ≠ app →
      (request.method = "POST".toList ∨ request.method = "DELETE".toList) ∧
        response1.status = 200) ∧
    (request.method = "GET".toList → app1 = app) ∧
    (response1.status ∈ [400, 401, 403, 404, 409] → app1 = app) := by
  have hf := routeRequest_frame_aux lib serveStatic app request {} draws now h
  refine ⟨fun hne => ?_, fun hget => ?_, fun hst => ?_⟩
  · rcases hf with hf | hf
    · exact absurd hf hne
    · exact hf
  · rcases hf with hf | ⟨hm | hm, _⟩
    · exact hf
    · rw [hget] at hm; exact absurd hm (by decide)
    · rw [hget] at hm; exact absurd hm (by decide)
  · rcases hf with hf | ⟨_, hs⟩
    · exact hf
    · rw [hs] at hst
      exact absurd hst (by decide)

theorem routeRequest_frame_witness :
    routeRequest sampleLib noFiles aliceStore
        (aliceCall "POST".toList "/api/ads/1/respond".toList) {} sampleDraws 0 =
      .ok (aliceResponded, { body := "\x7b\"success\":true\x7d".toList }) ∧
    aliceResponded ≠ aliceStore ∧
    ((aliceCall "POST".toList "/api/ads/1/respond".toList).method = "POST".toList ∨
      (aliceCall "POST".toList "/api/ads/1/respond".toList).method = "DELETE".toList) ∧
    ({ body := "\x7b\"success\":true\x7d".toList } : HttpResponse).status = 200 :=
  ⟨by decide, by decide,
    (routeRequest_frame sampleLib noFiles aliceStore
      (aliceCall "POST".toList "/api/ads/1/respond".toList) sampleDraws 0 aliceResponded
      { body := "\x7b\"success\":true\x7d".toList } (by decide)).1 (by decide)⟩

/-- A second response by the same user is answered 409 and leaves the store as it is. -/
theorem routeRequest_conflict_sample :
    (routeRequest sampleLib noFiles aliceResponded
        (aliceCall "POST".toList "/api/ads/1/respond".toList) {} sampleDraws 0).map
      (fun r => (decide (r.1 = aliceResponded), r.2.status)) = .ok (true, 409) := by
  decide

/-! ## C27: user ids and the lookups `users_[id - 1]` -/

theorem WellFormed.emailIndex_range {app : BulletinBoardApp} (wf : WellFormed app) {e : Str}
    {k : Int} (h : UMap.find app.emailToUserId_ e = some k) :
    ∃ u, usersAt app.users_ (k - 1) = some u ∧ u.id = k ∧ u.email = e ∧
      1 ≤ k ∧ k ≤ (app.users_.length : Int) := by
  obtain ⟨u, hu, he⟩ := wf.emailIndex e k h
  have hid := wf.usersAt_id hu
  have hr := wf.user_id_range (WellFormed.usersAt_mem hu)
  rw [hid] at hr
  exact ⟨u, hu, hid, he, hr⟩

theorem WellFormed.usersAt_of_id {app : BulletinBoardApp} (wf : WellFormed app) {id : Int}
    (h1 : 1 ≤ id) (h2 : id ≤ (app.users_.length : Int)) :
    ∃ u, usersAt app.users_ (id - 1) = some u ∧ u.id = id := by
  obtain ⟨u, hu, _⟩ := usersAt_of_range h1 h2
  exact ⟨u, hu, wf.usersAt_id hu⟩

theorem handleLogin_isSome (lib : StdLib) {app : BulletinBoardApp}
    (wf : WellFormed app) (request : HttpRequest) (response : HttpResponse)
    (draws : Nat → Fin 16) : (handleLogin lib app request response draws).isSome = true := by
  unfold handleLogin
  dsimp only
  split
  · rfl
  · split
    · rfl
    · rename_i userId hfind
      obtain ⟨u, hu, _⟩ := wf.emailIndex_range hfind
      rw [hu]
      dsimp only
      split <;> rfl

theorem handleSession_isSome {app : BulletinBoardApp} (wf : WellFormed app)
    (request : HttpRequest) (response : HttpResponse) :
    (handleSession app request response).isSome = true := by
  unfold handleSession
  split
  · rfl
  · rename_i userId hauth
    obtain ⟨h1, h2⟩ := wf.authenticate_range hauth
    obtain ⟨u, hu, _⟩ := wf.usersAt_of_id h1 h2
    rw [hu]
    rfl

theorem handleMyResponses_isSome (lib : StdLib) {app : BulletinBoardApp}
    (wf : WellFormed app) (request : HttpRequest) (response : HttpResponse) :
    (handleMyResponses lib app request response).isSome = true := by
  cases hauth : authenticate app request with
  | none =>
    unfold handleMyResponses
    rw [hauth]
    rfl
  | some u =>
    rw [handleMyResponses_ok lib wf response hauth]
    rfl

/-- C27. In every reachable store the user at position `k` (counted from 0) has id `k + 1`, no
two positions hold users with the same email, the email index maps the email of every user to
the id of that user, and every owner id of an advert, every user id of a session, every
responder id and every id in the email index lies between 1 and the number of users; the lookup
`users_[id - 1]` of such an id returns the user with that id, and so the handlers of login,
session, ads listing and my-responses, which are undefined only when such a lookup is out of
range, are defined on every request. -/
theorem users_invariant (lib : StdLib) (app : BulletinBoardApp) (hreach : Reachable lib app) :
    (∀ (k : Nat) (u : User), app.users_[k]? = some u → u.id = (k : Int) + 1) ∧
    (∀ (i j : Nat) (u v : User), app.users_[i]? = some u → app.users_[j]? = some v →
      u.email = v.email → i = j) ∧
    (∀ u ∈ app.users_, UMap.find app.emailToUserId_ u.email = some u.id) ∧
    (∀ ad ∈ app.adverts_, 1 ≤ ad.ownerId ∧ ad.ownerId ≤ (app.users_.length : Int)) ∧
    (∀ (t : Str) (k : Int), UMap.find app.sessions_ t = some k →
      1 ≤ k ∧ k ≤ (app.users_.length : Int)) ∧
    (∀ p ∈ app.responses_, ∀ u ∈ p.2, 1 ≤ u ∧ u ≤ (app.users_.length : Int)) ∧
    (∀ (e : Str) (k : Int), UMap.find app.emailToUserId_ e = some k →
      1 ≤ k ∧ k ≤ (app.users_.length : Int)) ∧
    (∀ id : Int, 1 ≤ id → id ≤ (app.users_.length : Int) →
      ∃ u, usersAt app.users_ (id - 1) = some u ∧ u.id = id) ∧
    (∀ (request : HttpRequest) (response : HttpResponse) (draws : Nat → Fin 16),
      (handleLogin lib app request response draws).isSome = true) ∧
    (∀ (request : HttpRequest) (response : HttpResponse),
      (handleSession app request response).isSome = true) ∧
    (∀ (request : HttpRequest) (response : HttpResponse),
      (handleAdsList lib app request response).isSome = true) ∧
    (∀ (request : HttpRequest) (response : HttpResponse),
      (handleMyResponses lib app request response).isSome = true) := by
  have wf := hreach.wellFormed
  refine ⟨wf.userIds, ?_, wf.userEmails, wf.advertOwners, wf.sessionIds,
    fun p hp => (wf.responseSets p hp).2, ?_, fun id h1 h2 => wf.usersAt_of_id h1 h2,
    handleLogin_isSome lib wf, handleSession_isSome wf, ?_, handleMyResponses_isSome lib wf⟩
  · intro i j u v hu hv he
    have h1 := wf.userEmails u (List.mem_iff_getElem?.mpr ⟨i, hu⟩)
    have h2 := wf.userEmails v (List.mem_iff_getElem?.mpr ⟨j, hv⟩)
    rw [he, h2] at h1
    have h3 := wf.userIds i u hu
    have h4 := wf.userIds j v hv
    simp only [Option.some.injEq] at h1
    omega
  · intro e k h
    obtain ⟨_, _, _, _, hr⟩ := wf.emailIndex_range h
    exact hr
  · intro request response
    rw [handleAdsList_eq lib wf]
    rfl

theorem users_invariant_witness :
    Reachable sampleLib bothStore ∧
    bothStore.users_.map (fun u => u.id) = [1, 2] ∧
    (∀ (request : HttpRequest) (response : HttpResponse),
      (handleSession bothStore request response).isSome = true) ∧
    (∀ (request : HttpRequest) (response : HttpResponse),
      (handleAdsList sampleLib bothStore request response).isSome = true) ∧
    (∀ (request : HttpRequest) (response : HttpResponse),
      (handleMyResponses sampleLib bothStore request response).isSome = true) :=
  ⟨bothStore_reachable, by decide,
    (users_invariant sampleLib bothStore bothStore_reachable).2.2.2.2.2.2.2.2.2⟩

end BulletinBoard
